import Mathlib

/-!
Dr. Memory error reporting: the suppression engine of `drmemory/report.c`.

A shallow embedding of the suppression-file reader (`get_suppress_type`,
`add_suppress_spec`, `read_suppression_file`) and of the suppression matcher
(`on_suppression_list`, `write_suppress_pattern`) of `report.c`, in the build
with `USE_DRSYMS` defined: the build in which symbolic `mod!func` suppressions
and the suggested-suppressions file `f_suppress` exist, and in which a frame of
the rendered callstack takes two lines, the second being its `file:line`.

Conventions of the embedding:

* a C string (`char *` pointing at NUL-terminated text) is the list of its
  characters before the terminating NUL; the line buffer `buf` is a raw list
  of bytes, on which `strchr` stops at the first NUL;
* a pointer into a C string is the suffix of the string that starts there, and
  the result of `strchr`/`strstr` is the offset of the hit from the pointer
  that was searched (so `q < p` on two hits in the same string is `<` on their
  offsets, and `p + n` is `List.drop n`);
* a failed `ASSERT` and a fatal `usage_error` end the run: functions that can
  reach one return `Except Fault _`;
* `dr_read_file(f, p, n)` delivers the next `n` bytes of the file, fewer only
  at its end;
* the line terminator `NL` of the output macros is a parameter `nl`;
* loops whose C form is `while` run on a fuel counter that is an upper bound of
  their number of iterations; the theorems `on_suppression_list_fuel` and
  `read_suppression_file_fuel` show that it is never used up.
-/

namespace DrMemory

/-! ## C library -/

/-- The terminator of C strings. -/
def NUL : Char := Char.ofNat 0

/-- `strchr(s, c)` for `c != NUL`: offset of the first `c` in the text at `s`,
searching no further than the terminating NUL.  The argument may be a raw
buffer, whose first NUL byte ends the string. -/
def strchr : List Char → Char → Option Nat
  | [], _ => none
  | x :: xs, c =>
    if x = c then some 0
    else if x = NUL then none
    else (strchr xs c).map (· + 1)

/-- `strstr(s, pat)`: offset of the first occurrence of `pat` in `s`. -/
def strstr : List Char → List Char → Option Nat
  | [], pat => if pat.isEmpty then some 0 else none
  | x :: xs, pat =>
    if pat.isPrefixOf (x :: xs) then some 0
    else (strstr xs pat).map (· + 1)

/-! ## Error kinds and suppression specs -/

/-- The `ERROR_` enum: number of error kinds. -/
def ERROR_MAX_VAL : Nat := 6

def ERROR_UNADDRESSABLE : Nat := 0
def ERROR_UNDEFINED : Nat := 1
def ERROR_INVALID_HEAP_ARG : Nat := 2
def ERROR_WARNING : Nat := 3
def ERROR_LEAK : Nat := 4
def ERROR_POSSIBLE_LEAK : Nat := 5

/-- The table `suppress_name[]`. -/
def suppress_name : List (List Char) :=
  [ "UNADDRESSABLE ACCESS".toList,
    "UNINITIALIZED READ".toList,
    "INVALID HEAP ARGUMENT".toList,
    "WARNING".toList,
    "LEAK".toList,
    "POSSIBLE LEAK".toList ]

/-- Equality of results is decidable when it is on errors and on values. -/
instance instDecidableEqExcept {ε α : Type} [DecidableEq ε] [DecidableEq α] :
    DecidableEq (Except ε α)
  | .ok a, .ok b =>
    if h : a = b then isTrue (by rw [h])
    else isFalse (fun h2 => h (Except.ok.inj h2))
  | .error a, .error b =>
    if h : a = b then isTrue (by rw [h])
    else isFalse (fun h2 => h (Except.error.inj h2))
  | .ok _, .error _ => isFalse (fun h => Except.noConfusion h)
  | .error _, .ok _ => isFalse (fun h => Except.noConfusion h)

/-- Ways in which a run ends without returning. -/
inductive Fault where
  /-- an `ASSERT` does not hold -/
  | assertion
  /-- `usage_error("malformed suppression: no error type on line ", line)` -/
  | usage_no_type (line : List Char)
  /-- `usage_error("malformed suppression mixes symbols and offsets: ", line)` -/
  | usage_mixed (line : List Char)
  /-- the fuel of a loop ran out (never happens with the fuel the callers pass) -/
  | fuel
  deriving DecidableEq, Repr

/-- The struct `suppress_spec_t` without its `next` link: the list of specs of
one kind is a `List`.  `num_frames` is the length of `frames`; an entry of
`frames` is `none` for a NULL pointer. -/
structure suppress_spec_t where
  symbolic : Bool
  frames : List (Option (List Char))
  deriving DecidableEq, Repr

/-- The field `num_frames` of a spec. -/
def suppress_spec_t.num_frames (s : suppress_spec_t) : Nat := s.frames.length

/-! ## Matching a callstack against the suppression list -/

/-- Outcome of comparing one spec frame with the text at `epos`. -/
inductive seg_result where
  /-- every segment matched; the payload is the final `epos` -/
  | matched (epos : List Char)
  /-- `goto next_supp` -/
  | next_supp
  /-- fuel ran out -/
  | fuel
  deriving DecidableEq, Repr

/-- The loop `while (pat != NULL)` of `on_suppression_list`.  `at_start` is
`pat == pframe`, `pat` the rest of the copied pattern frame, `epos` the
position in the rendered stack. -/
def match_segments (symbolic : Bool) :
    Nat → Bool → List Char → List Char → seg_result
  | 0, _, _, _ => .fuel
  | fuel + 1, at_start, pat, epos =>
    let nextpat := strchr pat '*'
    if nextpat = some 0 then
      -- pat = nextpat + 1; continue
      match_segments symbolic fuel false (pat.drop 1) epos
    else
      -- *nextpat = NUL: the segment is the text before the star
      let seg := match nextpat with
        | some k => pat.take k
        | none => pat
      match strstr epos seg with
      | none => .next_supp
      | some nexte =>
        if at_start && nexte != 0 then .next_supp
        else if !symbolic && (match strchr epos '>' with
            | some tmp => decide (tmp < nexte)
            | none => false) then .next_supp
        else if (match strchr epos '\n' with
            | some tmp => decide (tmp < nexte)
            | none => false) then .next_supp
        else
          let epos1 := epos.drop (nexte + seg.length)
          match nextpat with
          | none => .matched epos1
          | some k => match_segments symbolic fuel false (pat.drop (k + 1)) epos1

/-- Outcome of comparing one spec with the rendered stack. -/
inductive spec_result where
  /-- the pattern ended: prefix match -/
  | is_match
  /-- `goto supp_done` with `match == false`: pattern longer than error -/
  | supp_done
  /-- `goto next_supp` -/
  | next_supp
  deriving DecidableEq, Repr

/-- The text `"system call"`. -/
def system_call : List Char := "system call".toList

/-- The start `epos` of the text that a spec frame is compared with, for the
frame of the rendered stack at `eframe`: the text `system call` if the stack
has it from `eframe` on, else the text after `> ` for a symbolic spec and the
text from `<` for a mod+offs spec. -/
def frame_epos (symbolic : Bool) (eframe : List Char) : Except Fault (List Char) :=
  match strstr eframe system_call with
  | some k => .ok (eframe.drop k) -- system call - nothing to do here
  | none =>
    if symbolic then
      match strchr eframe '>' with
      | none => .error .assertion
      | some k =>
        if (eframe.drop (k + 1)).head? = some ' '
        then .ok (eframe.drop (k + 2)) -- skip '> '
        else .error .assertion
    else
      match strchr eframe '<' with
      | none => .error .assertion
      | some k => .ok (eframe.drop k)

/-- The loop `for (i = 0; i < spec->num_frames; i++)` of
`on_suppression_list`, run on the frames that remain, with `eframe` the start
of the current frame of the rendered stack. -/
def match_frames (symbolic : Bool) :
    List (Option (List Char)) → List Char → Except Fault spec_result
  | [], _ => .ok .is_match
  | frame :: rest, eframe =>
    if eframe.isEmpty then .ok .supp_done -- no match: pattern longer than error
    else
      match frame_epos symbolic eframe with
      | .error e => .error e
      | .ok epos =>
        match frame with
        | none => .error .assertion
        | some pframe =>
          match match_segments symbolic (pframe.length + 1) true pframe epos with
          | .fuel => .error .fuel
          | .next_supp => .ok .next_supp
          | .matched epos1 =>
            -- move to next frame
            match strchr epos1 '\n' with
            | none => .error .assertion
            | some k =>
              -- skip file:line# line
              match strchr (epos1.drop (k + 1)) '\n' with
              | none => .error .assertion
              | some j => match_frames symbolic rest (epos1.drop (k + 1 + j + 1))

/-- The loop `for (spec = supp_list[type]; spec != NULL; spec = spec->next)`:
the value of `match` at `supp_done`. -/
def match_specs : List suppress_spec_t → List Char → Except Fault Bool
  | [], _ => .ok false
  | spec :: rest, cstack =>
    match match_frames spec.symbolic spec.frames cstack with
    | .error e => .error e
    | .ok .is_match => .ok true
    | .ok .supp_done => .ok false
    | .ok .next_supp => match_specs rest cstack

/-- One iteration body of the loop of `write_suppress_pattern`: the text
printed for the frame at `eframe`, and the position `end`. -/
def write_frame (nl : List Char) (symbolic : Bool) (eframe : List Char) :
    Except Fault (List Char × List Char) :=
  match strstr eframe system_call with
  | some k =>
    let epos := eframe.drop k
    match strchr epos '\n' with
    | none => .error .assertion
    | some e => .ok (epos.take e ++ nl, epos.drop e)
  | none =>
    if symbolic then
      match strchr eframe '>' with
      | none => .error .assertion
      | some k =>
        if (eframe.drop (k + 1)).head? = some ' ' then
          let epos := eframe.drop (k + 2)
          match strchr epos '\n' with
          | none => .error .assertion
          | some e =>
            -- i#285: replace ? with *
            match strchr epos '?' with
            | some q =>
              if q < e then
                .ok (epos.take q ++ ['*'] ++ (epos.drop (q + 1)).take (e - (q + 1)) ++ nl,
                     epos.drop e)
              else .ok (epos.take e ++ nl, epos.drop e)
            | none => .ok (epos.take e ++ nl, epos.drop e)
        else .error .assertion
    else
      match strchr eframe '<' with
      | none => .error .assertion
      | some k =>
        let epos := eframe.drop k
        match strchr epos '>' with
        | none => .error .assertion
        | some g =>
          match strchr epos '\n' with
          | none => .error .assertion
          | some e => .ok (epos.take g ++ ['>'] ++ nl, epos.drop e)

/-- The loop `while (eframe != NULL && *eframe != NUL)` of
`write_suppress_pattern`: the text printed for the frames from `eframe` on. -/
def write_frames (nl : List Char) (symbolic : Bool) :
    Nat → List Char → Except Fault (List Char)
  | 0, _ => .error .fuel
  | fuel + 1, eframe =>
    if eframe.isEmpty then .ok []
    else
      match write_frame nl symbolic eframe with
      | .error e => .error e
      | .ok (out, endp) =>
        -- move to next frame: skip file:line# line
        match strchr (endp.drop 1) '\n' with
        | none => .error .assertion
        | some j =>
          match write_frames nl symbolic fuel (endp.drop (1 + j + 1)) with
          | .error e => .error e
          | .ok more => .ok (out ++ more)

/-- The function `write_suppress_pattern(type, cstack, symbolic)`: the text it
appends to `f_suppress`.  `nl` is the line terminator `NL`. -/
def write_suppress_pattern (nl : List Char) (type : Nat) (cstack : List Char)
    (symbolic : Bool) : Except Fault (List Char) :=
  if type < ERROR_MAX_VAL then
    match write_frames nl symbolic (cstack.length + 1) cstack with
    | .error e => .error e
    | .ok body => .ok (suppress_name.getD type [] ++ nl ++ body)
  else .error .assertion

/-- The function `on_suppression_list(type, cstack)` over the global
`supp_list`: its return value and the text it appends to `f_suppress`. -/
def on_suppression_list (nl : List Char) (supp_list : List (List suppress_spec_t))
    (type : Nat) (cstack : List Char) : Except Fault (Bool × List Char) :=
  if type < ERROR_MAX_VAL then
    match match_specs (supp_list.getD type []) cstack with
    | .error e => .error e
    | .ok true => .ok (true, [])
    | .ok false =>
      -- write supp patterns to f_suppress
      match write_suppress_pattern nl type cstack true with
      | .error e => .error e
      | .ok sym =>
        match write_suppress_pattern nl type cstack false with
        | .error e => .error e
        | .ok offs =>
          .ok (false,
            sym ++ "\n# the mod+offs form of the above callstack:".toList ++ nl
              ++ offs ++ nl)
  else .error .assertion

/-! ## Reading a suppression file -/

/-- The size `BUFSIZE` of the line buffer `buf`. -/
def BUFSIZE : Nat := 4096

/-- The function `get_suppress_type(line)`; `none` stands for `-1`. -/
def get_suppress_type (line : List Char) : Option Nat :=
  if line.isEmpty then none
  else suppress_name.findIdx? (fun name => strstr line name == some 0)

/-- The globals of the suppression list: `supp_list[]`, `supp_num[]`
(both indexed by error kind) and `num_suppressions`. -/
structure supp_globals where
  supp_list : List (List suppress_spec_t)
  supp_num : List Nat
  num_suppressions : Nat
  deriving DecidableEq, Repr

/-- The globals at program start: no suppression. -/
def supp_globals.init : supp_globals :=
  { supp_list := List.replicate ERROR_MAX_VAL [],
    supp_num := List.replicate ERROR_MAX_VAL 0,
    num_suppressions := 0 }

/-- The end of `add_suppress_spec`: `spec` is inserted at the head of the list
of its kind and counted.  The counters are `uint`. -/
def link_spec (g : supp_globals) (type : Nat) (spec : suppress_spec_t) : supp_globals :=
  { supp_list := g.supp_list.set type (spec :: g.supp_list.getD type []),
    supp_num := g.supp_num.set type ((g.supp_num.getD type 0 + 1) % 2 ^ 32),
    num_suppressions := (g.num_suppressions + 1) % 2 ^ 32 }

/-- The function `add_suppress_spec(type, symbolic, num_frames, frames)` with
`USE_DRSYMS`: the new globals and the caller's array `frames`, whose first
`num_frames` entries were moved into the spec and set to NULL.  Its `ASSERT`
on `type` holds at both calls, where `type` is a result of
`get_suppress_type`. -/
def add_suppress_spec (g : supp_globals) (type : Nat) (symbolic : Bool)
    (num_frames : Nat) (frames : List (Option (List Char))) :
    supp_globals × List (Option (List Char)) :=
  (link_spec g type { symbolic := symbolic, frames := frames.take num_frames },
   List.replicate (min num_frames frames.length) none ++ frames.drop num_frames)

/-- The locals of `read_suppression_file` that describe the current callstack,
with the globals. -/
structure reader where
  /-- the variable `curtype`; `none` stands for `-1` -/
  curtype : Option Nat
  symbolic : Bool
  modoffs : Bool
  num_frames : Nat
  /-- the array `frames`, of `options.callstack_max_frames` entries -/
  frames : List (Option (List Char))
  g : supp_globals
  deriving DecidableEq, Repr

/-- The body of the loop of `read_suppression_file` once `line` is isolated
and its line ending removed; `max_frames` is `options.callstack_max_frames`. -/
def process_line (max_frames : Nat) (st : reader) (line : List Char) :
    Except Fault reader :=
  if line.head? = none || line.head? = some '#' then
    .ok st -- Skip blank and comment lines.
  else
    match get_suppress_type line with
    | some type =>
      let (g, frames) :=
        match st.curtype with
        | some curtype =>
          -- the prior callstack completed successfully
          add_suppress_spec st.g curtype st.symbolic st.num_frames st.frames
        | none => (st.g, st.frames)
      -- starting a new callstack
      .ok { curtype := some type, symbolic := false, modoffs := false,
            num_frames := 0, frames := frames, g := g }
    | none =>
      if st.num_frames ≥ max_frames then
        .ok st -- we truncate suppression callstacks to match requested max
      else if st.curtype = none then
        .error (.usage_no_type line)
      else if (st.symbolic && line.head? = some '<') ||
          (st.modoffs && line.head? != some '<') then
        .error (.usage_mixed line)
      else
        let modoffs := if !st.modoffs && line.head? = some '<' then true else st.modoffs
        let symbolic :=
          if !st.modoffs && line.head? = some '<' then st.symbolic
          else if !st.symbolic && line.head? != some '<' then true
          else st.symbolic
        .ok { st with
              modoffs := modoffs, symbolic := symbolic,
              frames := st.frames.set st.num_frames (some line),
              num_frames := st.num_frames + 1 }

/-- The position in `buf` between two lines: `consumed` is `line - buf` after
`line = newline + 1`, and `rest` is the text from `line` to `buf[bufread]`. -/
structure buffer where
  consumed : Nat
  rest : List Char
  deriving DecidableEq, Repr

/-- The removal of the line ending: `*newline = NUL`, and a `CR` right before
the newline is overwritten with NUL too. -/
def strip_cr (line : List Char) : List Char :=
  if line.getLast? = some '\r' then line.dropLast else line

/-- The loop `while (true)` of `read_suppression_file`.  `pos` is `none` while
`newline == NULL`; `file` is the part of the file not read yet, and
`dr_read_file(f, p, n)` delivers its first `n` bytes (fewer at the end of the
file).  The result is the state at `break`. -/
def read_loop (max_frames : Nat) :
    Nat → Option buffer → List Char → reader → Except Fault reader
  | 0, _, _, _ => .error .fuel
  | fuel + 1, pos, file, st =>
    -- the buffer text that starts at `line`, its offset in `buf`, the hit of
    -- `strchr` for the newline, and the unread part of the file
    let step : Option (List Char × Nat × Option Nat × List Char) :=
      match pos with
      | none =>
        let bufwant := BUFSIZE - 1
        let chunk := file.take bufwant
        if chunk.length ≤ 0 then none
        else some (chunk, 0, strchr chunk '\n', file.drop bufwant)
      | some b =>
        match strchr b.rest '\n' with
        | some k => some (b.rest, b.consumed, some k, file)
        | none =>
          -- shift 1st part of line to start of buf, then read in rest
          let bufwant := b.consumed
          let chunk := file.take bufwant
          if chunk.length ≤ 0 then none
          else
            let text := b.rest ++ chunk
            some (text, 0, strchr text '\n', file.drop bufwant)
    match step with
    | none => .ok st -- break
    | some (_, _, none, _) => .error .assertion
    | some (text, base, some k, file1) =>
      match process_line max_frames st (strip_cr (text.take k)) with
      | .error e => .error e
      | .ok st1 =>
        read_loop max_frames fuel (some ⟨base + k + 1, text.drop (k + 1)⟩) file1 st1

/-- The locals of `read_suppression_file` at the start of its loop, with the
array `frames` zeroed by `memset`. -/
def reader_init (max_frames : Nat) (g : supp_globals) : reader :=
  { curtype := none, symbolic := false, modoffs := false, num_frames := 0,
    frames := List.replicate max_frames none, g := g }

/-- The end of `read_suppression_file`, after the loop: the last callstack is
added. -/
def read_finish (st : reader) : supp_globals :=
  match st.curtype with
  | some curtype =>
    -- the last callstack completed successfully
    (add_suppress_spec st.g curtype st.symbolic st.num_frames st.frames).1
  | none => st.g

/-- The function `read_suppression_file(f)`: the globals after reading the
file whose bytes are `file`, from the globals `g`. -/
def read_suppression_file (max_frames : Nat) (g : supp_globals) (file : List Char) :
    Except Fault supp_globals :=
  match read_loop max_frames (file.length + 1) none file (reader_init max_frames g) with
  | .error e => .error e
  | .ok st => .ok (read_finish st)

/-- The loop body of `read_suppression_file` run on a list of isolated lines:
the view of `read_loop` once the buffer is abstracted away. -/
def process_lines (max_frames : Nat) : reader → List (List Char) → Except Fault reader
  | st, [] => .ok st
  | st, l :: ls =>
    match process_line max_frames st l with
    | .error e => .error e
    | .ok st1 => process_lines max_frames st1 ls

/-! ## The suppression file format in the words of the specification -/

/-- The file made of the lines `ls`, each ended by a newline. -/
def join_lines : List (List Char) → List Char
  | [] => []
  | l :: ls => l ++ '\n' :: join_lines ls

/-- A line of text that the line buffer can hold: no newline and no NUL inside
and, with its newline, at most `BUFSIZE - 1` bytes. -/
def line_ok (l : List Char) : Prop :=
  '\n' ∉ l ∧ NUL ∉ l ∧ l.length + 1 < BUFSIZE

/-- The predicate `line_ok` can be computed. -/
instance instDecidableLineOk (l : List Char) : Decidable (line_ok l) := by
  unfold line_ok; infer_instance

/-- Blank lines and comment lines (first character `#`). -/
def is_skipped (l : List Char) : Bool :=
  l.head? = none || l.head? = some '#'

/-- The kind of a header line: the index of the canonical kind name that the
line begins with, if any. -/
def header_kind (l : List Char) : Option Nat :=
  suppress_name.findIdx? (fun name => name.isPrefixOf l)

/-- The frame lines at the head of `ls`: the non-blank, non-comment lines up to
the next header or the end of the file. -/
def frame_lines (ls : List (List Char)) : List (List Char) :=
  (ls.takeWhile (fun l => header_kind l = none)).filter (fun l => !is_skipped l)

/-- The stanzas of a file, in file order: one per header line, with the kind of
the header and the frame lines that follow it. -/
def stanzas : List (List Char) → List (Nat × List (List Char))
  | [] => []
  | l :: ls =>
    match header_kind l with
    | some k => (k, frame_lines ls) :: stanzas ls
    | none => stanzas ls

/-- Offset form of a frame line: it starts with `<`. -/
def is_offset_form (f : List Char) : Bool := f.head? = some '<'

/-- All frame lines are of one form. -/
def homogeneous (fs : List (List Char)) : Bool :=
  fs.all is_offset_form || fs.all (fun f => !is_offset_form f)

/-- The spec that a stanza with the frame lines `fs` stands for when at most
`max_frames` frames are kept. -/
def spec_of (max_frames : Nat) (fs : List (List Char)) : suppress_spec_t :=
  { symbolic := (fs.take max_frames).any (fun f => !is_offset_form f),
    frames := (fs.take max_frames).map some }

/-- The files without configuration error: no frame line before the first
header, and in every stanza the frame lines that are kept are of one form.
With `max_frames = 0` no frame line is ever looked at. -/
def accepted (max_frames : Nat) (ls : List (List Char)) : Bool :=
  (max_frames == 0 || (frame_lines ls).isEmpty) &&
    (stanzas ls).all (fun s => homogeneous (s.2.take max_frames))

/-- The globals after the specs of the stanzas `ss` are added in file order. -/
def link_all (max_frames : Nat) (g : supp_globals) (ss : List (Nat × List (List Char))) :
    supp_globals :=
  ss.foldl (fun g s => link_spec g s.1 (spec_of max_frames s.2)) g

/-- The fatal configuration errors reported by `usage_error`. -/
def Fault.is_usage : Fault → Bool
  | .usage_no_type _ => true
  | .usage_mixed _ => true
  | _ => false

/-- The state of the reader inside a stanza whose kept frame lines so far are
`stored`: they fill the first entries of the array `frames`, and the two
format flags tell which forms occur among them. -/
structure reader_inv (max_frames : Nat) (st : reader) (stored : List (List Char)) :
    Prop where
  num : st.num_frames = stored.length
  le : stored.length ≤ max_frames
  len : st.frames.length = max_frames
  arr : st.frames.take stored.length = stored.map some
  sym : st.symbolic = stored.any (fun f => !is_offset_form f)
  offs : st.modoffs = stored.any is_offset_form
  hom : homogeneous stored = true

/-- The specs of kind `k` that the stanzas of a file stand for, the last stanza
of the file first (the order of the linked list `supp_list[k]`). -/
def specs_of_kind (max_frames : Nat) (ls : List (List Char)) (k : Nat) :
    List suppress_spec_t :=
  (((stanzas ls).filter (fun s => s.1 == k)).map (fun s => spec_of max_frames s.2)).reverse

/-- The list heads `supp_list[]` with the specs `specs` as the whole list of
kind `k` and no spec of another kind. -/
def supp_for (k : Nat) (specs : List suppress_spec_t) : List (List suppress_spec_t) :=
  (List.replicate ERROR_MAX_VAL []).set k specs

/-- Lines of a file obtained from another by inserting blank lines, comment
lines, and a CR at the end of lines that do not end in one. -/
inductive Inserted : List (List Char) → List (List Char) → Prop where
  | nil : Inserted [] []
  | keep (l : List Char) {ls ls1 : List (List Char)} :
      Inserted ls ls1 → Inserted (l :: ls) (l :: ls1)
  | cr (l : List Char) {ls ls1 : List (List Char)} :
      l.getLast? ≠ some '\r' → Inserted ls ls1 → Inserted (l :: ls) ((l ++ ['\r']) :: ls1)
  | blank {ls ls1 : List (List Char)} :
      Inserted ls ls1 → Inserted ls ([] :: ls1)
  | blank_cr {ls ls1 : List (List Char)} :
      Inserted ls ls1 → Inserted ls (['\r'] :: ls1)
  | comment (c : List Char) {ls ls1 : List (List Char)} :
      Inserted ls ls1 → Inserted ls (('#' :: c) :: ls1)

/-! ## The error table and the counters of the report module -/

/-- Modelled from the spec: a packed callstack of `callstack.c`, which is absent
from the sources: the stack fingerprint of an error, an array of frames (here
the frames are numbers).  `packed_callstack_cmp` is the equality of two
fingerprints, frame by frame. -/
abbrev packed_callstack_t := List Nat

/-- The record `stored_error_t` of the error table (the field `next` is the
order of the list `report_state.errors`). -/
structure stored_error_t where
  id : Nat
  errtype : Nat
  count : Nat
  suppressed : Bool
  pcs : packed_callstack_t
  deriving DecidableEq, Repr

/-- The fields of `options` that the error accumulator reads; the declaration of
the options is absent from the sources, so they are parameters. -/
structure options_t where
  report_max : Int
  report_leak_max : Int
  show_reachable : Bool
  verbose : Nat
  ignore_early_leaks : Bool
  check_leaks : Bool
  possible_leaks : Bool
  deriving DecidableEq, Repr

/-- What the error accumulator takes from outside `report.c`: the options, the
line end `NL`, the width of `size_t` in bits, and `packed_callstack_print` of
the absent `callstack.c`, the rendering of a stack fingerprint. -/
structure report_env where
  options : options_t
  nl : List Char
  size_bits : Nat
  packed_callstack_print : packed_callstack_t → List Char

/-- The static variables of `report.c`.  `errors` is the list
`error_head .. error_tail`, in insertion order; its records are the payloads of
the hash table `error_table`.  `f_suppress` is the text appended to the file of
suggested suppressions; `f_results` lists the reports written to the results
file, `some n` for a report headed `Error #n` and `none` for a leak report
without a number. -/
structure report_state where
  error_id : Nat
  num_reported_errors : Nat
  num_total_leaks : Nat
  num_throttled_errors : Nat
  num_throttled_leaks : Nat
  num_leaks_ignored : Nat
  num_bytes_leaked : Nat
  num_bytes_possible_leaked : Nat
  num_suppressions_matched : Nat
  num_suppressed_leaks : Nat
  num_reachable_leaks : Nat
  saved_throttled_leaks : Nat
  saved_total_leaks : Nat
  saved_leaks_ignored : Nat
  saved_suppressed_leaks : Nat
  saved_possible_leaks_total : Nat
  saved_possible_leaks_unique : Nat
  saved_reachable_leaks : Nat
  saved_leaks_unique : Nat
  saved_leaks_total : Nat
  saved_bytes_leaked : Nat
  saved_bytes_possible_leaked : Nat
  num_unique : List Nat
  num_total : List Nat
  errors : List stored_error_t
  supp : supp_globals
  f_suppress : List Char
  f_results : List (Option Nat)
  deriving DecidableEq, Repr

/-- The statics when `report_init` has read the suppression files: every
counter is zero and the error table is empty. -/
def report_state.init (supp : supp_globals) : report_state :=
  { error_id := 0, num_reported_errors := 0, num_total_leaks := 0,
    num_throttled_errors := 0, num_throttled_leaks := 0, num_leaks_ignored := 0,
    num_bytes_leaked := 0, num_bytes_possible_leaked := 0,
    num_suppressions_matched := 0, num_suppressed_leaks := 0,
    num_reachable_leaks := 0,
    saved_throttled_leaks := 0, saved_total_leaks := 0, saved_leaks_ignored := 0,
    saved_suppressed_leaks := 0, saved_possible_leaks_total := 0,
    saved_possible_leaks_unique := 0, saved_reachable_leaks := 0,
    saved_leaks_unique := 0, saved_leaks_total := 0, saved_bytes_leaked := 0,
    saved_bytes_possible_leaked := 0,
    num_unique := List.replicate ERROR_MAX_VAL 0,
    num_total := List.replicate ERROR_MAX_VAL 0,
    errors := [], supp := supp, f_suppress := [], f_results := [] }

/-- The increment `x++` of a `uint`. -/
def uint_inc (x : Nat) : Nat := (x + 1) % 2 ^ 32

/-- The decrement `x--` of a `uint`. -/
def uint_dec (x : Nat) : Nat := (x + (2 ^ 32 - 1)) % 2 ^ 32

/-- The increment `a[i]++` of a `uint` array. -/
def array_inc (a : List Nat) (i : Nat) : List Nat := a.modify uint_inc i

/-- The decrement `a[i]--` of a `uint` array. -/
def array_dec (a : List Nat) (i : Nat) : List Nat := a.modify uint_dec i

/-- The function `stored_error_create`, followed by the assignment of
`err->pcs`: every other field is zero.  The `ASSERT(type < ERROR_MAX_VAL)` is
in `record_error`. -/
def stored_error_create (type : Nat) (pcs : packed_callstack_t) : stored_error_t :=
  { id := 0, errtype := type, count := 0, suppressed := false, pcs := pcs }

/-- The function `stored_error_cmp`, the key equality of the error table. -/
def stored_error_cmp (err1 err2 : stored_error_t) : Bool :=
  if err1.errtype != err2.errtype then false
  else err1.pcs == err2.pcs

/-- Modelled from the spec: `hashtable_lookup` of `hashtable.c`, which is absent
from the sources, on a table with the custom comparison `stored_error_cmp`: the
entry whose key compares equal to `err`, here its position in the list of
records.  `hashtable_add` adds a record exactly when there is no such entry
("add returns false if already there"). -/
def hashtable_lookup (errors : List stored_error_t) (err : stored_error_t) : Option Nat :=
  errors.findIdx? (fun e => stored_error_cmp e err)

/-- The function `acquire_error_number` on the record at position `i`. -/
def acquire_error_number (st : report_state) (i : Nat) : report_state :=
  match st.errors[i]? with
  | none => st
  | some err =>
    let id := (st.error_id + 1) % 2 ^ 32
    { st with
      error_id := id,
      errors := st.errors.modify (fun e => { e with id := id }) i,
      num_unique := array_inc st.num_unique err.errtype }

/-- The function `record_error`: the new state and the position of the record
it returns. -/
def record_error (st : report_state) (type : Nat) (pcs : packed_callstack_t) :
    Except Fault (report_state × Nat) :=
  if type < ERROR_MAX_VAL then
    let err := stored_error_create type pcs
    let (errors, i) :=
      match hashtable_lookup st.errors err with
      | none => (st.errors ++ [{ err with id := 0 }], st.errors.length)
      | some i => (st.errors, i)
    match errors[i]? with
    | none => .error .assertion
    | some e =>
      .ok ({ st with
             errors := errors.modify (fun e => { e with count := uint_inc e.count }) i,
             num_total := if e.suppressed then st.num_total
                          else array_inc st.num_total type }, i)
  else .error .assertion

/-- The function `report_error` on an error of kind `type` whose recorded
callstack is `pcs`; the wording of the report is not modelled. -/
def report_error (env : report_env) (st : report_state) (type : Nat)
    (pcs : packed_callstack_t) : Except Fault report_state :=
  if 0 ≤ env.options.report_max ∧ env.options.report_max ≤ (st.num_reported_errors : Int) then
    .ok { st with num_throttled_errors := uint_inc st.num_throttled_errors }
  else
    match record_error st type pcs with
    | .error e => .error e
    | .ok (st, i) =>
      match st.errors[i]? with
      | none => .error .assertion
      | some err =>
        if err.count > 1 then
          if err.suppressed then
            .ok { st with num_suppressions_matched := uint_inc st.num_suppressions_matched }
          else if err.id = 0 then .error .assertion
          else .ok st
        else if err.id ≠ 0 then .error .assertion
        else
          match on_suppression_list env.nl st.supp.supp_list type
                  (env.packed_callstack_print err.pcs) with
          | .error e => .error e
          | .ok (suppressed, out) =>
            let st := { st with f_suppress := st.f_suppress ++ out }
            let st :=
              if suppressed then
                { st with
                  errors := st.errors.modify (fun e => { e with suppressed := true }) i,
                  num_suppressions_matched := uint_inc st.num_suppressions_matched,
                  num_total := array_dec st.num_total type }
              else
                let st := acquire_error_number st i
                { st with num_reported_errors := uint_inc st.num_reported_errors }
            if type = ERROR_UNADDRESSABLE ∨ type = ERROR_UNDEFINED ∨
                type = ERROR_INVALID_HEAP_ARG ∨ type = ERROR_WARNING then
              if suppressed then .ok st
              else .ok { st with f_results := st.f_results ++ [some st.error_id] }
            else .error .assertion

/-- The function `report_leak_stats_checkpoint`. -/
def report_leak_stats_checkpoint (st : report_state) : report_state :=
  { st with
    saved_throttled_leaks := st.num_throttled_leaks,
    saved_total_leaks := st.num_total_leaks,
    saved_leaks_ignored := st.num_leaks_ignored,
    saved_suppressed_leaks := st.num_suppressed_leaks,
    saved_possible_leaks_unique := st.num_unique.getD ERROR_POSSIBLE_LEAK 0,
    saved_possible_leaks_total := st.num_total.getD ERROR_POSSIBLE_LEAK 0,
    saved_reachable_leaks := st.num_reachable_leaks,
    saved_leaks_unique := st.num_unique.getD ERROR_LEAK 0,
    saved_leaks_total := st.num_total.getD ERROR_LEAK 0,
    saved_bytes_leaked := st.num_bytes_leaked,
    saved_bytes_possible_leaked := st.num_bytes_possible_leaked }

/-- The function `report_leak_stats_revert`. -/
def report_leak_stats_revert (st : report_state) : report_state :=
  { st with
    num_throttled_leaks := st.saved_throttled_leaks,
    num_total_leaks := st.saved_total_leaks,
    num_leaks_ignored := st.saved_leaks_ignored,
    num_suppressed_leaks := st.saved_suppressed_leaks,
    num_unique := (st.num_unique.set ERROR_POSSIBLE_LEAK st.saved_possible_leaks_unique).set
                    ERROR_LEAK st.saved_leaks_unique,
    num_total := (st.num_total.set ERROR_POSSIBLE_LEAK st.saved_possible_leaks_total).set
                    ERROR_LEAK st.saved_leaks_total,
    num_reachable_leaks := st.saved_reachable_leaks,
    num_bytes_leaked := st.saved_bytes_leaked,
    num_bytes_possible_leaked := st.saved_bytes_possible_leaked,
    errors := st.errors.map (fun err =>
      if err.errtype = ERROR_LEAK ∨ err.errtype = ERROR_POSSIBLE_LEAK then
        { err with count := 0 }
      else err) }

/-- The statements of `report_leak` that add `size + indirect_size` to
`num_bytes_possible_leaked` or to `num_bytes_leaked` (both `size_t`). -/
def count_leak_bytes (env : report_env) (st : report_state) (maybe_reachable : Bool)
    (size indirect_size : Nat) : report_state :=
  if maybe_reachable then
    { st with num_bytes_possible_leaked :=
        (st.num_bytes_possible_leaked + (size + indirect_size)) % 2 ^ env.size_bits }
  else
    { st with num_bytes_leaked :=
        (st.num_bytes_leaked + (size + indirect_size)) % 2 ^ env.size_bits }

/-- The end of `report_leak` for a real or possible leak that is not
suppressed: the report is written to the results file, headed by the error
number `number` when there is one, unless it is a possible leak and
`-possible_leaks` is off. -/
def report_leak_print (env : report_env) (st : report_state) (maybe_reachable : Bool)
    (number : Option Nat) : report_state :=
  if maybe_reachable = true ∧ env.options.possible_leaks = false then st
  else { st with f_results := st.f_results ++ [number] }

/-- The statements of `report_leak` for a real or possible leak (`type` is
`ERROR_LEAK` or `ERROR_POSSIBLE_LEAK`) with `-check_leaks`, from the call of
`record_error` on.  Build without `STATISTICS`. -/
def report_leak_checked (env : report_env) (st : report_state) (type : Nat)
    (size indirect_size : Nat) (maybe_reachable : Bool) (pcs : packed_callstack_t) :
    Except Fault report_state :=
  match record_error st type pcs with
  | .error e => .error e
  | .ok (st, i) =>
    match st.errors[i]? with
    | none => .error .assertion
    | some err =>
      if err.count > 1 then
        -- Duplicate
        if err.suppressed then
          .ok { st with num_suppressed_leaks := uint_inc st.num_suppressed_leaks }
        else .ok (count_leak_bytes env st maybe_reachable size indirect_size)
      else
        match on_suppression_list env.nl st.supp.supp_list type
                (env.packed_callstack_print pcs) with
        | .error e => .error e
        | .ok (true, out) =>
          .ok { st with
                f_suppress := st.f_suppress ++ out,
                num_suppressed_leaks := uint_inc st.num_suppressed_leaks,
                errors := st.errors.modify (fun e => { e with suppressed := true }) i,
                num_total := array_dec st.num_total type }
        | .ok (false, out) =>
          if err.id = 0 ∧ (maybe_reachable = false ∨ env.options.possible_leaks = true) then
            .ok (report_leak_print env
              (count_leak_bytes env
                (acquire_error_number { st with f_suppress := st.f_suppress ++ out } i)
                maybe_reachable size indirect_size)
              maybe_reachable (some ((st.error_id + 1) % 2 ^ 32)))
          else
            -- num_unique was set to 0 after nudge
            .ok (report_leak_print env
              (count_leak_bytes env
                { st with f_suppress := st.f_suppress ++ out,
                          num_unique := array_inc st.num_unique err.errtype }
                maybe_reachable size indirect_size)
              maybe_reachable (some err.id))

/-- The statements of `report_leak` from `dr_mutex_lock(error_lock)` on, when
the kind `type` of the leak is known (`ERROR_MAX_VAL` for a leak with a label);
`pcs` is the callstack of the allocation (the argument, or the client data of
the malloc entry when the argument is null). -/
def report_leak_locked (env : report_env) (st : report_state) (type : Nat)
    (size indirect_size : Nat) (maybe_reachable : Bool) (pcs : Option packed_callstack_t) :
    Except Fault report_state :=
  if env.options.check_leaks then
    match pcs with
    | none => .error .assertion
    | some pcs =>
      if type < ERROR_MAX_VAL then
        report_leak_checked env st type size indirect_size maybe_reachable pcs
      else .ok st
  else if type < ERROR_MAX_VAL then
    -- no dup checking
    .ok (report_leak_print env
      (count_leak_bytes env { st with num_unique := array_inc st.num_unique type }
        maybe_reachable size indirect_size)
      maybe_reachable none)
  else .ok st

/-- The statements of `report_leak` once it is known whether the leak has a
label (`REACHABLE` or `STILL-ADDRESSABLE`): the throttle of `-report_leak_max`,
the count of the leak and the choice of its kind. -/
def report_leak_counted (env : report_env) (st : report_state) (label : Bool)
    (size indirect_size : Nat) (early reachable maybe_reachable : Bool)
    (pcs : Option packed_callstack_t) : Except Fault report_state :=
  if 0 ≤ env.options.report_leak_max ∧
      env.options.report_leak_max ≤ (st.num_total_leaks : Int) then
    .ok { st with num_throttled_leaks := uint_inc st.num_throttled_leaks }
  else if label then
    report_leak_locked env { st with num_total_leaks := uint_inc st.num_total_leaks }
      ERROR_MAX_VAL size indirect_size maybe_reachable pcs
  else if early = true ∧ reachable = false ∧ env.options.ignore_early_leaks = true then
    -- early reachable are listed as reachable, not ignored
    report_leak_locked env
      { st with num_total_leaks := uint_inc st.num_total_leaks,
                num_leaks_ignored := uint_inc st.num_leaks_ignored }
      ERROR_MAX_VAL size indirect_size maybe_reachable pcs
  else if maybe_reachable then
    report_leak_locked env { st with num_total_leaks := uint_inc st.num_total_leaks }
      ERROR_POSSIBLE_LEAK size indirect_size maybe_reachable pcs
  else
    report_leak_locked env { st with num_total_leaks := uint_inc st.num_total_leaks }
      ERROR_LEAK size indirect_size maybe_reachable pcs

/-- The function `report_leak`; `addr` and `shadow_state` only appear in the
wording of the report, which is not modelled. -/
def report_leak (env : report_env) (st : report_state) (known_malloc : Bool)
    (size indirect_size : Nat) (early reachable maybe_reachable : Bool)
    (pcs : Option packed_callstack_t) : Except Fault report_state :=
  if reachable then
    if env.options.show_reachable then
      report_leak_counted env
        { st with num_reachable_leaks := uint_inc st.num_reachable_leaks } true
        size indirect_size early reachable maybe_reachable pcs
    else .ok { st with num_reachable_leaks := uint_inc st.num_reachable_leaks }
  else if known_malloc = false then
    if env.options.verbose < 2 then .ok st
    else report_leak_counted env st true
      size indirect_size early reachable maybe_reachable pcs
  else report_leak_counted env st false
    size indirect_size early reachable maybe_reachable pcs

/-- The function `report_fork_init` (Linux): the error list and table are
emptied and the counters are zeroed; the suppression lists stay. -/
def report_fork_init (st : report_state) : report_state :=
  { st with
    error_id := 0,
    num_unique := List.replicate ERROR_MAX_VAL 0,
    num_total := List.replicate ERROR_MAX_VAL 0,
    num_reported_errors := 0, num_total_leaks := 0, num_throttled_errors := 0,
    num_throttled_leaks := 0, num_leaks_ignored := 0, num_bytes_leaked := 0,
    num_bytes_possible_leaked := 0,
    supp := { st.supp with num_suppressions := 0 },
    num_suppressions_matched := 0, num_suppressed_leaks := 0, num_reachable_leaks := 0,
    errors := [] }

/-- A call of one of the entry points of the error accumulator. -/
inductive report_call where
  | error (type : Nat) (pcs : packed_callstack_t)
  | leak (known_malloc : Bool) (size indirect_size : Nat)
      (early reachable maybe_reachable : Bool) (pcs : Option packed_callstack_t)
  | checkpoint
  | revert
  | fork_init
  deriving DecidableEq, Repr

/-- One call on the statics. -/
def report_step (env : report_env) (st : report_state) : report_call → Except Fault report_state
  | .error type pcs => report_error env st type pcs
  | .leak known_malloc size indirect_size early reachable maybe_reachable pcs =>
    report_leak env st known_malloc size indirect_size early reachable maybe_reachable pcs
  | .checkpoint => .ok (report_leak_stats_checkpoint st)
  | .revert => .ok (report_leak_stats_revert st)
  | .fork_init => .ok (report_fork_init st)

/-- A sequence of calls, in order; it stops at the first failed `ASSERT`. -/
def report_run (env : report_env) (st : report_state) : List report_call → Except Fault report_state
  | [] => .ok st
  | c :: cs =>
    match report_step env st c with
    | .error e => .error e
    | .ok st => report_run env st cs

/-- A sequence of `record_error` calls, each with a kind and a callstack. -/
def record_errors (st : report_state) : List (Nat × packed_callstack_t) → Except Fault report_state
  | [] => .ok st
  | (type, pcs) :: cs =>
    match record_error st type pcs with
    | .error e => .error e
    | .ok (st, _) => record_errors st cs

/-- Where `record_error` finds or puts the record of an occurrence of kind
`type` with callstack `pcs`: `base` is the list of records once a new record has
been added when the table had none, `i` the position of the record and `e` the
record before its count is incremented. -/
def table_slot (errors : List stored_error_t) (type : Nat) (pcs : packed_callstack_t)
    (base : List stored_error_t) (i : Nat) (e : stored_error_t) : Prop :=
  base[i]? = some e ∧ e.errtype = type ∧ e.pcs = pcs ∧
  ((hashtable_lookup errors (stored_error_create type pcs) = some i ∧ base = errors) ∨
   (hashtable_lookup errors (stored_error_create type pcs) = none ∧
    base = errors ++ [stored_error_create type pcs] ∧ i = errors.length ∧
    e = stored_error_create type pcs))

/-- The answer of `on_suppression_list` for an error of kind `type` with
callstack `pcs`: `some true` when a suppression matches, `none` when an
`ASSERT` of the matcher fails on the rendering. -/
def suppression_verdict (env : report_env) (supp_list : List (List suppress_spec_t))
    (type : Nat) (pcs : packed_callstack_t) : Option Bool :=
  match on_suppression_list env.nl supp_list type (env.packed_callstack_print pcs) with
  | .ok (suppressed, _) => some suppressed
  | .error _ => none

/-- What `report_error` and `report_leak` do to the record `e` of an occurrence
that they record, giving `e1`, and to `error_id`: a duplicate only has its count
incremented; a first occurrence is marked suppressed, or gets the next error
number, or (in `report_leak`) keeps its number. -/
def occurrence_outcome (env : report_env) (supp_list : List (List suppress_spec_t))
    (error_id : Nat) (type : Nat)
    (pcs : packed_callstack_t) (e e1 : stored_error_t) (error_id1 : Nat) : Prop :=
  (1 < uint_inc e.count ∧ e1 = { e with count := uint_inc e.count } ∧
    error_id1 = error_id) ∨
  (uint_inc e.count ≤ 1 ∧ suppression_verdict env supp_list type pcs = some true ∧
    e1 = { e with count := uint_inc e.count, suppressed := true } ∧
    error_id1 = error_id) ∨
  (uint_inc e.count ≤ 1 ∧ suppression_verdict env supp_list type pcs = some false ∧
    e.id = 0 ∧ (type = ERROR_POSSIBLE_LEAK → env.options.possible_leaks = true) ∧
    e1 = { e with count := uint_inc e.count, id := (error_id + 1) % 2 ^ 32 } ∧
    error_id1 = (error_id + 1) % 2 ^ 32) ∨
  (uint_inc e.count ≤ 1 ∧ suppression_verdict env supp_list type pcs = some false ∧
    ¬ (e.id = 0 ∧ (type = ERROR_POSSIBLE_LEAK → env.options.possible_leaks = true)) ∧
    e1 = { e with count := uint_inc e.count } ∧ error_id1 = error_id)

/-- What a call of the error accumulator does to the error table: the
suppression lists are untouched, and either the table and `error_id` are
untouched or one record, of the kind `type` and callstack `p` for which `ok`
holds, is updated as `occurrence_outcome` tells. -/
def table_change (env : report_env) (st st1 : report_state)
    (ok : Nat → packed_callstack_t → Prop) : Prop :=
  st1.supp = st.supp ∧
  ((st1.errors = st.errors ∧ st1.error_id = st.error_id) ∨
   ∃ type p base i e e1, ok type p ∧
     table_slot st.errors type p base i e ∧ st1.errors = base.set i e1 ∧
     occurrence_outcome env st.supp.supp_list st.error_id type p e e1 st1.error_id)

/-- The error numbers of the records that have one, in the order of the error
list. -/
def assigned_ids (st : report_state) : List Nat :=
  (st.errors.map (fun e => e.id)).filter (fun n => n ≠ 0)

/-- The invariant of the error table: the error numbers in use are
`1, 2, .., error_id`, in the order of the list; a record without a number is
suppressed, or is a possible leak while `-possible_leaks` is off; and a
suppressed record is one that `on_suppression_list` matches. -/
def table_inv (env : report_env) (st : report_state) : Prop :=
  assigned_ids st = List.range' 1 st.error_id ∧
  (∀ e ∈ st.errors, e.id = 0 →
    e.suppressed = true ∨
    (e.errtype = ERROR_POSSIBLE_LEAK ∧ env.options.possible_leaks = false)) ∧
  (∀ e ∈ st.errors, e.suppressed = true →
    suppression_verdict env st.supp.supp_list e.errtype e.pcs = some true)

/-! ## What the calls leave untouched, the summary, and the heap notes -/

/-- The values saved by `report_leak_stats_checkpoint`, in the order of its
assignments. -/
def saved_counts (st : report_state) : Nat × Nat × Nat × Nat × Nat × Nat × Nat × Nat × Nat ×
    Nat × Nat :=
  (st.saved_throttled_leaks, st.saved_total_leaks, st.saved_leaks_ignored,
   st.saved_suppressed_leaks, st.saved_possible_leaks_unique, st.saved_possible_leaks_total,
   st.saved_reachable_leaks, st.saved_leaks_unique, st.saved_leaks_total,
   st.saved_bytes_leaked, st.saved_bytes_possible_leaked)

/-- The counters that `report_leak_stats_checkpoint` saves, in the same order:
"the values of all counts that are modified in report_leak()". -/
def leak_counts (st : report_state) : Nat × Nat × Nat × Nat × Nat × Nat × Nat × Nat × Nat ×
    Nat × Nat :=
  (st.num_throttled_leaks, st.num_total_leaks, st.num_leaks_ignored,
   st.num_suppressed_leaks, st.num_unique.getD ERROR_POSSIBLE_LEAK 0,
   st.num_total.getD ERROR_POSSIBLE_LEAK 0,
   st.num_reachable_leaks, st.num_unique.getD ERROR_LEAK 0, st.num_total.getD ERROR_LEAK 0,
   st.num_bytes_leaked, st.num_bytes_possible_leaked)

/-- What `report_leak` never writes: the saved values, the counters of
`report_error`, and the sizes of the arrays of counters. -/
def leak_frame (st : report_state) :=
  (saved_counts st, st.num_reported_errors, st.num_throttled_errors,
   st.num_suppressions_matched, st.num_unique.length, st.num_total.length, st.supp)

/-- What `report_leak` does not write once the leak has passed the throttle
of `-report_leak_max` and has been counted. -/
def leak_locked_frame (st : report_state) :=
  (leak_frame st, st.num_throttled_leaks, st.num_total_leaks, st.num_leaks_ignored,
   st.num_reachable_leaks)

/-- What `report_error` never writes: the saved values, the counters of leaks
that are not per kind, and the sizes of the arrays of counters. -/
def error_frame (st : report_state) :=
  (saved_counts st, st.num_throttled_leaks, st.num_total_leaks, st.num_leaks_ignored,
   st.num_suppressed_leaks, st.num_reachable_leaks, st.num_bytes_leaked,
   st.num_bytes_possible_leaked, st.num_unique.length, st.num_total.length, st.supp)

/-- Only `report_leak` calls. -/
def only_leaks (calls : List report_call) : Prop :=
  ∀ c ∈ calls, ∃ known_malloc size indirect_size early reachable maybe_reachable pcs,
    c = report_call.leak known_malloc size indirect_size early reachable maybe_reachable pcs

/-- The invariant of `-report_leak_max`: neither `num_total_leaks` nor its
saved value is above a limit that is not negative, and no leak is counted as
throttled when the limit is negative. -/
def leak_max_inv (env : report_env) (st : report_state) : Prop :=
  (∀ m : Nat, env.options.report_leak_max = (m : Int) →
    st.num_total_leaks ≤ m ∧ st.saved_total_leaks ≤ m) ∧
  (env.options.report_leak_max < 0 →
    st.num_throttled_leaks = 0 ∧ st.saved_throttled_leaks = 0)

/-- The guard of the loop "DUPLICATE ERROR COUNTS" of `report_summary_to_file`:
whether the record gets a line. -/
def duplicate_listed (env : report_env) (err : stored_error_t) : Bool :=
  decide (err.count > 1) && !err.suppressed &&
    -- possible leaks are left with id==0 and should be ignored
    -- except in summary, unless -possible_leaks
    (decide (err.errtype ≠ ERROR_POSSIBLE_LEAK) || env.options.possible_leaks)

/-- The loop "DUPLICATE ERROR COUNTS" of `report_summary_to_file` over the
error list from `err` on: the pairs `(N, C)` of the lines `Error #N: C` that it
writes, in order. -/
def report_summary_duplicates (env : report_env) :
    List stored_error_t → Except Fault (List (Nat × Nat))
  | [] => .ok []
  | err :: next =>
    if duplicate_listed env err then
      if err.id > 0 then
        match report_summary_duplicates env next with
        | .error e => .error e
        | .ok lines => .ok ((err.id, err.count) :: lines)
      else .error .assertion
    else report_summary_duplicates env next

/-- The function `report_warning`; `pcs` is the callstack that `record_error`
records for the location. -/
def report_warning (env : report_env) (st : report_state) (pcs : packed_callstack_t) :
    Except Fault report_state :=
  report_error env st ERROR_WARNING pcs

/-- The function `report_invalid_heap_arg`.  `windows` tells the build
(`IF_WINDOWS_ELSE`), `warn_null_ptr` is the option of that name, `addr` is the
pointer (0 for `NULL`) and `routine` the name of the heap routine. -/
def report_invalid_heap_arg (env : report_env) (windows warn_null_ptr : Bool)
    (st : report_state) (addr : Nat) (routine : List Char) (pcs : packed_callstack_t) :
    Except Fault report_state :=
  if addr = 0 ∧ routine = (if windows then "HeapFree".toList else "free".toList) then
    -- free(NULL) is documented as always being properly handled (nop)
    -- so we separate as not really "invalid" but just a warning
    if warn_null_ptr then report_warning env st pcs
    else .ok st
  else report_error env st ERROR_INVALID_HEAP_ARG pcs

/-- What `report_heap_info` takes from outside `report.c`: the width of a
pointer in bits, `MALLOC_CHUNK_ALIGNMENT`, the macros `ALIGN_FORWARD` and
`ALIGN_BACKWARD` at that alignment, `overlaps_delayed_free` (the range it
stores in `start` and `end` when it returns true) and
`malloc_size_include_invalid` (`none` for the result -1). -/
structure heap_env where
  ptr_bits : Nat
  chunk_alignment : Nat
  align_forward : Nat → Nat
  align_backward : Nat → Nat
  overlaps_delayed_free : Nat → Nat → Option (Nat × Nat)
  malloc_size_include_invalid : Nat → Option Nat

/-- The loop `for (start = ALIGN_FORWARD(addr+sz, ..); start < next_start;
start += MALLOC_CHUNK_ALIGNMENT)` of `report_heap_info`, from `start` on: the
values of `start` and `end` when a chunk is found. -/
def probe_forward (h : heap_env) (next_start : Nat) : Nat → Nat → Except Fault (Option (Nat × Nat))
  | 0, _ => .error .fuel
  | fuel + 1, start =>
    if start < next_start then
      match h.malloc_size_include_invalid start with
      | some size => .ok (some (start, (start + size) % 2 ^ h.ptr_bits))
      | none => probe_forward h next_start fuel ((start + h.chunk_alignment) % 2 ^ h.ptr_bits)
    else .ok none

/-- The loop `for (start = ALIGN_BACKWARD(addr, ..); start > prev_end;
start -= MALLOC_CHUNK_ALIGNMENT)` of `report_heap_info`, from `start` on. -/
def probe_backward (h : heap_env) (prev_end : Nat) : Nat → Nat → Except Fault (Option (Nat × Nat))
  | 0, _ => .error .fuel
  | fuel + 1, start =>
    if start > prev_end then
      match h.malloc_size_include_invalid start with
      | some size => .ok (some (start, (start + size) % 2 ^ h.ptr_bits))
      | none =>
        probe_backward h prev_end fuel
          ((start + (2 ^ h.ptr_bits - h.chunk_alignment % 2 ^ h.ptr_bits)) % 2 ^ h.ptr_bits)
    else .ok none

/-- The end of `report_heap_info`, from the call of `overlaps_delayed_free` on:
the range `start`-`end` named in the line "overlaps freed memory", if the line
is written.  `found`, `next_start` and `prev_end` (`none` for `NULL`) are the
values that the search for the neighbouring mallocs has left; the loops get
the fuel `2 ^ ptr_bits + 1`. -/
def report_heap_info_freed (h : heap_env) (found : Bool) (next_start prev_end : Option Nat)
    (addr sz : Nat) : Except Fault (Option (Nat × Nat)) :=
  let _found := found
  match h.overlaps_delayed_free addr ((addr + sz) % 2 ^ h.ptr_bits) with
  | some r => .ok (some r)
  | none =>
    let fwd :=
      match next_start with
      | some n =>
        -- Heuristic: try 8-byte-aligned ptrs between here and valid mallocs
        probe_forward h n (2 ^ h.ptr_bits + 1) (h.align_forward ((addr + sz) % 2 ^ h.ptr_bits))
      | none => .ok none
    match fwd with
    | .error e => .error e
    | .ok (some r) => .ok (some r)
    | .ok none =>
      match prev_end with
      | some p => probe_backward h p (2 ^ h.ptr_bits + 1) (h.align_backward addr)
      | none => .ok none

/-! ## The handlers of system call parameters (`syscall_windows.c`) -/

/-- The flags `MEMREF_*` that `syscall_windows.c` passes to `check_sysmem`
(`zero` is the flags value 0 that `SYSARG_CHECK_TYPE` gives after the call for
a parameter that is not written). -/
inductive memref where
  | zero
  | check_addressable
  | check_definedness
  | write
  deriving DecidableEq, Repr

/-- A call `check_sysmem(flags, sysnum, ptr, sz, mc, id)`: the check or mark
that a handler emits. -/
structure sysmem_check where
  flags : memref
  ptr : Nat
  sz : Nat
  deriving DecidableEq, Repr

/-- The macro `TEST(mask, var)`. -/
def TEST (mask var : Nat) : Bool := var &&& mask != 0

/-- The macro `TESTALL(mask, var)`. -/
def TESTALL (mask var : Nat) : Bool := var &&& mask == mask

/-- The flag `SYSARG_READ` of `syscall_arg_t.flags`. -/
def SYSARG_READ : Nat := 0x00000001

/-- The flag `SYSARG_WRITE` of `syscall_arg_t.flags`. -/
def SYSARG_WRITE : Nat := 0x00000002

/-- The macro `SYSARG_CHECK_TYPE(flags, pre)`. -/
def SYSARG_CHECK_TYPE (flags : Nat) (pre : Bool) : memref :=
  if pre then (if TEST SYSARG_READ flags then .check_definedness else .check_addressable)
  else (if TEST SYSARG_WRITE flags then .write else .zero)

/-- Pointer and `uint` arithmetic of the 32-bit build (the only one
`syscall_windows.c` compiles for). -/
def add32 (a b : Nat) : Nat := (a + b) % 2 ^ 32

/-- The subtraction of two `uint`. -/
def sub32 (a b : Nat) : Nat := (a + (2 ^ 32 - b % 2 ^ 32)) % 2 ^ 32

/-- The product of two `uint`. -/
def mul32 (a b : Nat) : Nat := (a * b) % 2 ^ 32

/-- The fields of a `UNICODE_STRING` that `safe_read` has copied. -/
structure UNICODE_STRING where
  Length : Nat
  MaximumLength : Nat
  Buffer : Nat
  deriving DecidableEq, Repr

/-- The union `u1` of a `PORT_MESSAGE` that `safe_read` has copied, as its two
16-bit halves: `s1.DataLength` and `s1.TotalLength` (both `CSHORT`, a signed
16-bit type), which share their bytes with the `ULONG Length`. -/
structure PORT_MESSAGE where
  DataLength : Nat
  TotalLength : Nat
  deriving DecidableEq, Repr

/-- The fields of a `SOCKET_CONTEXT` that `handle_pre_DeviceIoControlFile`
reads. -/
structure SOCKET_CONTEXT where
  SizeOfLocalAddress : Nat
  SizeOfRemoteAddress : Nat
  SizeOfHelperData : Nat
  deriving DecidableEq, Repr

/-- The fields of an `AFD_RECV_INFO`, `AFD_SEND_INFO`, `AFD_RECV_INFO_UDP` or
`AFD_SEND_INFO_UDP` that the handlers read (`Address` and `AddressLength` only
for `AFD_RECV_INFO_UDP`). -/
structure AFD_IO_INFO where
  BufferArray : Nat
  BufferCount : Nat
  Address : Nat
  AddressLength : Nat
  deriving DecidableEq, Repr

/-- An `AFD_WSABUF`. -/
structure AFD_WSABUF where
  len : Nat
  buf : Nat
  deriving DecidableEq, Repr

/-- The application memory as `safe_read` shows it: for an address, the value
copied when the read of the type succeeds, `none` when `safe_read` returns
false.  The declarations of the types are absent from the sources. -/
structure app_memory where
  unicode_string : Nat → Option UNICODE_STRING
  port_message : Nat → Option PORT_MESSAGE
  dword : Nat → Option Nat
  address_family : Nat → Option Nat
  afd_info_class : Nat → Option Nat
  socket_context : Nat → Option SOCKET_CONTEXT
  afd_recv_info : Nat → Option AFD_IO_INFO
  afd_recv_info_udp : Nat → Option AFD_IO_INFO
  afd_send_info : Nat → Option AFD_IO_INFO
  afd_send_info_udp : Nat → Option AFD_IO_INFO
  afd_wsabuf : Nat → Option AFD_WSABUF
  afd_poll_handle_count : Nat → Option Nat

/-- The constants and the type layouts of the Windows headers that
`syscall_windows.c` uses and that are absent from the sources: status codes,
sizes and field offsets (`x_offs` is `offsetof(.., x)`, `x_size` is
`sizeof(x)`). -/
structure win_abi where
  STATUS_BUFFER_OVERFLOW : Int
  sizeof_UNICODE_STRING : Nat
  sizeof_PORT_MESSAGE : Nat
  PORT_MAXIMUM_MESSAGE_LENGTH : Nat
  CONTEXT_i486 : Nat
  CONTEXT_DEBUG_REGISTERS : Nat
  CONTEXT_FLOATING_POINT : Nat
  CONTEXT_SEGMENTS : Nat
  CONTEXT_INTEGER : Nat
  CONTEXT_CONTROL : Nat
  CONTEXT_EXTENDED_REGISTERS : Nat
  Dr0_offs : Nat
  FloatSave_offs : Nat
  FloatSave_size : Nat
  SegGs_offs : Nat
  SegFs_offs : Nat
  SegEs_offs : Nat
  SegDs_offs : Nat
  Edi_offs : Nat
  Ebp_offs : Nat
  Eip_offs : Nat
  SegCs_offs : Nat
  EFlags_offs : Nat
  Esp_offs : Nat
  SegSs_offs : Nat
  ExtendedRegisters_offs : Nat
  ExtendedRegisters_size : Nat
  AF_UNSPEC : Nat
  AF_INET : Nat
  AF_INET6 : Nat
  sa_family_size : Nat
  sin_port_offs : Nat
  sin_port_size : Nat
  sin_addr_offs : Nat
  sin_addr_size : Nat
  sin6_port_offs : Nat
  sin6_port_size : Nat
  sin6_flowinfo_offs : Nat
  sin6_flowinfo_size : Nat
  sin6_addr_offs : Nat
  sin6_addr_size : Nat
  sin6_scope_id_offs : Nat
  sin6_scope_id_size : Nat

/-- The function `os_syscall_succeeded`; `res` is a `ptr_int_t`, a signed
integer. -/
def os_syscall_succeeded (A : win_abi) (sysnum : Int) (res : Int) : Bool :=
  let _sysnum := sysnum
  if res = A.STATUS_BUFFER_OVERFLOW then
    -- Data is filled in so consider success
    true
  else decide (res ≥ 0)

/-- The conversion `(uint) x` of a `CSHORT` held as its 16 bits. -/
def cshort_to_uint (x : Nat) : Nat :=
  if x % 2 ^ 16 < 2 ^ 15 then x % 2 ^ 16 else x % 2 ^ 16 + (2 ^ 32 - 2 ^ 16)

/-- The function `handle_port_message_access`: its return value and the calls
of `check_sysmem`.  `flags` is `arg_info->flags`. -/
def handle_port_message_access (A : win_abi) (mem : app_memory) (pre : Bool) (flags : Nat)
    (start size : Nat) : Except Fault (Bool × List sysmem_check) :=
  let check_type := SYSARG_CHECK_TYPE flags pre
  let max := add32 A.sizeof_PORT_MESSAGE A.PORT_MAXIMUM_MESSAGE_LENGTH
  if TEST SYSARG_WRITE flags && pre then
    -- Struct is passed in uninit w/ max-len buffer after it.
    .ok (true, [⟨check_type, start, max⟩])
  else
    match mem.port_message start with
    | some pm =>
      let size :=
        if 0 < pm.DataLength % 2 ^ 16 ∧ pm.DataLength % 2 ^ 16 < 2 ^ 15 then
          cshort_to_uint pm.TotalLength
        else (pm.DataLength % 2 ^ 16 + 2 ^ 16 * (pm.TotalLength % 2 ^ 16))
      if size ≤ mul32 2 max then
        if size = 0 ∨ A.sizeof_PORT_MESSAGE ≤ size then
          .ok (true, [⟨check_type, start, size⟩])
        else .error .assertion
      else .error .assertion
    | none =>
      -- can't read real size, so report presumed-unaddr w/ struct size
      if size = A.sizeof_PORT_MESSAGE then .ok (true, [⟨check_type, start, size⟩])
      else .error .assertion

/-- The function `handle_unicode_string_access`. -/
def handle_unicode_string_access (A : win_abi) (mem : app_memory) (pre : Bool) (flags : Nat)
    (start size : Nat) : Except Fault (Bool × List sysmem_check) :=
  if size = A.sizeof_UNICODE_STRING then
    -- we assume OUT fields just have their Buffer as OUT
    let header : List sysmem_check := [⟨.check_definedness, start, size⟩]
    match mem.unicode_string start with
    | some us =>
      if pre then
        .ok (true, header ++ [⟨.check_addressable, us.Buffer, us.MaximumLength⟩] ++
          (if !TEST SYSARG_WRITE flags then [⟨.check_definedness, us.Buffer, us.Length⟩]
           else []))
      else if TEST SYSARG_WRITE flags then
        .ok (true, header ++ [⟨.write, us.Buffer, us.Length⟩])
      else .ok (true, header)
    | none => .ok (true, header)
  else .error .assertion

/-- The function `handle_context_access` (x86); `sysnum_CreateThread` is the
global of that name. -/
def handle_context_access (A : win_abi) (mem : app_memory) (sysnum_CreateThread : Int)
    (pre : Bool) (sysnum : Int) (flags : Nat) (start : Nat) :
    Except Fault (Bool × List sysmem_check) :=
  let check_type := SYSARG_CHECK_TYPE flags pre
  let c0 : List sysmem_check := [⟨check_type, start, 4⟩]
  match mem.dword start with
  | none =>
    -- if safe_read fails due to CONTEXT being unaddr, the preceding
    -- check_sysmem should have raised the error
    .ok (true, c0)
  | some context_flags =>
    if TEST A.CONTEXT_i486 context_flags then
      let c1 := if TESTALL A.CONTEXT_DEBUG_REGISTERS context_flags then
          c0 ++ [⟨check_type, add32 start A.Dr0_offs, 6 * 4⟩] else c0
      let c2 := if TESTALL A.CONTEXT_FLOATING_POINT context_flags then
          c1 ++ [⟨check_type, add32 start A.FloatSave_offs, A.FloatSave_size⟩] else c1
      let c3 := if TESTALL A.CONTEXT_SEGMENTS context_flags then
          c2 ++ [⟨check_type, add32 start A.SegGs_offs, 2⟩,
                 ⟨check_type, add32 start A.SegFs_offs, 2⟩,
                 ⟨check_type, add32 start A.SegEs_offs, 2⟩,
                 ⟨check_type, add32 start A.SegDs_offs, 2⟩] else c2
      let c4 := if TESTALL A.CONTEXT_INTEGER context_flags && sysnum != sysnum_CreateThread then
          c3 ++ [⟨check_type, add32 start A.Edi_offs, 6 * 4⟩] else c3
      let c5 := if TESTALL A.CONTEXT_CONTROL context_flags then
          (if sysnum != sysnum_CreateThread then
             c4 ++ [⟨check_type, add32 start A.Ebp_offs, 4⟩] else c4) ++
            [⟨check_type, add32 start A.Eip_offs, 4⟩,
             ⟨check_type, add32 start A.Esp_offs, 4⟩,
             ⟨check_type, add32 start A.EFlags_offs, 4⟩,
             ⟨check_type, add32 start A.SegCs_offs, 2⟩,
             ⟨check_type, add32 start A.SegSs_offs, 2⟩] else c4
      let c6 := if TESTALL A.CONTEXT_EXTENDED_REGISTERS context_flags then
          c5 ++ [⟨check_type, add32 start A.ExtendedRegisters_offs, A.ExtendedRegisters_size⟩]
          else c5
      .ok (true, c6)
    else .error .assertion

/-- The function `check_sockaddr(ptr, len, memcheck_flags, ..)`: the calls of
`check_sysmem`. -/
def check_sockaddr (A : win_abi) (mem : app_memory) (ptr len : Nat) (memcheck_flags : memref) :
    List sysmem_check :=
  let _len := len
  let c0 : List sysmem_check :=
    if memcheck_flags = .check_definedness ∨ memcheck_flags = .check_addressable then
      [⟨memcheck_flags, ptr, A.sa_family_size⟩]
    else []
  match mem.address_family ptr with
  | none => c0
  | some family =>
    -- FIXME: do not check beyond len
    if family = A.AF_UNSPEC then c0
    else if family = A.AF_INET then
      c0 ++ [⟨memcheck_flags, add32 ptr A.sin_port_offs, A.sin_port_size⟩,
             ⟨memcheck_flags, add32 ptr A.sin_addr_offs, A.sin_addr_size⟩]
    else if family = A.AF_INET6 then
      c0 ++ [⟨memcheck_flags, add32 ptr A.sin6_port_offs, A.sin6_port_size⟩,
             ⟨memcheck_flags, add32 ptr A.sin6_flowinfo_offs, A.sin6_flowinfo_size⟩,
             ⟨memcheck_flags, add32 ptr A.sin6_addr_offs, A.sin6_addr_size⟩,
             ⟨memcheck_flags, add32 ptr A.sin6_scope_id_offs, A.sin6_scope_id_size⟩]
    else c0

/-- The operation numbers `AFD_*` and the layouts of the `AFD_*` types of
`afd_shared.h`, which is absent from the sources (`X_offs` is an `offsetof`,
`X_size` a `sizeof`). -/
structure afd_abi where
  AFD_BIND : Nat
  AFD_CONNECT : Nat
  AFD_START_LISTEN : Nat
  AFD_ACCEPT : Nat
  AFD_RECV : Nat
  AFD_RECV_DATAGRAM : Nat
  AFD_SEND : Nat
  AFD_SEND_DATAGRAM : Nat
  AFD_SELECT : Nat
  AFD_DISCONNECT : Nat
  AFD_GET_TDI_HANDLES : Nat
  AFD_SET_INFO : Nat
  AFD_SET_CONTEXT : Nat
  AFD_GET_INFO : Nat
  AFD_EVENT_SELECT : Nat
  AFD_ENUM_NETWORK_EVENTS : Nat
  AFD_DEFER_ACCEPT : Nat
  AFD_INFO_BLOCKING_MODE : Nat
  AFD_ADDRESS_HANDLE : Nat
  AFD_CONNECTION_HANDLE : Nat
  InformationClass_size : Nat
  Information_Boolean_offs : Nat
  Information_Boolean_size : Nat
  SOCKET_CONTEXT_Padding_offs : Nat
  SOCKET_CONTEXT_LocalAddress_offs : Nat
  AFD_BIND_DATA_Address_offs : Nat
  AFD_CONNECT_INFO_UseSAN_size : Nat
  AFD_CONNECT_INFO_Root_offs : Nat
  AFD_CONNECT_INFO_RemoteAddress_offs : Nat
  DisconnectType_size : Nat
  Timeout_offs : Nat
  Timeout_size : Nat
  SequenceNumber_size : Nat
  RejectConnection_offs : Nat
  RejectConnection_size : Nat
  AFD_WSABUF_size : Nat
  AFD_LISTEN_DATA_UseSAN_size : Nat
  Backlog_offs : Nat
  Backlog_size : Nat
  UseDelayedAcceptance_offs : Nat
  UseDelayedAcceptance_size : Nat
  AFD_POLL_INFO_Handles_offs : Nat
  AFD_HANDLE_size : Nat
  AFD_HANDLE_Status_offs : Nat
  AFD_HANDLE_Status_size : Nat
  AFD_TDI_HANDLE_DATA_size : Nat
  TdiAddressHandle_offs : Nat
  TdiAddressHandle_size : Nat
  TdiConnectionHandle_offs : Nat
  TdiConnectionHandle_size : Nat

/-- The statement `code = (code & 0xfff) >> 2` of the two handlers of
`NtDeviceIoControlFile`: "extract operation from 0x12xxx and bottom 2 method
bits". -/
def ioctl_operation (code : Nat) : Nat := (code % 2 ^ 32 &&& 0xfff) >>> 2

/-- The loops `for (i = 0; i < info.BufferCount; i++)` over
`info.BufferArray`: a check of the buffer of each `AFD_WSABUF` that can be
read. -/
def check_wsabufs (F : afd_abi) (mem : app_memory) (flags : memref) (info : AFD_IO_INFO) :
    List sysmem_check :=
  (List.range info.BufferCount).flatMap (fun i =>
    match mem.afd_wsabuf (add32 info.BufferArray (mul32 i F.AFD_WSABUF_size)) with
    | some buf => [⟨flags, buf.buf, buf.len⟩]
    | none => [])

/-- The case `AFD_SET_CONTEXT` of `handle_pre_DeviceIoControlFile`.
`stack_sc` is what the local `sc` holds before `safe_read`, which leaves it
when it fails. -/
def pre_AFD_SET_CONTEXT (F : afd_abi) (A : win_abi) (mem : app_memory)
    (stack_sc : SOCKET_CONTEXT) (inbuf insz : Nat) : List sysmem_check :=
  let c0 : List sysmem_check := [⟨.check_definedness, inbuf, F.SOCKET_CONTEXT_Padding_offs⟩]
  let (sc, c1) :=
    match mem.socket_context inbuf with
    | some sc =>
      (sc, c0 ++
        check_sockaddr A mem (add32 inbuf F.SOCKET_CONTEXT_LocalAddress_offs)
          sc.SizeOfLocalAddress .check_definedness ++
        -- I'm treating these SOCKADDRS as var-len
        check_sockaddr A mem
          (add32 (add32 inbuf F.SOCKET_CONTEXT_LocalAddress_offs) sc.SizeOfLocalAddress)
          sc.SizeOfRemoteAddress .check_definedness)
    | none => (stack_sc, c0)
  let helper_offs := add32 (add32 F.SOCKET_CONTEXT_LocalAddress_offs sc.SizeOfLocalAddress)
    sc.SizeOfRemoteAddress
  if add32 helper_offs sc.SizeOfHelperData > insz then
    -- Sanity check
    c1
  else c1 ++ [⟨.check_definedness, add32 inbuf helper_offs, sc.SizeOfHelperData⟩]

/-- The function `handle_pre_DeviceIoControlFile`: its return value and the
calls of `check_sysmem`.  `code`, `inbuf` and `insz` are `pt->sysarg[5]`,
`[6]` and `[7]`. -/
def handle_pre_DeviceIoControlFile (F : afd_abi) (A : win_abi) (mem : app_memory)
    (stack_sc : SOCKET_CONTEXT) (code inbuf insz : Nat) : Bool × List sysmem_check :=
  if inbuf = 0 then (true, [])
  else
    let c : List sysmem_check := [⟨.check_addressable, inbuf, insz⟩]
    -- extract operation from 0x12xxx and bottom 2 method bits
    let code := ioctl_operation code
    let whole : List sysmem_check := [⟨.check_definedness, inbuf, insz⟩]
    if code = F.AFD_GET_INFO then
      (true, c ++ [⟨.check_definedness, inbuf, F.InformationClass_size⟩])
    else if code = F.AFD_SET_INFO then
      (true, c ++ [⟨.check_definedness, inbuf, F.InformationClass_size⟩] ++
        (match mem.afd_info_class inbuf with
         | some cls =>
           if cls = F.AFD_INFO_BLOCKING_MODE then
             [⟨.check_definedness, add32 inbuf F.Information_Boolean_offs,
               F.Information_Boolean_size⟩]
           else []
         | none => []))
    else if code = F.AFD_SET_CONTEXT then
      (true, c ++ pre_AFD_SET_CONTEXT F A mem stack_sc inbuf insz)
    else if code = F.AFD_BIND then
      (true, c ++ [⟨.check_definedness, inbuf, F.AFD_BIND_DATA_Address_offs⟩] ++
        check_sockaddr A mem (add32 inbuf F.AFD_BIND_DATA_Address_offs)
          (sub32 insz F.AFD_BIND_DATA_Address_offs) .check_definedness)
    else if code = F.AFD_CONNECT then
      (true, c ++ [⟨.check_definedness, inbuf, F.AFD_CONNECT_INFO_UseSAN_size⟩,
                   ⟨.check_definedness, add32 inbuf F.AFD_CONNECT_INFO_Root_offs,
                    sub32 F.AFD_CONNECT_INFO_RemoteAddress_offs F.AFD_CONNECT_INFO_Root_offs⟩] ++
        check_sockaddr A mem (add32 inbuf F.AFD_CONNECT_INFO_RemoteAddress_offs)
          (sub32 insz F.AFD_CONNECT_INFO_RemoteAddress_offs) .check_definedness)
    else if code = F.AFD_DISCONNECT then
      (true, c ++ [⟨.check_definedness, inbuf, F.DisconnectType_size⟩,
                   ⟨.check_definedness, add32 inbuf F.Timeout_offs, F.Timeout_size⟩])
    else if code = F.AFD_DEFER_ACCEPT then
      (true, c ++ [⟨.check_definedness, inbuf, F.SequenceNumber_size⟩,
                   ⟨.check_definedness, add32 inbuf F.RejectConnection_offs,
                    F.RejectConnection_size⟩])
    else if code = F.AFD_RECV then
      (true, c ++ whole ++
        (match mem.afd_recv_info inbuf with
         | some info =>
           [⟨.check_definedness, info.BufferArray, mul32 info.BufferCount F.AFD_WSABUF_size⟩] ++
             check_wsabufs F mem .check_addressable info
         | none => []))
    else if code = F.AFD_RECV_DATAGRAM then
      (true, c ++ whole ++
        (match mem.afd_recv_info_udp inbuf with
         | some info =>
           (match mem.dword info.AddressLength with
            | some i => [⟨.check_addressable, info.Address, i⟩]
            | none => []) ++
           [⟨.check_definedness, info.BufferArray, mul32 info.BufferCount F.AFD_WSABUF_size⟩] ++
             check_wsabufs F mem .check_addressable info
         | none => []))
    else if code = F.AFD_SEND then
      (true, c ++ whole ++
        (match mem.afd_send_info inbuf with
         | some info =>
           [⟨.check_definedness, info.BufferArray, mul32 info.BufferCount F.AFD_WSABUF_size⟩] ++
             check_wsabufs F mem .check_definedness info
         | none => []))
    else if code = F.AFD_SEND_DATAGRAM then
      (true, c ++ whole ++
        (match mem.afd_send_info_udp inbuf with
         | some info =>
           [⟨.check_definedness, info.BufferArray, mul32 info.BufferCount F.AFD_WSABUF_size⟩] ++
             check_wsabufs F mem .check_definedness info
         | none => []))
    else if code = F.AFD_EVENT_SELECT then (true, c ++ whole)
    else if code = F.AFD_ENUM_NETWORK_EVENTS then (true, c ++ whole)
    else if code = F.AFD_START_LISTEN then
      -- Have to separate the Booleans since padding after
      (true, c ++ [⟨.check_definedness, inbuf, F.AFD_LISTEN_DATA_UseSAN_size⟩,
                   ⟨.check_definedness, add32 inbuf F.Backlog_offs, F.Backlog_size⟩,
                   ⟨.check_definedness, add32 inbuf F.UseDelayedAcceptance_offs,
                    F.UseDelayedAcceptance_size⟩])
    else if code = F.AFD_ACCEPT then (true, c ++ whole)
    else if code = F.AFD_SELECT then
      (true, c ++ [⟨.check_definedness, inbuf, F.AFD_POLL_INFO_Handles_offs⟩] ++
        (match mem.afd_poll_handle_count inbuf with
         | some count =>
           if insz = add32 F.AFD_POLL_INFO_Handles_offs (mul32 count F.AFD_HANDLE_size) then
             (List.range count).map (fun i =>
               -- I'm assuming Status is an output field
               ⟨.check_definedness,
                add32 (add32 inbuf F.AFD_POLL_INFO_Handles_offs) (mul32 i F.AFD_HANDLE_size),
                F.AFD_HANDLE_Status_offs⟩)
           else []
         | none => []))
    else if code = F.AFD_GET_TDI_HANDLES then (true, c ++ whole)
    else
      -- assume full thing must be defined
      (true, c ++ whole)

/-- The function `handle_post_DeviceIoControlFile`: the calls of
`check_sysmem`.  `res` is `dr_syscall_get_result(drcontext)`; `outbuf` and
`outsz` are `pt->sysarg[8]` and `[9]`. -/
def handle_post_DeviceIoControlFile (F : afd_abi) (A : win_abi) (mem : app_memory)
    (sysnum res : Int) (code inbuf insz outbuf outsz : Nat) : List sysmem_check :=
  if !os_syscall_succeeded A sysnum res then []
  else
    -- extract operation from 0x12xxx and bottom 2 method bits
    let code := ioctl_operation code
    if code = F.AFD_RECV then
      if inbuf ≠ 0 then
        match mem.afd_recv_info inbuf with
        | some info => check_wsabufs F mem .write info
        | none => []
      else []
    else if code = F.AFD_RECV_DATAGRAM then
      if inbuf ≠ 0 then
        match mem.afd_recv_info_udp inbuf with
        | some info =>
          (match mem.dword info.AddressLength with
           | some i => check_sockaddr A mem info.Address i .write
           | none => []) ++
          check_wsabufs F mem .write info
        | none => []
      else []
    else if code = F.AFD_SELECT then
      if inbuf ≠ 0 then
        match mem.afd_poll_handle_count inbuf with
        | some count =>
          if insz = add32 F.AFD_POLL_INFO_Handles_offs (mul32 count F.AFD_HANDLE_size) then
            (List.range count).map (fun i =>
              -- I'm assuming Status is an output field
              ⟨.write,
               add32 (add32 (add32 inbuf F.AFD_POLL_INFO_Handles_offs)
                 (mul32 i F.AFD_HANDLE_size)) F.AFD_HANDLE_Status_offs,
               F.AFD_HANDLE_Status_size⟩)
          else []
        | none => []
      else []
    else if code = F.AFD_GET_TDI_HANDLES then
      match mem.dword inbuf with
      | some flags =>
        if outsz = F.AFD_TDI_HANDLE_DATA_size then
          (if TEST F.AFD_ADDRESS_HANDLE flags then
             [⟨.write, add32 outbuf F.TdiAddressHandle_offs, F.TdiAddressHandle_size⟩]
           else []) ++
          (if TEST F.AFD_CONNECTION_HANDLE flags then
             [⟨.write, add32 outbuf F.TdiConnectionHandle_offs, F.TdiConnectionHandle_size⟩]
           else [])
        else []
      | none => []
    else []

/-! ## The shadow store and the test of the string instructions -/

/-- Modelled from the spec: the state of a shadow byte, "drawn from
{Unaddressable, Undefined, Defined, DefinedButUninitializedRead}" (the shadow
store is absent from the sources). -/
inductive shadow_state where
  | Unaddressable
  | Undefined
  | Defined
  | DefinedButUninitializedRead
  deriving DecidableEq, Repr

/-- Modelled from the spec: the shadow store, a "per-byte state map" of the
application memory. -/
abbrev shadow := Nat → shadow_state

/-- Modelled from the spec: "Heap allocations mark bytes `Undefined`". -/
def shadow_alloc (s : shadow) (p size : Nat) : shadow :=
  fun a => if p ≤ a ∧ a < p + size then .Undefined else s a

/-- Modelled from the spec: "A write at address `a` of size `n` stamps those
bytes `Defined`". -/
def shadow_write (s : shadow) (a n : Nat) : shadow :=
  fun x => if a ≤ x ∧ x < a + n then .Defined else s x

/-- Modelled from the spec: "`copy(src, dst, len)` preserving per-byte state"
(the two ranges do not overlap in `repstr_test`). -/
def shadow_copy (s : shadow) (src dst len : Nat) : shadow :=
  fun x => if dst ≤ x ∧ x < dst + len then s (src + (x - dst)) else s x

/-- Modelled from the spec: the bytes of a read of size `n` at `a` for which
"`Undefined` produces an error" (a compare is not a write-only use). -/
def shadow_read_errors (s : shadow) (a n : Nat) : List Nat :=
  ((List.range n).map (fun i => a + i)).filter (fun x => s x = .Undefined)

/-- The shadow states and the reports at the points of `repstr_test` of
`tests/registers.c`. -/
structure repstr_trace where
  /-- after `rep movsb` -/
  after_movs : shadow
  /-- after `rep stosb` -/
  after_stos : shadow
  /-- uninitialized bytes read by `cmp byte ptr [7 + edi], 1` -/
  cmp_errors : List Nat
  /-- uninitialized bytes read by the first iteration of `repne cmpsb` -/
  cmps_errors : List Nat

/-- The function `repstr_test` of `tests/registers.c` on the shadow store:
`a1` and `a2` are the two blocks of 15 bytes that `malloc` returns.  The
registers are those of the source: `rep movsb` runs with `edi = a1`,
`esi = a2`, `ecx = 15` and copies from `[esi]` to `[edi]`; `rep stosb` runs
with `edi = a2`, `ecx = 15`; `repne cmpsb` runs with `edi = a1`, `esi = a2`,
`ecx = 15`, and its first iteration reads one byte at `[esi]` and one at
`[edi]`. -/
def repstr_test (s : shadow) (a1 a2 : Nat) : repstr_trace :=
  let s := shadow_alloc s a1 15
  let s := shadow_alloc s a2 15
  -- leave one in the middle undef
  let s := (List.range 15).foldl (fun s i => if i ≠ 7 then shadow_write s (a1 + i) 1 else s) s
  let edi := a1
  let esi := a2
  let s_movs := shadow_copy s esi edi 15
  let edi := a2
  let s_stos := shadow_write s_movs edi 15
  let cmp := shadow_read_errors s_stos (7 + edi) 1
  let edi := a1
  let esi := a2
  { after_movs := s_movs, after_stos := s_stos, cmp_errors := cmp,
    cmps_errors := shadow_read_errors s_stos esi 1 ++ shadow_read_errors s_stos edi 1 }

/-! ## The log of the `record_error` calls -/

/-- The call of `record_error` that one call of an entry point makes in the
state `st`, as the (kind, callstack) pair that it records; `none` when the call
makes none.  `report_error` calls `record_error(type, ...)` unless it returns at
the `-report_max` throttle.  `report_leak` calls `record_error(type, ...)` under
`options.check_leaks` when `type < ERROR_MAX_VAL`: for a leak without a label
(not reachable and a known malloc) that the `-report_leak_max` throttle lets
through and that is not an ignored early leak; its kind is `ERROR_POSSIBLE_LEAK`
when `maybe_reachable` and `ERROR_LEAK` otherwise.  The checkpoint, the revert
and `report_fork_init` do not call it. -/
def record_error_call (env : report_env) (st : report_state) :
    report_call → Option (Nat × packed_callstack_t)
  | .error type pcs =>
    if 0 ≤ env.options.report_max ∧ env.options.report_max ≤ (st.num_reported_errors : Int) then
      none
    else some (type, pcs)
  | .leak known_malloc _ _ early reachable maybe_reachable pcs =>
    if reachable = true ∨ known_malloc = false then none
    else if 0 ≤ env.options.report_leak_max ∧
        env.options.report_leak_max ≤ (st.num_total_leaks : Int) then none
    else if early = true ∧ reachable = false ∧ env.options.ignore_early_leaks = true then none
    else if env.options.check_leaks then
      pcs.map (fun p => (if maybe_reachable then ERROR_POSSIBLE_LEAK else ERROR_LEAK, p))
    else none
  | .checkpoint => none
  | .revert => none
  | .fork_init => none

/-- The `record_error` calls made so far, as (kind, callstack) pairs, oldest
first: `recorded` holds those made since the start of the process or the last
`report_fork_init`; `counted` holds those of them made, for a pair of the kind
`LEAK` or `POSSIBLE LEAK`, since the last `report_leak_stats_revert`. -/
structure record_log where
  recorded : List (Nat × packed_callstack_t)
  counted : List (Nat × packed_callstack_t)
  deriving DecidableEq, Repr

/-- The log of `record_error` calls after the call `c` made in the state
`st`. -/
def record_log_step (env : report_env) (st : report_state) (log : record_log)
    (c : report_call) : record_log :=
  match c with
  | .fork_init => ⟨[], []⟩
  | .revert =>
    ⟨log.recorded,
     log.counted.filter (fun p => p.1 != ERROR_LEAK && p.1 != ERROR_POSSIBLE_LEAK)⟩
  | c =>
    match record_error_call env st c with
    | none => log
    | some p => ⟨log.recorded ++ [p], log.counted ++ [p]⟩

/-- The log of `record_error` calls along a sequence of calls of the entry
points, from the state `st` and the log `log`. -/
def record_calls (env : report_env) :
    report_state → record_log → List report_call → record_log
  | _, log, [] => log
  | st, log, c :: cs =>
    match report_step env st c with
    | .error _ => log
    | .ok st1 => record_calls env st1 (record_log_step env st log c) cs

/-- The records `errors` of the error table agree with the log of the
`record_error` calls: no two records have the same kind and callstack, the
count of a record is the number of counted calls for its pair (as a `uint`),
the pairs of the records are those recorded, and for the kinds other than the
leaks every recorded call is counted. -/
def log_inv (errors : List stored_error_t) (log : record_log) : Prop :=
  (errors.map (fun e => (e.errtype, e.pcs))).Nodup ∧
  (∀ e ∈ errors, e.count = log.counted.count (e.errtype, e.pcs) % 2 ^ 32) ∧
  (∀ p, p ∈ errors.map (fun e => (e.errtype, e.pcs)) ↔ p ∈ log.recorded) ∧
  (∀ p ∈ log.counted, p ∈ log.recorded) ∧
  (∀ p : Nat × packed_callstack_t, p.1 ≠ ERROR_LEAK → p.1 ≠ ERROR_POSSIBLE_LEAK →
    log.counted.count p = log.recorded.count p)

/-! ## Example inputs -/

/-- The line terminator `NL` of the Linux build. -/
def nl_unix : List Char := ['\n']

/-- A rendered stack of two frames: `app!foo`, then a system call frame. -/
def stack_foo_syscall : List Char :=
  "#0 <app+0x1> app!foo\n    foo.c:1\n#1 system call NtClose\n    ??:0\n".toList

/-- A rendered stack of two frames: `app!foo`, then `app!main`. -/
def stack_foo_main : List Char :=
  "#0 <app+0x1> app!foo\n    foo.c:1\n#1 <app+0x9> app!main\n    main.c:7\n".toList

/-- A rendered stack of the single frame `app!foo`. -/
def stack_foo : List Char :=
  "#0 <app+0x1> app!foo\n    foo.c:1\n".toList

/-- The first frame of a rendered stack: `lib!read_all`. -/
def frame_read_all : List Char :=
  "#0 <lib+0x40> lib!read_all\n    io.c:12\n".toList

/-- A system call frame of a rendered stack. -/
def frame_syscall : List Char :=
  "#1 system call NtReadFile\n    ??:0\n".toList

/-- An ordinary second frame of a rendered stack. -/
def frame_main : List Char :=
  "#1 <app+0x9> app!main\n    main.c:7\n".toList

/-- A suppression file of one stanza with thirteen offset frames. -/
def lines_thirteen : List (List Char) :=
  [ "LEAK".toList, "<m+0x1>".toList, "<m+0x2>".toList, "<m+0x3>".toList, "<m+0x4>".toList,
    "<m+0x5>".toList, "<m+0x6>".toList, "<m+0x7>".toList, "<m+0x8>".toList,
    "<m+0x9>".toList, "<m+0xa>".toList, "<m+0xb>".toList, "<m+0xc>".toList,
    "<m+0xd>".toList ]

/-- A suppression file of one stanza with twelve offset frames followed by a
symbolic frame. -/
def lines_mixed_late : List (List Char) :=
  [ "LEAK".toList, "<m+0x1>".toList, "<m+0x2>".toList, "<m+0x3>".toList, "<m+0x4>".toList,
    "<m+0x5>".toList, "<m+0x6>".toList, "<m+0x7>".toList, "<m+0x8>".toList,
    "<m+0x9>".toList, "<m+0xa>".toList, "<m+0xb>".toList, "<m+0xc>".toList,
    "m!leaky".toList ]

/-- A suppression file with two stanzas, comments, a blank line and CRLF line
ends; the first stanza has three frames. -/
def lines_two_stanzas : List (List Char) :=
  [ "# leaks of the runtime".toList, "LEAK".toList, "<rt+0x10>".toList, "<rt+0x20>\r".toList,
    "<rt+0x30>".toList, [], "UNINITIALIZED READ\r".toList, "app!parse*".toList,
    "app!main".toList ]

/-- The file `lines_two_stanzas` without its comment and blank lines and
without CR. -/
def lines_two_stanzas_plain : List (List Char) :=
  [ "LEAK".toList, "<rt+0x10>".toList, "<rt+0x20>".toList,
    "<rt+0x30>".toList, "UNINITIALIZED READ".toList, "app!parse*".toList,
    "app!main".toList ]

/-- A suppression file whose first line is a frame line. -/
def lines_frame_first : List (List Char) :=
  [ "<rt+0x10>".toList, "LEAK".toList, "<rt+0x20>".toList ]

/-- A suppression file whose stanza mixes the two forms in its first two frame
lines. -/
def lines_mixed_early : List (List Char) :=
  [ "LEAK".toList, "<rt+0x10>".toList, "rt!alloc".toList ]

/-- Lines that are neither headers nor frames of the documented forms. -/
def lines_malformed : List (List Char) :=
  [ "garbage".toList, "UNKNOWN HEADER".toList, "no bang and no bracket".toList ]

/-- Example options: no limit on the reports, leaks checked with callstacks. -/
def options_unlimited : options_t :=
  { report_max := -1, report_leak_max := -1, show_reachable := false, verbose := 1,
    ignore_early_leaks := true, check_leaks := true, possible_leaks := true }

/-- Example environment: every callstack renders as `stack_foo_main`. -/
def env_of (o : options_t) : report_env :=
  { options := o, nl := nl_unix, size_bits := 32,
    packed_callstack_print := fun _ => stack_foo_main }

/-- A suppression file with one suppression of unaddressable accesses. -/
def file_supp_foo : List Char := "UNADDRESSABLE ACCESS\napp!foo\napp!main\n".toList

/-- The suppression lists when `file_supp_foo` has been read. -/
def supp_foo : supp_globals :=
  { supp_list :=
      [[{ symbolic := true, frames := [some "app!foo".toList, some "app!main".toList] }],
       [], [], [], [], []],
    supp_num := [1, 0, 0, 0, 0, 0], num_suppressions := 1 }

/-- The statics after one unaddressable access has been reported as `Error #1`
(the text of the suggested suppression left out). -/
def state_one_reported : report_state :=
  { report_state.init supp_globals.init with
    error_id := 1,
    errors := [{ id := 1, errtype := ERROR_UNADDRESSABLE, count := 1, suppressed := false,
                 pcs := [1] }],
    num_unique := [1, 0, 0, 0, 0, 0], num_total := [1, 0, 0, 0, 0, 0],
    num_reported_errors := 1, f_results := [some 1] }

/-- The statics after one unaddressable access has been suppressed by
`supp_foo`. -/
def state_one_suppressed : report_state :=
  { report_state.init supp_foo with
    errors := [{ id := 0, errtype := ERROR_UNADDRESSABLE, count := 1, suppressed := true,
                 pcs := [1] }],
    num_suppressions_matched := 1 }

/-- The statics after the calls `calls` from the statics `st` (`st` itself when
an `ASSERT` fails on the way). -/
def state_after (env : report_env) (st : report_state) (calls : List report_call) :
    report_state :=
  match report_run env st calls with
  | .ok s => s
  | .error _ => st

/-- Two reports of the same unaddressable access and one of another, from the
start of the process. -/
def calls_three : List report_call :=
  [.error ERROR_UNADDRESSABLE [1], .error ERROR_UNADDRESSABLE [2], .error ERROR_UNADDRESSABLE [1]]

/-- The text that `on_suppression_list` appends to the file of suggested
suppressions for an unaddressable access at `stack_foo_main` that nothing
suppresses. -/
def suggested_foo_main : List Char :=
  match on_suppression_list nl_unix supp_globals.init.supp_list ERROR_UNADDRESSABLE
      stack_foo_main with
  | .ok (_, out) => out
  | .error _ => []

/-- Four `record_error` calls: an unaddressable access at two callstacks, one
of them twice, and an uninitialized read at a callstack of the former kind. -/
def records_four : List (Nat × packed_callstack_t) :=
  [(ERROR_UNADDRESSABLE, [1]), (ERROR_UNADDRESSABLE, [2]), (ERROR_UNADDRESSABLE, [1]),
   (ERROR_UNDEFINED, [1])]

/-- Two leaks of known mallocs, at two callstacks. -/
def calls_two_leaks : List report_call :=
  [.leak true 8 0 false false false (some [1]), .leak true 16 4 false false false (some [2])]

/-- A leak, the revert of the leak statistics, the same leak again, and an
unaddressable access reported twice. -/
def calls_leak_revert_leak : List report_call :=
  [.leak true 8 0 false false false (some [7]), .revert,
   .leak true 8 0 false false false (some [7]),
   .error ERROR_UNADDRESSABLE [1], .error ERROR_UNADDRESSABLE [1]]

/-- The suppression lists with one suppression of leaks, of the frames
`app!foo` and `app!main`. -/
def supp_leak_foo : supp_globals :=
  { supp_list :=
      [[], [], [], [],
       [{ symbolic := true, frames := [some "app!foo".toList, some "app!main".toList] }], []],
    supp_num := [0, 0, 0, 0, 1, 0], num_suppressions := 1 }

/-- A heap of 32-bit pointers and 8-byte chunks where no freed range overlaps
anything and the only chunk that `malloc_size_include_invalid` knows is the
freed chunk of 8 bytes at 16. -/
def heap_freed_at_16 : heap_env :=
  { ptr_bits := 32, chunk_alignment := 8,
    align_forward := fun x => (x + 7) / 8 * 8,
    align_backward := fun x => x / 8 * 8,
    overlaps_delayed_free := fun _ _ => none,
    malloc_size_include_invalid := fun p => if p = 16 then some 8 else none }

/-- A rendered stack of two frames: the system call `NtClose`, then
`app!main`. -/
def stack_syscall_main : List Char :=
  "#0 system call NtClose\n    ??:0\n#1 <app+0x9> app!main\n    main.c:7\n".toList

/-- A rendered stack of one frame whose symbol has two question marks. -/
def stack_two_questions : List Char :=
  "#0 <app+0x1> app!f?o?\n    foo.c:1\n".toList

/-- A suppression file with a `WARNING` stanza without frames, followed by a
`WARNING` stanza of two frames. -/
def file_frameless_first : List Char := "WARNING\nWARNING\napp!foo\napp!main\n".toList

/-- Example ABI: the constants and layouts of 32-bit Windows (x86). -/
def win32_abi : win_abi :=
  { STATUS_BUFFER_OVERFLOW := -2147483643,
    sizeof_UNICODE_STRING := 8, sizeof_PORT_MESSAGE := 24, PORT_MAXIMUM_MESSAGE_LENGTH := 256,
    CONTEXT_i486 := 0x10000, CONTEXT_DEBUG_REGISTERS := 0x10010,
    CONTEXT_FLOATING_POINT := 0x10008, CONTEXT_SEGMENTS := 0x10004,
    CONTEXT_INTEGER := 0x10002, CONTEXT_CONTROL := 0x10001,
    CONTEXT_EXTENDED_REGISTERS := 0x10020,
    Dr0_offs := 4, FloatSave_offs := 28, FloatSave_size := 112,
    SegGs_offs := 140, SegFs_offs := 144, SegEs_offs := 148, SegDs_offs := 152,
    Edi_offs := 156, Ebp_offs := 180, Eip_offs := 184, SegCs_offs := 188,
    EFlags_offs := 192, Esp_offs := 196, SegSs_offs := 200,
    ExtendedRegisters_offs := 204, ExtendedRegisters_size := 512,
    AF_UNSPEC := 0, AF_INET := 2, AF_INET6 := 23, sa_family_size := 2,
    sin_port_offs := 2, sin_port_size := 2, sin_addr_offs := 4, sin_addr_size := 4,
    sin6_port_offs := 2, sin6_port_size := 2, sin6_flowinfo_offs := 4,
    sin6_flowinfo_size := 4, sin6_addr_offs := 8, sin6_addr_size := 16,
    sin6_scope_id_offs := 24, sin6_scope_id_size := 4 }

/-- Example ABI: the operation numbers written beside the cases of the two
handlers, and layouts of the `AFD_*` types for a 32-bit build (those of
`SOCKET_CONTEXT` are illustrative). -/
def afd32_abi : afd_abi :=
  { AFD_BIND := 0, AFD_CONNECT := 1, AFD_START_LISTEN := 2, AFD_ACCEPT := 4, AFD_RECV := 5,
    AFD_RECV_DATAGRAM := 6, AFD_SEND := 7, AFD_SEND_DATAGRAM := 8, AFD_SELECT := 9,
    AFD_DISCONNECT := 10, AFD_GET_TDI_HANDLES := 13, AFD_SET_INFO := 14,
    AFD_SET_CONTEXT := 17, AFD_GET_INFO := 30, AFD_EVENT_SELECT := 33,
    AFD_ENUM_NETWORK_EVENTS := 34, AFD_DEFER_ACCEPT := 35,
    AFD_INFO_BLOCKING_MODE := 2, AFD_ADDRESS_HANDLE := 1, AFD_CONNECTION_HANDLE := 2,
    InformationClass_size := 4, Information_Boolean_offs := 8, Information_Boolean_size := 1,
    SOCKET_CONTEXT_Padding_offs := 104, SOCKET_CONTEXT_LocalAddress_offs := 112,
    AFD_BIND_DATA_Address_offs := 4,
    AFD_CONNECT_INFO_UseSAN_size := 1, AFD_CONNECT_INFO_Root_offs := 4,
    AFD_CONNECT_INFO_RemoteAddress_offs := 12,
    DisconnectType_size := 4, Timeout_offs := 8, Timeout_size := 8,
    SequenceNumber_size := 4, RejectConnection_offs := 4, RejectConnection_size := 1,
    AFD_WSABUF_size := 8,
    AFD_LISTEN_DATA_UseSAN_size := 1, Backlog_offs := 4, Backlog_size := 4,
    UseDelayedAcceptance_offs := 8, UseDelayedAcceptance_size := 1,
    AFD_POLL_INFO_Handles_offs := 16, AFD_HANDLE_size := 12,
    AFD_HANDLE_Status_offs := 8, AFD_HANDLE_Status_size := 4,
    AFD_TDI_HANDLE_DATA_size := 8, TdiAddressHandle_offs := 0, TdiAddressHandle_size := 4,
    TdiConnectionHandle_offs := 4, TdiConnectionHandle_size := 4 }

/-- An application memory where every `safe_read` fails. -/
def mem_unreadable : app_memory :=
  { unicode_string := fun _ => none, port_message := fun _ => none, dword := fun _ => none,
    address_family := fun _ => none, afd_info_class := fun _ => none,
    socket_context := fun _ => none, afd_recv_info := fun _ => none,
    afd_recv_info_udp := fun _ => none, afd_send_info := fun _ => none,
    afd_send_info_udp := fun _ => none, afd_wsabuf := fun _ => none,
    afd_poll_handle_count := fun _ => none }

/-- An application memory with a `PORT_MESSAGE` at 0x1000 whose `DataLength`
is 0x144 and whose `TotalLength` is 0x15c. -/
def mem_port_message : app_memory :=
  { mem_unreadable with
    port_message := fun a => if a = 0x1000 then some ⟨0x144, 0x15c⟩ else none }

/-- An application memory with a `UNICODE_STRING` at 0x1000: `Length` 6,
`MaximumLength` 16, `Buffer` 0x2000. -/
def mem_unicode_string : app_memory :=
  { mem_unreadable with
    unicode_string := fun a => if a = 0x1000 then some ⟨6, 16, 0x2000⟩ else none }

/-- An application memory with a `CONTEXT` at 0x1000 whose `ContextFlags` are
`CONTEXT_FULL` (control, integer and segment registers). -/
def mem_context_full : app_memory :=
  { mem_unreadable with dword := fun a => if a = 0x1000 then some 0x10007 else none }

/-- An application memory for a datagram receive: at 0x1000 an
`AFD_RECV_INFO_UDP` without buffers whose `Address` is 0x2000 and whose
`AddressLength` points to 0x3000; the `int` at 0x3000 is 2; and the address
family at 0x2000 is `AF_INET`. -/
def mem_recv_datagram : app_memory :=
  { mem_unreadable with
    afd_recv_info_udp := fun a => if a = 0x1000 then some ⟨0x1800, 0, 0x2000, 0x3000⟩ else none,
    dword := fun a => if a = 0x3000 then some 2 else none,
    address_family := fun a => if a = 0x2000 then some 2 else none }

/-- Whether the check `c` covers the byte at `a`. -/
def covers (c : sysmem_check) (a : Nat) : Bool := decide (c.ptr ≤ a) && decide (a < c.ptr + c.sz)

/-! ## The line buffer: the reader sees the lines of the file in order -/

theorem strchr_append_of_clean (l t : List Char) (c : Char) (h1 : c ∉ l) (h2 : NUL ∉ l) :
    strchr (l ++ c :: t) c = some l.length := by
  induction l with
  | nil => simp [strchr]
  | cons x xs ih =>
    simp only [List.mem_cons, not_or] at h1 h2
    have hx : x ≠ c := fun h => h1.1 h.symm
    have hn : x ≠ NUL := fun h => h2.1 h.symm
    simp [strchr, hx, hn, ih h1.2 h2.2]

theorem strchr_none_of_not_mem (l : List Char) (c : Char) (h : c ∉ l) :
    strchr l c = none := by
  induction l with
  | nil => simp [strchr]
  | cons x xs ih =>
    simp only [List.mem_cons, not_or] at h
    have hx : x ≠ c := fun h2 => h.1 h2.symm
    by_cases hn : x = NUL
    · subst hn
      simp [strchr, hx]
    · simp [strchr, hx, hn, ih h.2]

theorem join_lines_length_pos (l : List Char) (ls : List (List Char)) :
    0 < (join_lines (l :: ls)).length := by
  simp [join_lines]

/-- Splitting of the text that remains when the buffer holds its first part. -/
theorem split_remaining (r u l t : List Char) (h : r ++ u = l ++ '\n' :: t) :
    (l.length < r.length ∧ ∃ r1, r = l ++ '\n' :: r1 ∧ r1 ++ u = t) ∨
    (r.length ≤ l.length ∧ ∃ l1, l = r ++ l1 ∧ u = l1 ++ '\n' :: t) := by
  rcases List.append_eq_append_iff.mp h with ⟨a, ha, hb⟩ | ⟨a, ha, hb⟩
  · -- l = r ++ a
    right
    refine ⟨by simp [ha], a, ha, hb⟩
  · -- r = l ++ a
    cases a with
    | nil =>
      right
      simp at ha hb
      refine ⟨by simp [ha], [], by simp [ha], by simpa using hb.symm⟩
    | cons x a1 =>
      left
      simp at hb
      refine ⟨by simp [ha], a1, by simp [ha, ← hb.1], hb.2.symm⟩

theorem take_line (l1 t : List Char) (m : Nat) :
    (l1 ++ '\n' :: t).take (l1.length + 1 + m) = l1 ++ '\n' :: t.take m := by
  induction l1 with
  | nil => simp [Nat.add_comm 1 m]
  | cons x xs ih =>
    have : (x :: xs).length + 1 + m = (xs.length + 1 + m) + 1 := by simp; omega
    rw [this]
    simp only [List.cons_append, List.take_succ_cons, ih]

theorem drop_line (l1 t : List Char) (m : Nat) :
    (l1 ++ '\n' :: t).drop (l1.length + 1 + m) = t.drop m := by
  induction l1 with
  | nil => simp [Nat.add_comm 1 m]
  | cons x xs ih =>
    have : (x :: xs).length + 1 + m = (xs.length + 1 + m) + 1 := by simp; omega
    rw [this]
    simp only [List.cons_append, List.drop_succ_cons, ih]

/-- Reading a chunk that completes the line at the start of the buffer. -/
theorem refill_line (max_frames : Nat) (l t : List Char) (m f : Nat) (st : reader)
    (next : reader → Except Fault reader)
    (hnext : ∀ st1, read_loop max_frames f
        (some ⟨l.length + 1, t.take m⟩) (t.drop m) st1 = next st1) :
    (match process_line max_frames st (strip_cr ((l ++ '\n' :: t.take m).take l.length)) with
      | .error e => (Except.error e : Except Fault reader)
      | .ok st1 => read_loop max_frames f
          (some ⟨0 + l.length + 1, (l ++ '\n' :: t.take m).drop (l.length + 1)⟩) (t.drop m) st1)
    = (match process_line max_frames st (strip_cr l) with
      | .error e => (Except.error e : Except Fault reader)
      | .ok st1 => next st1) := by
  have ht : (l ++ '\n' :: t.take m).take l.length = l := by simp
  have hd : (l ++ '\n' :: t.take m).drop (l.length + 1) = t.take m := by simp
  rw [ht, hd]
  cases hp : process_line max_frames st (strip_cr l) with
  | error e => rfl
  | ok st1 => simp only [Nat.zero_add]; exact hnext st1

theorem read_loop_lines (max_frames : Nat) (ls : List (List Char)) :
    ∀ (fuel c : Nat) (r u : List Char) (st : reader),
      (∀ l ∈ ls, line_ok l) →
      r ++ u = join_lines ls →
      1 ≤ c → c + r.length ≤ BUFSIZE - 1 →
      (u ≠ [] → c + r.length = BUFSIZE - 1) →
      r.length + u.length < fuel →
      read_loop max_frames fuel (some ⟨c, r⟩) u st
        = process_lines max_frames st (ls.map strip_cr) := by
  induction ls with
  | nil =>
    intro fuel c r u st _ hru hc _ _ hf
    simp [join_lines] at hru
    obtain ⟨rfl, rfl⟩ := hru
    cases fuel with
    | zero => omega
    | succ f => simp [read_loop, strchr, process_lines]
  | cons l ls ih =>
    intro fuel c r u st hok hru hc hcap hfull hf
    have hl := hok l (by simp)
    have hls : ∀ x ∈ ls, line_ok x := fun x hx => hok x (by simp [hx])
    cases fuel with
    | zero => omega
    | succ f =>
      simp only [join_lines] at hru
      rcases split_remaining r u l (join_lines ls) hru with
        ⟨hlt, r1, hr, hr1⟩ | ⟨hle, l1, hl1, hu⟩
      · -- the whole line is in the buffer
        subst hr
        have hs : strchr (l ++ '\n' :: r1) '\n' = some l.length :=
          strchr_append_of_clean _ _ _ hl.1 hl.2.1
        simp only [read_loop, hs, process_lines, List.map_cons]
        have ht : (l ++ '\n' :: r1).take l.length = l := by simp
        have hd : (l ++ '\n' :: r1).drop (l.length + 1) = r1 := by simp
        rw [ht, hd]
        cases hp : process_line max_frames st (strip_cr l) with
        | error e => rfl
        | ok st1 =>
          simp only
          apply ih _ _ _ _ _ hls hr1
          · omega
          · simp at hcap; omega
          · intro hne; have := hfull hne; simp at this; omega
          · simp at hf; omega
      · -- the line is completed by a read
        have hrn : strchr r '\n' = none := by
          apply strchr_none_of_not_mem
          intro hmem
          exact hl.1 (by rw [hl1]; simp [hmem])
        have hune : u ≠ [] := by rw [hu]; simp
        have hfull1 := hfull hune
        have hlen : l.length = r.length + l1.length := by rw [hl1]; simp
        have hb : l.length + 1 < BUFSIZE := hl.2.2
        obtain ⟨m, hm⟩ : ∃ m, c = l1.length + 1 + m := ⟨c - (l1.length + 1), by omega⟩
        have htake : u.take c = l1 ++ '\n' :: (join_lines ls).take m := by
          rw [hu, hm, take_line]
        have hdrop : u.drop c = (join_lines ls).drop m := by
          rw [hu, hm, drop_line]
        have htext : r ++ u.take c = l ++ '\n' :: (join_lines ls).take m := by
          rw [htake, hl1]; simp
        have hs : strchr (l ++ '\n' :: (join_lines ls).take m) '\n' = some l.length :=
          strchr_append_of_clean _ _ _ hl.1 hl.2.1
        have hcl : ¬ ((u.take c).length ≤ 0) := by
          rw [htake]; simp
        simp only [read_loop, hrn, hcl, if_false, htext, hs, hdrop, process_lines,
          List.map_cons]
        apply refill_line max_frames l (join_lines ls) m f st
        intro st1
        apply ih _ _ _ _ _ hls (List.take_append_drop m (join_lines ls))
        · omega
        · have := List.length_take_le m (join_lines ls); omega
        · intro hne
          have h1 : m < (join_lines ls).length := by
            by_contra hc1
            exact hne (List.drop_eq_nil_of_le (by omega))
          rw [List.length_take]; omega
        · have h2 : u.length = l1.length + 1 + (join_lines ls).length := by
            rw [hu]; simp; omega
          have h3 : ((join_lines ls).take m).length + ((join_lines ls).drop m).length
              = (join_lines ls).length := by
            rw [← List.length_append, List.take_append_drop]
          omega

theorem read_loop_file (max_frames : Nat) (ls : List (List Char)) (st : reader)
    (hok : ∀ l ∈ ls, line_ok l) :
    read_loop max_frames ((join_lines ls).length + 1) none (join_lines ls) st
      = process_lines max_frames st (ls.map strip_cr) := by
  cases ls with
  | nil => simp [join_lines, read_loop, process_lines]
  | cons l ls =>
    have hl := hok l (by simp)
    have hls : ∀ x ∈ ls, line_ok x := fun x hx => hok x (by simp [hx])
    have hb : l.length + 1 < BUFSIZE := hl.2.2
    obtain ⟨m, hm⟩ : ∃ m, BUFSIZE - 1 = l.length + 1 + m :=
      ⟨BUFSIZE - 1 - (l.length + 1), by omega⟩
    have htake : (join_lines (l :: ls)).take (BUFSIZE - 1)
        = l ++ '\n' :: (join_lines ls).take m := by
      rw [hm]; simp only [join_lines]; rw [take_line]
    have hdrop : (join_lines (l :: ls)).drop (BUFSIZE - 1) = (join_lines ls).drop m := by
      rw [hm]; simp only [join_lines]; rw [drop_line]
    have hs : strchr (l ++ '\n' :: (join_lines ls).take m) '\n' = some l.length :=
      strchr_append_of_clean _ _ _ hl.1 hl.2.1
    have hcl : ¬ ((l ++ '\n' :: (join_lines ls).take m).length ≤ 0) := by simp
    simp only [read_loop, htake, hcl, if_false, hs, hdrop, process_lines, List.map_cons]
    apply refill_line max_frames l (join_lines ls) m _ st
    intro st1
    apply read_loop_lines max_frames ls _ _ _ _ _ hls (List.take_append_drop m (join_lines ls))
    · omega
    · have := List.length_take_le m (join_lines ls); omega
    · intro hne
      have h1 : m < (join_lines ls).length := by
        by_contra hc1
        exact hne (List.drop_eq_nil_of_le (by omega))
      rw [List.length_take]; omega
    · have h3 : ((join_lines ls).take m).length + ((join_lines ls).drop m).length
          = (join_lines ls).length := by
        rw [← List.length_append, List.take_append_drop]
      simp only [join_lines, List.length_append, List.length_cons]
      omega

/-- On a file of newline-terminated lines that fit the buffer, the buffered
reader runs the loop body on each line, its line ending removed, in order. -/
theorem read_suppression_file_lines (max_frames : Nat) (g : supp_globals)
    (ls : List (List Char)) (hok : ∀ l ∈ ls, line_ok l) :
    read_suppression_file max_frames g (join_lines ls)
      = (process_lines max_frames (reader_init max_frames g) (ls.map strip_cr)).map
          read_finish := by
  unfold read_suppression_file
  rw [read_loop_file max_frames ls _ hok]
  cases process_lines max_frames (reader_init max_frames g) (ls.map strip_cr) <;> rfl

/-! ## The loop body on the lines of a file: headers, frames, stanzas -/

theorem strstr_zero_iff (s p : List Char) : (strstr s p == some 0) = p.isPrefixOf s := by
  cases s with
  | nil => cases p <;> simp [strstr]
  | cons x xs =>
    by_cases h : p.isPrefixOf (x :: xs) = true
    · simp [strstr, h]
    · simp only [Bool.not_eq_true] at h
      simp only [strstr, h]
      cases strstr xs p <;> simp

theorem get_suppress_type_eq (l : List Char) : get_suppress_type l = header_kind l := by
  unfold get_suppress_type header_kind
  cases l with
  | nil => decide
  | cons x xs =>
    simp only [List.isEmpty_cons, Bool.false_eq_true, if_false]
    congr 1
    funext name
    exact strstr_zero_iff _ _

theorem header_not_skipped (l : List Char) (k : Nat) (h : header_kind l = some k) :
    is_skipped l = false := by
  cases l with
  | nil =>
    have h0 : header_kind [] = none := by decide
    rw [h0] at h; cases h
  | cons x xs =>
    by_cases hx : x = '#'
    · subst hx
      exfalso
      revert h
      simp [header_kind, suppress_name, List.findIdx?_cons, List.isPrefixOf]
    · simp [is_skipped, hx]

theorem process_line_skipped (max_frames : Nat) (st : reader) (l : List Char)
    (h : is_skipped l = true) : process_line max_frames st l = .ok st := by
  unfold is_skipped at h
  simp only [process_line, h, if_true]

theorem process_line_header (max_frames : Nat) (st : reader) (l : List Char) (k : Nat)
    (h : header_kind l = some k) :
    process_line max_frames st l = .ok
      { curtype := some k, symbolic := false, modoffs := false, num_frames := 0,
        frames := (match st.curtype with
          | some curtype =>
            add_suppress_spec st.g curtype st.symbolic st.num_frames st.frames
          | none => (st.g, st.frames)).2,
        g := (match st.curtype with
          | some curtype =>
            add_suppress_spec st.g curtype st.symbolic st.num_frames st.frames
          | none => (st.g, st.frames)).1 } := by
  have hs := header_not_skipped l k h
  unfold is_skipped at hs
  simp only [process_line, hs, get_suppress_type_eq, h]
  simp

theorem process_line_frame (max_frames : Nat) (st : reader) (l : List Char)
    (hs : is_skipped l = false) (h : header_kind l = none) :
    process_line max_frames st l =
      if st.num_frames ≥ max_frames then .ok st
      else if st.curtype = none then .error (.usage_no_type l)
      else if (st.symbolic && is_offset_form l) || (st.modoffs && !is_offset_form l) then
        .error (.usage_mixed l)
      else .ok { st with
        modoffs := st.modoffs || is_offset_form l,
        symbolic := st.symbolic || !is_offset_form l,
        frames := st.frames.set st.num_frames (some l),
        num_frames := st.num_frames + 1 } := by
  unfold is_skipped at hs
  simp only [process_line, hs, get_suppress_type_eq, h]
  unfold is_offset_form
  by_cases h1 : st.num_frames ≥ max_frames
  · simp [h1]
  · by_cases h2 : st.curtype = none
    · simp [h1, h2]
    · cases h3 : st.symbolic <;> cases h4 : st.modoffs <;>
        by_cases h5 : l.head? = some '<' <;> simp [h1, h2, h3, h4, h5]

theorem frame_lines_nil : frame_lines [] = [] := rfl

theorem frame_lines_header (l : List Char) (ls : List (List Char)) (k : Nat)
    (h : header_kind l = some k) : frame_lines (l :: ls) = [] := by
  simp [frame_lines, h]

theorem frame_lines_skipped (l : List Char) (ls : List (List Char))
    (hs : is_skipped l = true) : frame_lines (l :: ls) = frame_lines ls := by
  have h : header_kind l = none := by
    cases hk : header_kind l with
    | none => rfl
    | some k => rw [header_not_skipped l k hk] at hs; cases hs
  simp [frame_lines, h, hs]

theorem frame_lines_frame (l : List Char) (ls : List (List Char))
    (hs : is_skipped l = false) (h : header_kind l = none) :
    frame_lines (l :: ls) = l :: frame_lines ls := by
  simp [frame_lines, h, hs]

theorem stanzas_header (l : List Char) (ls : List (List Char)) (k : Nat)
    (h : header_kind l = some k) : stanzas (l :: ls) = (k, frame_lines ls) :: stanzas ls := by
  simp [stanzas, h]

theorem stanzas_other (l : List Char) (ls : List (List Char))
    (h : header_kind l = none) : stanzas (l :: ls) = stanzas ls := by
  simp [stanzas, h]

theorem all_not_eq_not_any {α : Type} (p : α → Bool) (l : List α) :
    l.all (fun x => !p x) = !l.any p := by
  induction l with
  | nil => rfl
  | cons x xs ih => simp only [List.all_cons, List.any_cons, ih, Bool.not_or]

theorem all_eq_not_any_not {α : Type} (p : α → Bool) (l : List α) :
    l.all p = !l.any (fun x => !p x) := by
  induction l with
  | nil => rfl
  | cons x xs ih => simp only [List.all_cons, List.any_cons, ih, Bool.not_or, Bool.not_not]

theorem homogeneous_append_one (stored : List (List Char)) (f : List Char) :
    homogeneous (stored ++ [f]) =
      !((stored.any (fun f => !is_offset_form f) && is_offset_form f) ||
        (stored.any is_offset_form && !is_offset_form f)) := by
  unfold homogeneous
  cases hf : is_offset_form f
  · simp [List.all_append, hf]
    exact all_not_eq_not_any _ _
  · simp [List.all_append, hf]
    exact all_eq_not_any_not _ _

theorem homogeneous_take (fs : List (List Char)) (n : Nat) (h : homogeneous fs = true) :
    homogeneous (fs.take n) = true := by
  unfold homogeneous at h ⊢
  simp only [Bool.or_eq_true, List.all_eq_true] at h ⊢
  rcases h with h | h
  · exact Or.inl (fun x hx => h x (List.mem_of_mem_take hx))
  · exact Or.inr (fun x hx => h x (List.mem_of_mem_take hx))

theorem take_append_full {α : Type} (a b : List α) (n : Nat) (h : a.length = n) :
    (a ++ b).take n = a := by
  subst h; simp

theorem reader_inv_spec (max_frames : Nat) (st : reader) (stored : List (List Char))
    (hi : reader_inv max_frames st stored) :
    ({ symbolic := st.symbolic, frames := st.frames.take st.num_frames } : suppress_spec_t)
      = spec_of max_frames stored := by
  have ht : stored.take max_frames = stored := List.take_of_length_le hi.le
  simp only [spec_of, ht, hi.num, hi.arr, hi.sym]

theorem reader_inv_push (max_frames : Nat) (st : reader) (stored : List (List Char))
    (f : List Char) (hi : reader_inv max_frames st stored)
    (hlt : stored.length < max_frames) (hh : homogeneous (stored ++ [f]) = true) :
    reader_inv max_frames
      { st with
        modoffs := st.modoffs || is_offset_form f,
        symbolic := st.symbolic || !is_offset_form f,
        frames := st.frames.set st.num_frames (some f),
        num_frames := st.num_frames + 1 } (stored ++ [f]) where
  num := by simp [hi.num]
  le := by simp; omega
  len := by simp [hi.len]
  arr := by
    have h1 := hi.arr
    have h2 := hi.len
    simp only [hi.num, List.length_append, List.length_singleton, List.map_append,
      List.map_cons, List.map_nil]
    rw [← h1]
    apply List.ext_getElem
    · simp; omega
    · intro i hi1 hi2
      simp only [List.length_take, List.length_set] at hi1
      by_cases hc : i = stored.length
      · subst hc
        simp [List.getElem_append_right]
      · have : i < stored.length := by omega
        have hne : ¬ stored.length = i := fun h => hc h.symm
        rw [List.getElem_append_left (by simp; omega)]
        simp [List.getElem_set, hne]
  sym := by simp [hi.sym, List.any_append]
  offs := by simp [hi.offs, List.any_append]
  hom := hh

theorem homogeneous_prefix (a b : List (List Char)) (n : Nat) (hle : a.length ≤ n)
    (h : homogeneous ((a ++ b).take n) = true) : homogeneous a = true := by
  have h1 := homogeneous_take _ a.length h
  rw [List.take_take, Nat.min_eq_left hle] at h1
  simpa using h1

theorem spec_of_congr (max_frames : Nat) (a b : List (List Char))
    (h : a.take max_frames = b.take max_frames) : spec_of max_frames a = spec_of max_frames b := by
  simp only [spec_of, h]

theorem reader_inv_header (max_frames : Nat) (st : reader) (stored : List (List Char))
    (ct k : Nat) (hi : reader_inv max_frames st stored) :
    reader_inv max_frames
      { curtype := some k, symbolic := false, modoffs := false, num_frames := 0,
        frames := (add_suppress_spec st.g ct st.symbolic st.num_frames st.frames).2,
        g := (add_suppress_spec st.g ct st.symbolic st.num_frames st.frames).1 } [] where
  num := rfl
  le := Nat.zero_le _
  len := by
    have := hi.len
    simp only [add_suppress_spec, List.length_append, List.length_replicate, List.length_drop]
    omega
  arr := rfl
  sym := rfl
  offs := rfl
  hom := rfl

theorem process_lines_stanza (max_frames : Nat) (ls : List (List Char)) :
    ∀ (st : reader) (stored : List (List Char)) (ct : Nat),
      reader_inv max_frames st stored → st.curtype = some ct →
      ((homogeneous ((stored ++ frame_lines ls).take max_frames) = true ∧
          (stanzas ls).all (fun s => homogeneous (s.2.take max_frames)) = true) →
        (process_lines max_frames st ls).map read_finish =
          .ok (link_all max_frames
            (link_spec st.g ct (spec_of max_frames (stored ++ frame_lines ls)))
            (stanzas ls))) ∧
      (¬ (homogeneous ((stored ++ frame_lines ls).take max_frames) = true ∧
          (stanzas ls).all (fun s => homogeneous (s.2.take max_frames)) = true) →
        ∃ line, process_lines max_frames st ls = .error (.usage_mixed line)) := by
  induction ls with
  | nil =>
    intro st stored ct hi hct
    have ht : stored.take max_frames = stored := List.take_of_length_le hi.le
    constructor
    · intro _
      simp only [process_lines, Except.map, read_finish, hct, add_suppress_spec,
        reader_inv_spec max_frames st stored hi, frame_lines_nil, List.append_nil,
        stanzas, link_all, List.foldl_nil]
    · intro hn
      exfalso; apply hn
      simp [frame_lines_nil, ht, hi.hom, stanzas]
  | cons l ls ih =>
    intro st stored ct hi hct
    by_cases hs : is_skipped l = true
    · have hk : header_kind l = none := by
        cases hk : header_kind l with
        | none => rfl
        | some k => rw [header_not_skipped l k hk] at hs; cases hs
      simp only [process_lines, process_line_skipped max_frames st l hs,
        frame_lines_skipped l ls hs, stanzas_other l ls hk]
      exact ih st stored ct hi hct
    · simp only [Bool.not_eq_true] at hs
      cases hk : header_kind l with
      | some k =>
        have ht : stored.take max_frames = stored := List.take_of_length_le hi.le
        have hinv := reader_inv_header max_frames st stored ct k hi
        have hih := ih _ [] k hinv rfl
        simp only [process_lines, process_line_header max_frames st l k hk, hct,
          frame_lines_header l ls k hk, stanzas_header l ls k hk, List.append_nil, ht,
          hi.hom, true_and, List.all_cons, Bool.and_eq_true]
        simp only [List.nil_append] at hih
        have hg : (add_suppress_spec st.g ct st.symbolic st.num_frames st.frames).1
            = link_spec st.g ct (spec_of max_frames stored) := by
          simp only [add_suppress_spec, reader_inv_spec max_frames st stored hi]
        constructor
        · intro hc
          rw [hih.1 hc, hg]
          simp only [link_all, List.foldl_cons]
        · intro hc
          exact hih.2 hc
      | none =>
        rw [frame_lines_frame l ls hs hk, stanzas_other l ls hk]
        simp only [process_lines, process_line_frame max_frames st l hs hk]
        by_cases hfull : st.num_frames ≥ max_frames
        · have hlen : stored.length = max_frames := by
            have := hi.num; have := hi.le; omega
          have e1 : (stored ++ l :: frame_lines ls).take max_frames
              = (stored ++ frame_lines ls).take max_frames := by
            rw [take_append_full _ _ _ hlen, take_append_full _ _ _ hlen]
          simp only [hfull, if_true, e1, spec_of_congr max_frames _ _ e1]
          exact ih st stored ct hi hct
        · have hlt : stored.length < max_frames := by
            have := hi.num; omega
          have hct2 : ¬ st.curtype = none := by rw [hct]; simp
          have e2 : stored ++ l :: frame_lines ls = (stored ++ [l]) ++ frame_lines ls := by
            simp
          simp only [hfull, hct2, if_false]
          by_cases hmix : ((st.symbolic && is_offset_form l) ||
              (st.modoffs && !is_offset_form l)) = true
          · simp only [hmix, if_true]
            have hnh : homogeneous (stored ++ [l]) = false := by
              rw [homogeneous_append_one, ← hi.sym, ← hi.offs, hmix]; rfl
            constructor
            · intro hc
              exfalso
              have := homogeneous_prefix (stored ++ [l]) (frame_lines ls) max_frames
                (by simp; omega) (by rw [← e2]; exact hc.1)
              rw [hnh] at this; cases this
            · intro _
              exact ⟨l, rfl⟩
          · simp only [hmix, if_false]
            have hh : homogeneous (stored ++ [l]) = true := by
              rw [homogeneous_append_one, ← hi.sym, ← hi.offs]
              simp only [Bool.not_eq_true] at hmix
              rw [hmix]; rfl
            have hinv := reader_inv_push max_frames st stored l hi hlt hh
            have hih := ih _ (stored ++ [l]) ct hinv hct
            rw [e2]
            exact hih

theorem process_lines_file (max_frames : Nat) (ls : List (List Char)) :
    ∀ (st : reader), st.curtype = none → st.num_frames = 0 →
      st.frames.length = max_frames → st.symbolic = false → st.modoffs = false →
      (accepted max_frames ls = true →
        (process_lines max_frames st ls).map read_finish =
          .ok (link_all max_frames st.g (stanzas ls))) ∧
      (accepted max_frames ls = false →
        ∃ e, process_lines max_frames st ls = .error e ∧ e.is_usage = true) := by
  induction ls with
  | nil =>
    intro st hct _ _ _ _
    constructor
    · intro _
      simp only [process_lines, Except.map, read_finish, hct, stanzas, link_all,
        List.foldl_nil]
    · intro h
      simp [accepted, frame_lines_nil, stanzas] at h
  | cons l ls ih =>
    intro st hct hnum hlen hsym hoffs
    by_cases hs : is_skipped l = true
    · have hk : header_kind l = none := by
        cases hk : header_kind l with
        | none => rfl
        | some k => rw [header_not_skipped l k hk] at hs; cases hs
      simp only [process_lines, process_line_skipped max_frames st l hs, accepted,
        frame_lines_skipped l ls hs, stanzas_other l ls hk]
      exact ih st hct hnum hlen hsym hoffs
    · simp only [Bool.not_eq_true] at hs
      cases hk : header_kind l with
      | some k =>
        have hinv : reader_inv max_frames
            { curtype := some k, symbolic := false, modoffs := false, num_frames := 0,
              frames := st.frames, g := st.g } [] :=
          { num := rfl, le := Nat.zero_le _, len := hlen, arr := rfl, sym := rfl,
            offs := rfl, hom := rfl }
        have hst := process_lines_stanza max_frames ls _ [] k hinv rfl
        simp only [List.nil_append] at hst
        simp only [process_lines, process_line_header max_frames st l k hk, hct, accepted,
          frame_lines_header l ls k hk, stanzas_header l ls k hk, List.isEmpty_nil,
          Bool.or_true, Bool.true_and, List.all_cons, Bool.and_eq_true]
        constructor
        · intro hc
          rw [hst.1 hc]
          simp only [link_all, List.foldl_cons]
        · intro hc
          have hn : ¬ (homogeneous (List.take max_frames (frame_lines ls)) = true ∧
              ((stanzas ls).all fun s => homogeneous (List.take max_frames s.2)) = true) := by
            intro h
            rw [h.1, h.2] at hc
            cases hc
          obtain ⟨line, hline⟩ := hst.2 hn
          exact ⟨_, hline, rfl⟩
      | none =>
        simp only [process_lines, process_line_frame max_frames st l hs hk, accepted,
          frame_lines_frame l ls hs hk, stanzas_other l ls hk, hnum, hct]
        by_cases hm : max_frames = 0
        · subst hm
          simp only [ge_iff_le, Nat.le_refl, if_true, beq_self_eq_true, Bool.true_or,
            Bool.true_and]
          have hih := ih st hct hnum hlen hsym hoffs
          simp only [accepted, beq_self_eq_true, Bool.true_or, Bool.true_and] at hih
          exact hih
        · have h0 : ¬ (0 ≥ max_frames) := by omega
          have hb : (max_frames == 0) = false := by simp [hm]
          simp only [h0, if_false, if_true, hb, List.isEmpty_cons, Bool.or_false,
            Bool.false_and]
          constructor
          · intro h; cases h
          · intro _
            exact ⟨_, rfl, rfl⟩

/-- An accepted file of newline-terminated lines: one spec per stanza is added,
in file order. -/
theorem read_accepted (max_frames : Nat) (g : supp_globals) (ls : List (List Char))
    (hok : ∀ l ∈ ls, line_ok l) (hacc : accepted max_frames (ls.map strip_cr) = true) :
    read_suppression_file max_frames g (join_lines ls)
      = .ok (link_all max_frames g (stanzas (ls.map strip_cr))) := by
  rw [read_suppression_file_lines max_frames g ls hok]
  exact (process_lines_file max_frames (ls.map strip_cr) (reader_init max_frames g)
    rfl rfl (by simp [reader_init]) rfl rfl).1 hacc

/-- A file of newline-terminated lines that is not accepted ends in a fatal
usage error. -/
theorem read_rejected (max_frames : Nat) (g : supp_globals) (ls : List (List Char))
    (hok : ∀ l ∈ ls, line_ok l) (hacc : accepted max_frames (ls.map strip_cr) = false) :
    ∃ e, read_suppression_file max_frames g (join_lines ls) = .error e ∧
      e.is_usage = true := by
  rw [read_suppression_file_lines max_frames g ls hok]
  obtain ⟨e, he, hu⟩ := (process_lines_file max_frames (ls.map strip_cr)
    (reader_init max_frames g) rfl rfl (by simp [reader_init]) rfl rfl).2 hacc
  exact ⟨e, by rw [he]; rfl, hu⟩

theorem suppress_name_incomparable :
    ∀ j, j < ERROR_MAX_VAL → ∀ k, k < ERROR_MAX_VAL → j ≠ k →
      (suppress_name.getD j []).isPrefixOf (suppress_name.getD k []) = false := by
  decide

/-- A line is a header of kind `k` iff it begins with the `k`-th canonical kind
name. -/
theorem header_kind_iff (l : List Char) (k : Nat) :
    header_kind l = some k ↔
      k < ERROR_MAX_VAL ∧ (suppress_name.getD k []).isPrefixOf l = true := by
  unfold header_kind
  rw [List.findIdx?_eq_some_iff_getElem]
  constructor
  · rintro ⟨hlt, hp, _⟩
    refine ⟨hlt, ?_⟩
    rw [List.getD_eq_getElem _ _ hlt]
    exact hp
  · rintro ⟨hlt, hp⟩
    have hlt1 : k < suppress_name.length := hlt
    rw [List.getD_eq_getElem _ _ hlt1] at hp
    refine ⟨hlt1, hp, ?_⟩
    intro j hj hpj
    have hjl : j < suppress_name.length := Nat.lt_trans hj hlt1
    have h1 : suppress_name[j] <+: l := List.isPrefixOf_iff_prefix.mp hpj
    have h2 : suppress_name[k] <+: l := List.isPrefixOf_iff_prefix.mp hp
    have hne : j ≠ k := Nat.ne_of_lt hj
    have hjk := suppress_name_incomparable j hjl k hlt hne
    have hkj := suppress_name_incomparable k hlt j hjl (Ne.symm hne)
    rw [List.getD_eq_getElem _ _ hjl, List.getD_eq_getElem _ _ hlt1] at hjk hkj
    rcases Nat.le_total suppress_name[j].length suppress_name[k].length with hle | hle
    · have := List.prefix_of_prefix_length_le h1 h2 hle
      rw [← List.isPrefixOf_iff_prefix, hjk] at this
      cases this
    · have := List.prefix_of_prefix_length_le h2 h1 hle
      rw [← List.isPrefixOf_iff_prefix, hkj] at this
      cases this

/-! ## The lists of each kind after a file is read -/

theorem link_spec_length (g : supp_globals) (k : Nat) (spec : suppress_spec_t) :
    (link_spec g k spec).supp_list.length = g.supp_list.length := by
  simp [link_spec]

theorem link_spec_getD (g : supp_globals) (k j : Nat) (spec : suppress_spec_t)
    (hk : k < g.supp_list.length) :
    (link_spec g k spec).supp_list.getD j [] =
      if k = j then spec :: g.supp_list.getD k [] else g.supp_list.getD j [] := by
  simp only [link_spec, List.getD_eq_getElem?_getD, List.getElem?_set]
  by_cases h : k = j
  · subst h; simp [hk]
  · simp [h]

theorem link_all_length (max_frames : Nat) (ss : List (Nat × List (List Char))) :
    ∀ g : supp_globals, (link_all max_frames g ss).supp_list.length = g.supp_list.length := by
  induction ss with
  | nil => intro g; rfl
  | cons s ss ih =>
    intro g
    simp only [link_all, List.foldl_cons] at ih ⊢
    rw [ih, link_spec_length]

theorem link_all_getD (max_frames : Nat) (ss : List (Nat × List (List Char))) (k : Nat) :
    ∀ g : supp_globals, (∀ s ∈ ss, s.1 < g.supp_list.length) →
      (link_all max_frames g ss).supp_list.getD k [] =
        ((ss.filter (fun s => s.1 == k)).map (fun s => spec_of max_frames s.2)).reverse
          ++ g.supp_list.getD k [] := by
  induction ss with
  | nil => intro g _; rfl
  | cons s ss ih =>
    intro g hs
    have h1 : s.1 < g.supp_list.length := hs s (by simp)
    have h2 : ∀ x ∈ ss, x.1 < (link_spec g s.1 (spec_of max_frames s.2)).supp_list.length := by
      intro x hx; rw [link_spec_length]; exact hs x (by simp [hx])
    simp only [link_all, List.foldl_cons] at ih ⊢
    rw [ih _ h2, link_spec_getD g s.1 k _ h1]
    by_cases h : s.1 = k
    · subst h; simp
    · have hb : (s.1 == k) = false := by simp [h]
      simp [h, hb]

theorem header_kind_lt (l : List Char) (k : Nat) (h : header_kind l = some k) :
    k < ERROR_MAX_VAL := by
  unfold header_kind at h
  obtain ⟨hlt, _⟩ := List.findIdx?_eq_some_iff_getElem.mp h
  exact hlt

theorem stanzas_kind_lt (ls : List (List Char)) :
    ∀ s ∈ stanzas ls, s.1 < ERROR_MAX_VAL := by
  induction ls with
  | nil => intro s hs; simp [stanzas] at hs
  | cons l ls ih =>
    intro s hs
    cases hk : header_kind l with
    | none => rw [stanzas_other l ls hk] at hs; exact ih s hs
    | some k =>
      rw [stanzas_header l ls k hk] at hs
      rcases List.mem_cons.mp hs with h | h
      · rw [h]; exact header_kind_lt l k hk
      · exact ih s h

/-- The list of each kind after an accepted file: the specs of the stanzas of
that kind, last stanza first, in front of the specs that were there. -/
theorem read_accepted_kind (max_frames : Nat) (g : supp_globals) (ls : List (List Char))
    (hg : g.supp_list.length = ERROR_MAX_VAL)
    (hok : ∀ l ∈ ls, line_ok l) (hacc : accepted max_frames (ls.map strip_cr) = true) :
    ∃ g1, read_suppression_file max_frames g (join_lines ls) = .ok g1 ∧
      ∀ k, g1.supp_list.getD k [] =
        specs_of_kind max_frames (ls.map strip_cr) k ++ g.supp_list.getD k [] := by
  refine ⟨_, read_accepted max_frames g ls hok hacc, ?_⟩
  intro k
  rw [link_all_getD max_frames _ k g]
  · rfl
  · intro s hs; rw [hg]; exact stanzas_kind_lt _ s hs

/-! ## The fuel of the loops is never used up -/

theorem strchr_lt (s : List Char) (c : Char) :
    ∀ k, strchr s c = some k → k < s.length := by
  induction s with
  | nil => intro k h; simp [strchr] at h
  | cons x xs ih =>
    intro k h
    simp only [strchr] at h
    split at h
    · cases h; simp
    · split at h
      · cases h
      · cases hs : strchr xs c with
        | none => simp [hs] at h
        | some j =>
          simp [hs] at h
          have := ih j hs
          simp; omega

theorem match_segments_fuel (symbolic : Bool) :
    ∀ (fuel : Nat) (at_start : Bool) (pat epos : List Char), pat.length < fuel →
      match_segments symbolic fuel at_start pat epos ≠ .fuel := by
  intro fuel
  induction fuel with
  | zero => intro _ _ _ h; omega
  | succ f ih =>
    intro at_start pat epos hlen
    simp only [match_segments]
    split
    · rename_i h0
      have hlt := strchr_lt pat '*' 0 h0
      apply ih
      simp only [List.length_drop]; omega
    · split
      · simp
      · split
        · simp
        · split
          · simp
          · split
            · simp
            · split
              · simp
              · rename_i k hk
                have hlt := strchr_lt pat '*' k hk
                apply ih
                simp only [List.length_drop]; omega

theorem match_frames_fuel (symbolic : Bool) (frames : List (Option (List Char))) :
    ∀ eframe, match_frames symbolic frames eframe ≠ .error .fuel := by
  induction frames with
  | nil => intro eframe; simp [match_frames]
  | cons frame rest ih =>
    intro eframe
    simp only [match_frames]
    split
    · simp
    · cases hfe : frame_epos symbolic eframe with
      | error e =>
        have : e ≠ .fuel := by
          intro he; subst he
          unfold frame_epos at hfe
          repeat' split at hfe
          all_goals cases hfe
        simp [this]
      | ok epos =>
        simp only
        cases frame with
        | none => simp
        | some pframe =>
          simp only
          have hms := match_segments_fuel symbolic (pframe.length + 1) true pframe epos
            (Nat.lt_succ_self _)
          cases hm : match_segments symbolic (pframe.length + 1) true pframe epos with
          | fuel => exact absurd hm hms
          | next_supp => simp
          | matched epos1 =>
            simp only
            split
            · simp
            · split
              · simp
              · exact ih _

theorem match_specs_fuel (specs : List suppress_spec_t) (cstack : List Char) :
    match_specs specs cstack ≠ .error .fuel := by
  induction specs with
  | nil => simp [match_specs]
  | cons spec rest ih =>
    simp only [match_specs]
    have hf := match_frames_fuel spec.symbolic spec.frames cstack
    cases hm : match_frames spec.symbolic spec.frames cstack with
    | error e =>
      have : e ≠ .fuel := fun he => hf (by rw [hm, he])
      simp [this]
    | ok r => cases r <;> simp [ih]

theorem write_frame_no_fuel (nl : List Char) (symbolic : Bool) (eframe : List Char) :
    write_frame nl symbolic eframe ≠ .error .fuel := by
  simp only [write_frame]
  repeat' split
  all_goals simp

/-- The position `end` that `write_frame` returns is inside the text at
`eframe`. -/
theorem write_frame_end_length (nl : List Char) (symbolic : Bool)
    (eframe out endp : List Char)
    (h : write_frame nl symbolic eframe = .ok (out, endp)) :
    endp.length ≤ eframe.length := by
  simp only [write_frame] at h
  repeat' split at h
  all_goals cases h
  all_goals simp only [List.length_drop]
  all_goals omega

theorem write_frames_fuel (nl : List Char) (symbolic : Bool) :
    ∀ (fuel : Nat) (eframe : List Char), eframe.length < fuel →
      write_frames nl symbolic fuel eframe ≠ .error .fuel := by
  intro fuel
  induction fuel with
  | zero => intro _ h; omega
  | succ f ih =>
    intro eframe hlen
    simp only [write_frames]
    split
    · simp
    · cases hw : write_frame nl symbolic eframe with
      | error e =>
        have : e ≠ .fuel := fun he => write_frame_no_fuel nl symbolic eframe (by rw [hw, he])
        simp [this]
      | ok p =>
        obtain ⟨out, endp⟩ := p
        simp only
        have hle := write_frame_end_length nl symbolic eframe out endp hw
        cases hj : strchr (endp.drop 1) '\n' with
        | none => simp
        | some j =>
          simp only
          have hlt := strchr_lt _ _ j hj
          simp only [List.length_drop] at hlt
          have hrec := ih (endp.drop (1 + j + 1)) (by simp only [List.length_drop]; omega)
          cases hr : write_frames nl symbolic f (endp.drop (1 + j + 1)) with
          | error e =>
            have : e ≠ .fuel := fun he => hrec (by rw [hr, he])
            simp [this]
          | ok more => simp

/-- The loops of `on_suppression_list` end within their fuel. -/
theorem on_suppression_list_fuel (nl : List Char) (supp_list : List (List suppress_spec_t))
    (type : Nat) (cstack : List Char) :
    on_suppression_list nl supp_list type cstack ≠ .error .fuel := by
  have hw : ∀ symbolic, write_suppress_pattern nl type cstack symbolic ≠ .error .fuel := by
    intro symbolic
    unfold write_suppress_pattern
    split
    · have hf := write_frames_fuel nl symbolic (cstack.length + 1) cstack (Nat.lt_succ_self _)
      cases hr : write_frames nl symbolic (cstack.length + 1) cstack with
      | error e =>
        have : e ≠ .fuel := fun he => hf (by rw [hr, he])
        simp [this]
      | ok body => simp
    · simp
  unfold on_suppression_list
  split
  · have hm := match_specs_fuel (supp_list.getD type []) cstack
    cases hr : match_specs (supp_list.getD type []) cstack with
    | error e =>
      have : e ≠ .fuel := fun he => hm (by rw [hr, he])
      simp [this]
    | ok b =>
      cases b with
      | true => simp
      | false =>
        simp only
        cases h1 : write_suppress_pattern nl type cstack true with
        | error e =>
          have : e ≠ .fuel := fun he => hw true (by rw [h1, he])
          simp [this]
        | ok sym =>
          simp only
          cases h2 : write_suppress_pattern nl type cstack false with
          | error e =>
            have : e ≠ .fuel := fun he => hw false (by rw [h2, he])
            simp [this]
          | ok offs => simp
  · simp

theorem process_line_no_fuel (max_frames : Nat) (st : reader) (l : List Char) :
    process_line max_frames st l ≠ .error .fuel := by
  simp only [process_line]
  repeat' split
  all_goals simp

theorem take_drop_length {α : Type} (l : List α) (n : Nat) :
    (l.take n).length + (l.drop n).length = l.length := by
  rw [← List.length_append, List.take_append_drop]

theorem read_loop_fuel (max_frames : Nat) :
    ∀ (fuel : Nat) (pos : Option buffer) (file : List Char) (st : reader),
      (match pos with
        | none => 0
        | some b => b.rest.length) + file.length < fuel →
      read_loop max_frames fuel pos file st ≠ .error .fuel := by
  intro fuel
  induction fuel with
  | zero => intro _ _ _ h; omega
  | succ f ih =>
    intro pos file st hlen
    have key : ∀ (text : List Char) (base k : Nat) (file1 : List Char),
        strchr text '\n' = some k → text.length + file1.length < f + 1 →
        (match process_line max_frames st (strip_cr (text.take k)) with
          | .error e => (Except.error e : Except Fault reader)
          | .ok st1 =>
            read_loop max_frames f (some ⟨base + k + 1, text.drop (k + 1)⟩) file1 st1)
          ≠ .error .fuel := by
      intro text base k file1 hk hl
      have hlt := strchr_lt text '\n' k hk
      cases hp : process_line max_frames st (strip_cr (text.take k)) with
      | error e =>
        have : e ≠ .fuel := fun he => process_line_no_fuel max_frames st _ (by rw [hp, he])
        simp [this]
      | ok st1 =>
        simp only
        apply ih
        show (text.drop (k + 1)).length + file1.length < f
        simp only [List.length_drop]
        omega
    cases pos with
    | none =>
      have hlen1 : file.length < f + 1 := by simpa using hlen
      by_cases hc : (file.take (BUFSIZE - 1)).length ≤ 0
      · simp only [read_loop, hc, if_true]
        simp
      · cases hs : strchr (file.take (BUFSIZE - 1)) '\n' with
        | none =>
          simp only [read_loop, hc, if_false, hs]
          simp
        | some k =>
          simp only [read_loop, hc, if_false, hs]
          apply key _ 0 k _ hs
          have := take_drop_length file (BUFSIZE - 1)
          omega
    | some b =>
      have hlen1 : b.rest.length + file.length < f + 1 := hlen
      cases hs : strchr b.rest '\n' with
      | some k =>
        simp only [read_loop, hs]
        apply key _ b.consumed k _ hs
        omega
      | none =>
        by_cases hc : (file.take b.consumed).length ≤ 0
        · simp only [read_loop, hs, hc, if_true]
          simp
        · cases hs2 : strchr (b.rest ++ file.take b.consumed) '\n' with
          | none =>
            simp only [read_loop, hs, hc, if_false, hs2]
            simp
          | some k =>
            simp only [read_loop, hs, hc, if_false, hs2]
            apply key _ 0 k _ hs2
            have := take_drop_length file b.consumed
            simp only [List.length_append]
            omega

/-- The loop of `read_suppression_file` ends within its fuel. -/
theorem read_suppression_file_fuel (max_frames : Nat) (g : supp_globals) (file : List Char) :
    read_suppression_file max_frames g file ≠ .error .fuel := by
  unfold read_suppression_file
  have h := read_loop_fuel max_frames (file.length + 1) none file (reader_init max_frames g)
    (by simp)
  cases hr : read_loop max_frames (file.length + 1) none file (reader_init max_frames g) with
  | error e =>
    have : e ≠ .fuel := fun he => h (by rw [hr, he])
    simp [this]
  | ok st => simp

/-! ## Claims on the matcher -/

/-- C1: for the single symbolic spec `app!foo` of one frame, the stack of
`app!foo` followed by a system call frame has at least one frame and its first
frame matches the spec frame, but `on_suppression_list` returns false; it
returns true when the second frame is an ordinary one. -/
theorem C1_single_spec_not_prefix_matched :
    match_segments true 8 true "app!foo".toList
        "app!foo\n    foo.c:1\n#1 system call NtClose\n    ??:0\n".toList
      = .matched "\n    foo.c:1\n#1 system call NtClose\n    ??:0\n".toList ∧
    (on_suppression_list nl_unix
        (supp_for ERROR_UNADDRESSABLE [⟨true, [some "app!foo".toList]⟩])
        ERROR_UNADDRESSABLE stack_foo_syscall).map Prod.fst = .ok false ∧
    (on_suppression_list nl_unix
        (supp_for ERROR_UNADDRESSABLE [⟨true, [some "app!foo".toList]⟩])
        ERROR_UNADDRESSABLE stack_foo_main).map Prod.fst = .ok true := by
  decide

/-- C2: the two patterns of the claim behave as it says, but a mod+offs pattern
segment that starts after the closing `>` of the frame is accepted: `foo`
first occurs in the frame at offset 10, after the `>` at offset 6, and the
pattern `<m+0x1>*foo` matches. -/
theorem C2_segment_after_closing_bracket :
    match_segments true 17 true "mod*.dll!foo*bar".toList
        "mod123.dll!fooXYZbar+0x1\n    f.c:1\n".toList
      = .matched "+0x1\n    f.c:1\n".toList ∧
    match_segments true 17 true "mod*.dll!foo*bar".toList
        "mod.dll!foobaz\n    f.c:1\n".toList = .next_supp ∧
    strchr "<m+0x1> m!foo\n    f.c:1\n".toList '>' = some 6 ∧
    strstr "<m+0x1> m!foo\n    f.c:1\n".toList "foo".toList = some 10 ∧
    match_segments false 12 true "<m+0x1>*foo".toList
        "<m+0x1> m!foo\n    f.c:1\n".toList = .matched "\n    f.c:1\n".toList ∧
    (on_suppression_list nl_unix
        (supp_for ERROR_LEAK [⟨false, [some "<m+0x1>*foo".toList]⟩])
        ERROR_LEAK "#0 <m+0x1> m!foo\n    f.c:1\n".toList).map Prod.fst = .ok true := by
  decide

/-- C3: with a two-frame spec in front of the one-frame spec `app!foo`, the
one-frame stack `app!foo` is not suppressed, although the one-frame spec
matches it: alone or in front, that spec makes `on_suppression_list` return
true. -/
theorem C3_longer_spec_ends_the_search :
    (on_suppression_list nl_unix
        (supp_for ERROR_WARNING
          [⟨true, [some "app!foo".toList, some "app!main".toList]⟩,
           ⟨true, [some "app!foo".toList]⟩])
        ERROR_WARNING stack_foo).map Prod.fst = .ok false ∧
    (on_suppression_list nl_unix
        (supp_for ERROR_WARNING
          [⟨true, [some "app!foo".toList]⟩,
           ⟨true, [some "app!foo".toList, some "app!main".toList]⟩])
        ERROR_WARNING stack_foo).map Prod.fst = .ok true ∧
    (on_suppression_list nl_unix
        (supp_for ERROR_WARNING [⟨true, [some "app!foo".toList]⟩])
        ERROR_WARNING stack_foo).map Prod.fst = .ok true := by
  decide

/-- C4: when the second frame of the stack is a system call frame, the first
spec frame is compared with the text of that second frame: `epos` for the
first frame is the text `system call ...` inside the second frame, and the
spec `lib!read_all` does not match, although it matches when the second frame
is an ordinary one. -/
theorem C4_first_frame_compared_with_later_frame :
    frame_epos true (frame_read_all ++ frame_syscall) = .ok (frame_syscall.drop 3) ∧
    match_frames true [some "lib!read_all".toList] (frame_read_all ++ frame_syscall)
      = .ok .next_supp ∧
    frame_epos true (frame_read_all ++ frame_main) = .ok (frame_read_all.drop 14 ++ frame_main) ∧
    match_frames true [some "lib!read_all".toList] (frame_read_all ++ frame_main)
      = .ok .is_match ∧
    (on_suppression_list nl_unix
        (supp_for ERROR_UNDEFINED [⟨true, [some "lib!read_all".toList]⟩])
        ERROR_UNDEFINED (frame_read_all ++ frame_syscall)).map Prod.fst = .ok false := by
  decide

/-! ## Claims on the reader -/

/-- C5, counterexample: with `callstack_max_frames = 12`, a stanza of thirteen
frame lines gives a spec of its first twelve frame lines, not of the frame
lines that follow its header. -/
theorem C5_counterexample :
    (read_suppression_file 12 supp_globals.init (join_lines lines_thirteen)).map
        (fun g => (g.supp_list.getD ERROR_LEAK []).map (fun s => s.frames))
      = .ok [(lines_thirteen.tail.take 12).map some] ∧
    (read_suppression_file 12 supp_globals.init (join_lines lines_thirteen)).map
        (fun g => (g.supp_list.getD ERROR_LEAK []).map (fun s => s.frames))
      ≠ .ok [(frame_lines lines_thirteen.tail).map some] := by
  decide

theorem stanzas_kinds (ls : List (List Char)) :
    (stanzas ls).map Prod.fst = ls.filterMap header_kind := by
  induction ls with
  | nil => rfl
  | cons l ls ih =>
    cases hk : header_kind l with
    | none => rw [stanzas_other l ls hk, List.filterMap_cons, hk]; exact ih
    | some k => rw [stanzas_header l ls k hk, List.filterMap_cons, hk]; simp [ih]

/-- C5, amended: on a file of newline-terminated lines that the line buffer
holds, without a frame line before its first header and without a stanza whose
kept frames mix the two forms, `read_suppression_file` adds exactly one spec
per kind-header line, a header being a line that begins with one of the six
canonical kind names; the spec is linked into the list of the kind of its
header, and its frames are the first `callstack_max_frames` of the non-blank,
non-comment lines that follow the header up to the next header or the end of
the file, in file order. -/
theorem C5_one_spec_per_header (max_frames : Nat) (g : supp_globals)
    (ls : List (List Char))
    (hg : g.supp_list.length = ERROR_MAX_VAL)
    (hok : ∀ l ∈ ls, line_ok l)
    (hacc : accepted max_frames (ls.map strip_cr) = true) :
    ∃ g1, read_suppression_file max_frames g (join_lines ls) = .ok g1 ∧
      (∀ l k, get_suppress_type l = some k ↔
        k < ERROR_MAX_VAL ∧ (suppress_name.getD k []).isPrefixOf l = true) ∧
      (stanzas (ls.map strip_cr)).map Prod.fst
        = (ls.map strip_cr).filterMap get_suppress_type ∧
      ∀ k, g1.supp_list.getD k [] =
        (((stanzas (ls.map strip_cr)).filter (fun s => s.1 == k)).map
            (fun s => ({ symbolic := (s.2.take max_frames).any (fun f => !is_offset_form f),
                         frames := (s.2.take max_frames).map some } : suppress_spec_t))).reverse
          ++ g.supp_list.getD k [] := by
  obtain ⟨g1, h1, h2⟩ := read_accepted_kind max_frames g ls hg hok hacc
  refine ⟨g1, h1, ?_, ?_, h2⟩
  · intro l k
    rw [get_suppress_type_eq]
    exact header_kind_iff l k
  · have hfun : get_suppress_type = header_kind := funext get_suppress_type_eq
    rw [hfun]
    exact stanzas_kinds _

/-- C5, witness: the amended claim on a file of two stanzas with a comment, a
blank line and CRLF line ends, read with `callstack_max_frames = 2`. -/
theorem C5_one_spec_per_header_witness :
    (supp_globals.init.supp_list.length = ERROR_MAX_VAL ∧
      (∀ l ∈ lines_two_stanzas, line_ok l) ∧
      accepted 2 (lines_two_stanzas.map strip_cr) = true) ∧
    ∃ g1, read_suppression_file 2 supp_globals.init (join_lines lines_two_stanzas) = .ok g1 ∧
      (∀ l k, get_suppress_type l = some k ↔
        k < ERROR_MAX_VAL ∧ (suppress_name.getD k []).isPrefixOf l = true) ∧
      (stanzas (lines_two_stanzas.map strip_cr)).map Prod.fst
        = (lines_two_stanzas.map strip_cr).filterMap get_suppress_type ∧
      ∀ k, g1.supp_list.getD k [] =
        (((stanzas (lines_two_stanzas.map strip_cr)).filter (fun s => s.1 == k)).map
            (fun s => ({ symbolic := (s.2.take 2).any (fun f => !is_offset_form f),
                         frames := (s.2.take 2).map some } : suppress_spec_t))).reverse
          ++ supp_globals.init.supp_list.getD k [] :=
  ⟨⟨by decide, by decide, by decide⟩,
    C5_one_spec_per_header 2 supp_globals.init lines_two_stanzas
      (by decide) (by decide) (by decide)⟩

/-- C6: the file `LEAK`, newline, `<m+0x1>` without a final newline gives a
spec without frames; with the final newline it gives the spec of the frame
`<m+0x1>`. -/
theorem C6_unterminated_last_line_dropped :
    read_suppression_file 12 supp_globals.init "LEAK\n<m+0x1>".toList
      = .ok (link_spec supp_globals.init ERROR_LEAK ⟨false, []⟩) ∧
    read_suppression_file 12 supp_globals.init "LEAK\n<m+0x1>\n".toList
      = .ok (link_spec supp_globals.init ERROR_LEAK ⟨false, [some "<m+0x1>".toList]⟩) ∧
    read_suppression_file 12 supp_globals.init "LEAK\n<m+0x1>".toList
      ≠ read_suppression_file 12 supp_globals.init "LEAK\n<m+0x1>\n".toList := by
  decide

/-- C7, counterexample: a CR inserted before an LF that a CR already precedes
changes the frame that is stored: `<a>` becomes `<a>` followed by CR. -/
theorem C7_counterexample :
    read_suppression_file 12 supp_globals.init "LEAK\n<a>\r\n".toList
      = .ok (link_spec supp_globals.init ERROR_LEAK ⟨false, [some "<a>".toList]⟩) ∧
    read_suppression_file 12 supp_globals.init "LEAK\n<a>\r\r\n".toList
      = .ok (link_spec supp_globals.init ERROR_LEAK ⟨false, [some "<a>\r".toList]⟩) ∧
    read_suppression_file 12 supp_globals.init "LEAK\n<a>\r\r\n".toList
      ≠ read_suppression_file 12 supp_globals.init "LEAK\n<a>\r\n".toList := by
  decide

theorem strip_cr_append_cr (l : List Char) : strip_cr (l ++ ['\r']) = l := by
  simp [strip_cr]

theorem strip_cr_of_no_cr (l : List Char) (h : l.getLast? ≠ some '\r') : strip_cr l = l := by
  simp [strip_cr, h]

theorem is_skipped_strip_comment (c : List Char) : is_skipped (strip_cr ('#' :: c)) = true := by
  unfold strip_cr
  split
  · cases c with
    | nil => simp_all
    | cons x xs => simp [is_skipped, List.dropLast]
  · simp [is_skipped]

theorem process_lines_inserted (max_frames : Nat) (ls ls1 : List (List Char))
    (h : Inserted ls ls1) :
    ∀ st, process_lines max_frames st (ls1.map strip_cr)
      = process_lines max_frames st (ls.map strip_cr) := by
  induction h with
  | nil => intro st; rfl
  | keep l _ ih =>
    intro st
    simp only [List.map_cons, process_lines]
    cases process_line max_frames st (strip_cr l) with
    | error e => rfl
    | ok st1 => exact ih st1
  | cr l hl _ ih =>
    intro st
    simp only [List.map_cons, process_lines, strip_cr_append_cr, strip_cr_of_no_cr l hl]
    cases process_line max_frames st l with
    | error e => rfl
    | ok st1 => exact ih st1
  | blank _ ih =>
    intro st
    have hs : is_skipped (strip_cr []) = true := by decide
    simp only [List.map_cons, process_lines, process_line_skipped max_frames st _ hs]
    exact ih st
  | blank_cr _ ih =>
    intro st
    have hs : is_skipped (strip_cr ['\r']) = true := by decide
    simp only [List.map_cons, process_lines, process_line_skipped max_frames st _ hs]
    exact ih st
  | comment c _ ih =>
    intro st
    simp only [List.map_cons, process_lines,
      process_line_skipped max_frames st _ (is_skipped_strip_comment c)]
    exact ih st

/-- C7, amended: in a file of newline-terminated lines that the line buffer
holds, before and after the change, inserting comment lines (first character
`#`), empty lines, or a CR immediately before an LF that no CR precedes does
not change the outcome of `read_suppression_file`: the same specs, or the same
fatal error. -/
theorem C7_insertions_ignored (max_frames : Nat) (g : supp_globals)
    (ls ls1 : List (List Char)) (hins : Inserted ls ls1)
    (hok : ∀ l ∈ ls, line_ok l) (hok1 : ∀ l ∈ ls1, line_ok l) :
    read_suppression_file max_frames g (join_lines ls1)
      = read_suppression_file max_frames g (join_lines ls) := by
  rw [read_suppression_file_lines max_frames g ls hok,
    read_suppression_file_lines max_frames g ls1 hok1,
    process_lines_inserted max_frames ls ls1 hins]

/-- C7, witness: the file `lines_two_stanzas` is its plain form with a comment
line, a blank line and two CR inserted. -/
theorem C7_insertions_ignored_witness :
    (Inserted lines_two_stanzas_plain lines_two_stanzas ∧
      (∀ l ∈ lines_two_stanzas_plain, line_ok l) ∧
      (∀ l ∈ lines_two_stanzas, line_ok l)) ∧
    read_suppression_file 12 supp_globals.init (join_lines lines_two_stanzas)
      = read_suppression_file 12 supp_globals.init (join_lines lines_two_stanzas_plain) :=
  have hins : Inserted lines_two_stanzas_plain lines_two_stanzas :=
    .comment _ (.keep _ (.keep _ (.cr "<rt+0x20>".toList (by decide) (.keep _ (.blank
      (.cr "UNINITIALIZED READ".toList (by decide) (.keep _ (.keep _ .nil))))))))
  ⟨⟨hins, by decide, by decide⟩,
    C7_insertions_ignored 12 supp_globals.init lines_two_stanzas_plain lines_two_stanzas
      hins (by decide) (by decide)⟩

/-- On a file of newline-terminated lines that the line buffer holds and that
is read without configuration error, the specs added to the list of each
kind are, last stanza first, those of the stanzas of that kind, and the spec of
a stanza with `f` frame lines has exactly `min f callstack_max_frames` frames:
the first `min f callstack_max_frames` frame lines of that stanza, in order,
and nothing of another stanza. -/
theorem frames_truncated_at_max (max_frames : Nat) (g : supp_globals)
    (ls : List (List Char))
    (hg : g.supp_list.length = ERROR_MAX_VAL)
    (hok : ∀ l ∈ ls, line_ok l)
    (hacc : accepted max_frames (ls.map strip_cr) = true) :
    ∃ g1, read_suppression_file max_frames g (join_lines ls) = .ok g1 ∧
      ∀ k, ∃ added, g1.supp_list.getD k [] = added ++ g.supp_list.getD k [] ∧
        added.map suppress_spec_t.num_frames
          = (((stanzas (ls.map strip_cr)).filter (fun s => s.1 == k)).reverse).map
              (fun s => min s.2.length max_frames) ∧
        added.map suppress_spec_t.frames
          = (((stanzas (ls.map strip_cr)).filter (fun s => s.1 == k)).reverse).map
              (fun s => (s.2.take (min s.2.length max_frames)).map some) := by
  obtain ⟨g1, h1, h2⟩ := read_accepted_kind max_frames g ls hg hok hacc
  refine ⟨g1, h1, fun k => ⟨_, h2 k, ?_, ?_⟩⟩
  · simp only [specs_of_kind, ← List.map_reverse, List.map_map]
    apply List.map_congr_left
    intro s _
    simp [suppress_spec_t.num_frames, spec_of, Nat.min_comm]
  · simp only [specs_of_kind, ← List.map_reverse, List.map_map]
    apply List.map_congr_left
    intro s _
    have : s.2.take (min s.2.length max_frames) = s.2.take max_frames := by
      rcases Nat.le_total s.2.length max_frames with h | h
      · rw [Nat.min_eq_left h, List.take_of_length_le h, List.take_of_length_le (Nat.le_refl _)]
      · rw [Nat.min_eq_right h]
    simp [spec_of, this]

/-- Example: the file `lines_two_stanzas` read with
`callstack_max_frames = 2`; its first stanza has three frame lines. -/
theorem frames_truncated_at_max_example :
    (supp_globals.init.supp_list.length = ERROR_MAX_VAL ∧
      (∀ l ∈ lines_two_stanzas, line_ok l) ∧
      accepted 2 (lines_two_stanzas.map strip_cr) = true) ∧
    ∃ g1, read_suppression_file 2 supp_globals.init (join_lines lines_two_stanzas) = .ok g1 ∧
      ∀ k, ∃ added, g1.supp_list.getD k [] = added ++ supp_globals.init.supp_list.getD k [] ∧
        added.map suppress_spec_t.num_frames
          = (((stanzas (lines_two_stanzas.map strip_cr)).filter (fun s => s.1 == k)).reverse).map
              (fun s => min s.2.length 2) ∧
        added.map suppress_spec_t.frames
          = (((stanzas (lines_two_stanzas.map strip_cr)).filter (fun s => s.1 == k)).reverse).map
              (fun s => (s.2.take (min s.2.length 2)).map some) :=
  ⟨⟨by decide, by decide, by decide⟩,
    frames_truncated_at_max 2 supp_globals.init lines_two_stanzas
      (by decide) (by decide) (by decide)⟩

/-- C8: the file `LEAK`, `<m+0x1>`, `<m+0x2>` whose last line has no newline is
one stanza with two frame lines, read with `callstack_max_frames = 12`: the
spec that is stored has one frame, `<m+0x1>`, and not two; with a newline after
the last line it has the two frames. -/
theorem C8_unterminated_frame_line_not_stored :
    (read_suppression_file 12 supp_globals.init "LEAK\n<m+0x1>\n<m+0x2>".toList).map
        (fun g => (g.supp_list.getD ERROR_LEAK []).map (fun s => s.frames))
      = .ok [[some "<m+0x1>".toList]] ∧
    (read_suppression_file 12 supp_globals.init "LEAK\n<m+0x1>\n<m+0x2>\n".toList).map
        (fun g => (g.supp_list.getD ERROR_LEAK []).map (fun s => s.frames))
      = .ok [[some "<m+0x1>".toList, some "<m+0x2>".toList]] ∧
    min 2 12 = 2 := by
  decide

/-- C9, counterexample: with `callstack_max_frames = 12`, a stanza of twelve
offset frames followed by a symbolic frame holds both forms and is accepted:
the thirteenth line is dropped unexamined. -/
theorem C9_counterexample :
    homogeneous (frame_lines lines_mixed_late.tail) = false ∧
    read_suppression_file 12 supp_globals.init (join_lines lines_mixed_late)
      = .ok (link_spec supp_globals.init ERROR_LEAK
          ⟨false, (lines_mixed_late.tail.take 12).map some⟩) := by
  decide

/-- C9, amended: with `callstack_max_frames` at least 1, on a file of
newline-terminated lines that the line buffer holds, `read_suppression_file`
fails with a fatal usage error when a frame line appears before any kind
header, and whenever the first `callstack_max_frames` frame lines of one stanza
hold both an offset-form frame and a symbolic-form frame; a file without a
frame line before its first header in which the first `callstack_max_frames`
frame lines of every stanza are of one form is accepted. -/
theorem C9_usage_errors (max_frames : Nat) (g : supp_globals) (ls : List (List Char))
    (hmax : 0 < max_frames) (hok : ∀ l ∈ ls, line_ok l) :
    (frame_lines (ls.map strip_cr) ≠ [] →
      ∃ e, read_suppression_file max_frames g (join_lines ls) = .error e ∧
        e.is_usage = true) ∧
    ((∃ s ∈ stanzas (ls.map strip_cr), homogeneous (s.2.take max_frames) = false) →
      ∃ e, read_suppression_file max_frames g (join_lines ls) = .error e ∧
        e.is_usage = true) ∧
    (frame_lines (ls.map strip_cr) = [] →
      (∀ s ∈ stanzas (ls.map strip_cr), homogeneous (s.2.take max_frames) = true) →
      ∃ g1, read_suppression_file max_frames g (join_lines ls) = .ok g1) := by
  have hm : (max_frames == 0) = false := by
    simp; omega
  refine ⟨?_, ?_, ?_⟩
  · intro hne
    apply read_rejected max_frames g ls hok
    cases hf : frame_lines (ls.map strip_cr) with
    | nil => exact absurd hf hne
    | cons x xs => simp [accepted, hm, hf]
  · rintro ⟨s, hs, hh⟩
    apply read_rejected max_frames g ls hok
    have : (stanzas (ls.map strip_cr)).all (fun s => homogeneous (s.2.take max_frames))
        = false := by
      rw [List.all_eq_false]
      exact ⟨s, hs, by simp [hh]⟩
    simp [accepted, this]
  · intro hf hall
    refine ⟨_, read_accepted max_frames g ls hok ?_⟩
    have : (stanzas (ls.map strip_cr)).all (fun s => homogeneous (s.2.take max_frames))
        = true := by
      rw [List.all_eq_true]
      exact hall
    simp [accepted, hf, this]

/-- C9, witness: a file whose first line is a frame line and a file whose
stanza mixes the forms in its first two frame lines end in a fatal usage error,
and the file `lines_two_stanzas` is accepted, with `callstack_max_frames = 2`. -/
theorem C9_usage_errors_witness :
    (0 < 2 ∧ (∀ l ∈ lines_frame_first, line_ok l) ∧ (∀ l ∈ lines_mixed_early, line_ok l) ∧
      ∀ l ∈ lines_two_stanzas, line_ok l) ∧
    (∃ e, read_suppression_file 2 supp_globals.init (join_lines lines_frame_first)
        = .error e ∧ e.is_usage = true) ∧
    (∃ e, read_suppression_file 2 supp_globals.init (join_lines lines_mixed_early)
        = .error e ∧ e.is_usage = true) ∧
    (∃ g1, read_suppression_file 2 supp_globals.init (join_lines lines_two_stanzas)
        = .ok g1) :=
  ⟨⟨by decide, by decide, by decide, by decide⟩,
    (C9_usage_errors 2 supp_globals.init lines_frame_first (by decide) (by decide)).1
      (by decide),
    (C9_usage_errors 2 supp_globals.init lines_mixed_early (by decide) (by decide)).2.1
      ⟨(ERROR_LEAK, ["<rt+0x10>".toList, "rt!alloc".toList]), by decide, by decide⟩,
    (C9_usage_errors 2 supp_globals.init lines_two_stanzas (by decide) (by decide)).2.2
      (by decide) (by decide)⟩

/-- C10, counterexample: after the header `LEAK`, the lines `garbage` and
`UNKNOWN HEADER` are stored as the two frames of a symbolic spec: the file is
read without error. -/
theorem C10_counterexample :
    read_suppression_file 12 supp_globals.init "LEAK\ngarbage\nUNKNOWN HEADER\n".toList
      = .ok (link_spec supp_globals.init ERROR_LEAK
          ⟨true, [some "garbage".toList, some "UNKNOWN HEADER".toList]⟩) := by
  decide

theorem frame_lines_all_frames (xs : List (List Char))
    (h : ∀ x ∈ xs, is_skipped x = false ∧ header_kind x = none) :
    frame_lines xs = xs ∧ stanzas xs = [] := by
  induction xs with
  | nil => exact ⟨rfl, rfl⟩
  | cons x xs ih =>
    have hx := h x (by simp)
    have hxs := ih (fun y hy => h y (by simp [hy]))
    rw [frame_lines_frame x xs hx.1 hx.2, stanzas_other x xs hx.2, hxs.1, hxs.2]
    exact ⟨rfl, rfl⟩

theorem suppress_name_facts (k : Nat) (hk : k < ERROR_MAX_VAL) :
    line_ok (suppress_name.getD k []) ∧
    strip_cr (suppress_name.getD k []) = suppress_name.getD k [] ∧
    header_kind (suppress_name.getD k []) = some k := by
  unfold ERROR_MAX_VAL at hk
  interval_cases k <;> decide

/-- C10, amended: `read_suppression_file` does not examine the syntax of a
frame line beyond its first character.  Every non-blank, non-comment line that
does not begin with a canonical kind name counts as a frame line, of offset
form when it begins with `<` and of symbolic form otherwise: after a kind
header, such lines of one form are stored as the frames of the spec (the first
`callstack_max_frames` of them), whatever else they hold.  On a file of
newline-terminated lines that the line buffer holds, the only failures are the
two fatal usage errors, for a frame line before any header and for a stanza
whose kept frames mix the two forms. -/
theorem C10_frame_lines_not_validated (max_frames : Nat) (g : supp_globals) (k : Nat)
    (xs : List (List Char)) (hk : k < ERROR_MAX_VAL)
    (hok : ∀ x ∈ xs, line_ok x)
    (hfr : ∀ x ∈ xs, is_skipped (strip_cr x) = false ∧ header_kind (strip_cr x) = none)
    (hhom : homogeneous ((xs.map strip_cr).take max_frames) = true) :
    read_suppression_file max_frames g (join_lines (suppress_name.getD k [] :: xs))
      = .ok (link_spec g k
          { symbolic := ((xs.map strip_cr).take max_frames).any (fun f => !is_offset_form f),
            frames := ((xs.map strip_cr).take max_frames).map some }) ∧
    ∀ (ls : List (List Char)) (e : Fault), (∀ l ∈ ls, line_ok l) →
      read_suppression_file max_frames g (join_lines ls) = .error e →
      e.is_usage = true ∧ accepted max_frames (ls.map strip_cr) = false := by
  constructor
  · obtain ⟨hn1, hn2, hn3⟩ := suppress_name_facts k hk
    have hall : ∀ l ∈ suppress_name.getD k [] :: xs, line_ok l := by
      intro l hl
      rcases List.mem_cons.mp hl with h | h
      · rw [h]; exact hn1
      · exact hok l h
    have hfl := frame_lines_all_frames (xs.map strip_cr) (by
      intro x hx
      obtain ⟨y, hy, rfl⟩ := List.mem_map.mp hx
      exact hfr y hy)
    have hst : stanzas ((suppress_name.getD k [] :: xs).map strip_cr)
        = [(k, xs.map strip_cr)] := by
      rw [List.map_cons, hn2, stanzas_header _ _ k hn3, hfl.1, hfl.2]
    have hacc : accepted max_frames ((suppress_name.getD k [] :: xs).map strip_cr) = true := by
      unfold accepted
      rw [hst]
      rw [List.map_cons, hn2, frame_lines_header _ _ k hn3]
      simp [hhom]
    rw [read_accepted max_frames g _ hall hacc, hst]
    rfl
  · intro ls e hls he
    cases hacc : accepted max_frames (ls.map strip_cr) with
    | true =>
      rw [read_accepted max_frames g ls hls hacc] at he
      cases he
    | false =>
      obtain ⟨e1, he1, hu⟩ := read_rejected max_frames g ls hls hacc
      rw [he1] at he
      cases he
      exact ⟨hu, rfl⟩

/-- C10, witness: after the header `WARNING`, three malformed lines are stored
as the frames of a symbolic spec. -/
theorem C10_frame_lines_not_validated_witness :
    (ERROR_WARNING < ERROR_MAX_VAL ∧
      (∀ x ∈ lines_malformed, line_ok x) ∧
      (∀ x ∈ lines_malformed,
        is_skipped (strip_cr x) = false ∧ header_kind (strip_cr x) = none) ∧
      homogeneous ((lines_malformed.map strip_cr).take 12) = true) ∧
    read_suppression_file 12 supp_globals.init
        (join_lines (suppress_name.getD ERROR_WARNING [] :: lines_malformed))
      = .ok (link_spec supp_globals.init ERROR_WARNING
          { symbolic :=
              ((lines_malformed.map strip_cr).take 12).any (fun f => !is_offset_form f),
            frames := ((lines_malformed.map strip_cr).take 12).map some }) :=
  ⟨⟨by decide, by decide, by decide, by decide⟩,
    (C10_frame_lines_not_validated 12 supp_globals.init ERROR_WARNING lines_malformed
      (by decide) (by decide) (by decide) (by decide)).1⟩

/-! ## The error table: how a call changes it, and its invariant -/

theorem uint_inc_of_lt {x : Nat} (h : x + 1 < 2 ^ 32) : uint_inc x = x + 1 :=
  Nat.mod_eq_of_lt h

theorem modify_eq_set_of_getElem? {α : Type} (f : α → α) :
    ∀ (l : List α) (i : Nat) (e : α), l[i]? = some e → l.modify f i = l.set i (f e)
  | [], i, e, h => by simp at h
  | a :: l, 0, e, h => by simp at h; simp [h]
  | a :: l, i + 1, e, h => by
    simp at h
    simp [modify_eq_set_of_getElem? f l i e h]

theorem set_length_append {α : Type} (l : List α) (x y : α) :
    (l ++ [x]).set l.length y = l ++ [y] := by
  induction l with
  | nil => rfl
  | cons a l ih => simp [ih]

theorem stored_error_cmp_iff (e : stored_error_t) (type : Nat) (pcs : packed_callstack_t) :
    stored_error_cmp e (stored_error_create type pcs) = true ↔ e.errtype = type ∧ e.pcs = pcs := by
  simp [stored_error_cmp, stored_error_create]

theorem hashtable_lookup_none (errors : List stored_error_t) (type : Nat)
    (pcs : packed_callstack_t) :
    hashtable_lookup errors (stored_error_create type pcs) = none ↔
      ∀ e ∈ errors, ¬ (e.errtype = type ∧ e.pcs = pcs) := by
  unfold hashtable_lookup
  rw [List.findIdx?_eq_none_iff]
  constructor
  · intro h e he hk
    have := h e he
    rw [(stored_error_cmp_iff e type pcs).2 hk] at this
    cases this
  · intro h e he
    cases hc : stored_error_cmp e (stored_error_create type pcs)
    · rfl
    · exact absurd ((stored_error_cmp_iff e type pcs).1 hc) (h e he)

theorem hashtable_lookup_some (errors : List stored_error_t) (type : Nat)
    (pcs : packed_callstack_t) (i : Nat)
    (h : hashtable_lookup errors (stored_error_create type pcs) = some i) :
    ∃ e, errors[i]? = some e ∧ e.errtype = type ∧ e.pcs = pcs ∧
      ∀ j e1, j < i → errors[j]? = some e1 → ¬ (e1.errtype = type ∧ e1.pcs = pcs) := by
  unfold hashtable_lookup at h
  rw [List.findIdx?_eq_some_iff_getElem] at h
  obtain ⟨hlt, hi, hj⟩ := h
  refine ⟨errors[i], by simp [hlt], ?_, ?_, ?_⟩
  · exact ((stored_error_cmp_iff _ type pcs).1 hi).1
  · exact ((stored_error_cmp_iff _ type pcs).1 hi).2
  · intro j e1 hji hje hk
    have hjl : j < errors.length := by omega
    have := hj j hji
    rw [List.getElem?_eq_getElem hjl] at hje
    cases hje
    rw [(stored_error_cmp_iff _ type pcs).2 hk] at this
    simp at this

/-- The function `record_error` returns when the kind is one of the enum: the
record of the occurrence has its count incremented, and `num_total` of the kind
is incremented unless the record is suppressed. -/
theorem record_error_ok (st : report_state) (type : Nat) (pcs : packed_callstack_t)
    (ht : type < ERROR_MAX_VAL) :
    ∃ base i e, table_slot st.errors type pcs base i e ∧
      record_error st type pcs = .ok
        ({ st with
           errors := base.set i { e with count := uint_inc e.count },
           num_total := if e.suppressed then st.num_total else array_inc st.num_total type }, i) := by
  cases hl : hashtable_lookup st.errors (stored_error_create type pcs) with
  | none =>
    refine ⟨st.errors ++ [stored_error_create type pcs], st.errors.length,
      stored_error_create type pcs, ⟨by simp, rfl, rfl, Or.inr ⟨hl, rfl, rfl, rfl⟩⟩, ?_⟩
    have hm := modify_eq_set_of_getElem? (fun e => { e with count := uint_inc e.count })
      (st.errors ++ [stored_error_create type pcs]) st.errors.length
      (stored_error_create type pcs) (by simp)
    simp only [record_error, ht, if_true, hl]
    have hid : ({ stored_error_create type pcs with id := 0 } : stored_error_t)
        = stored_error_create type pcs := rfl
    rw [hid]
    simp only [List.getElem?_concat_length, hm]
  | some i =>
    obtain ⟨e, he, h1, h2, _⟩ := hashtable_lookup_some st.errors type pcs i hl
    refine ⟨st.errors, i, e, ⟨he, h1, h2, Or.inl ⟨hl, rfl⟩⟩, ?_⟩
    have hm := modify_eq_set_of_getElem? (fun e => { e with count := uint_inc e.count })
      st.errors i e he
    simp only [record_error, ht, if_true, hl, he, hm]

theorem table_slot_lt {st : List stored_error_t} {type : Nat} {pcs : packed_callstack_t}
    {base : List stored_error_t} {i : Nat} {e : stored_error_t}
    (h : table_slot st type pcs base i e) : i < base.length := by
  have := h.1
  by_contra hc
  rw [List.getElem?_eq_none (by omega)] at this
  cases this

theorem acquire_error_number_eq (st : report_state) (i : Nat) (err : stored_error_t)
    (h : st.errors[i]? = some err) :
    acquire_error_number st i =
      { st with
        error_id := (st.error_id + 1) % 2 ^ 32,
        errors := st.errors.set i { err with id := (st.error_id + 1) % 2 ^ 32 },
        num_unique := array_inc st.num_unique err.errtype } := by
  have hm := modify_eq_set_of_getElem? (fun e => { e with id := (st.error_id + 1) % 2 ^ 32 })
    st.errors i err h
  simp only [acquire_error_number, h, hm]

/-- The shape of a `report_error` call that returns: the suppression lists are
untouched, and either the error table is untouched (a throttled call) or the
record of the occurrence is updated as `occurrence_outcome` tells. -/
theorem report_error_shape (env : report_env) (st st1 : report_state) (type : Nat)
    (pcs : packed_callstack_t) (h : report_error env st type pcs = .ok st1) :
    st1.supp = st.supp ∧
    ((st1.errors = st.errors ∧ st1.error_id = st.error_id) ∨
     ∃ base i e e1, table_slot st.errors type pcs base i e ∧ st1.errors = base.set i e1 ∧
       occurrence_outcome env st.supp.supp_list st.error_id type pcs e e1 st1.error_id) := by
  unfold report_error at h
  split at h
  · cases h; exact ⟨rfl, Or.inl ⟨rfl, rfl⟩⟩
  · by_cases ht : type < ERROR_MAX_VAL
    · obtain ⟨base, i, e, hs, hr⟩ := record_error_ok st type pcs ht
      have hi := table_slot_lt hs
      rw [hr] at h
      simp only [List.getElem?_set_self hi] at h
      by_cases hc : 1 < uint_inc e.count
      · simp only [gt_iff_lt, hc, if_true] at h
        have hout : occurrence_outcome env st.supp.supp_list st.error_id type pcs e
            { e with count := uint_inc e.count } st.error_id := Or.inl ⟨hc, rfl, rfl⟩
        split at h
        · cases h; exact ⟨rfl, Or.inr ⟨base, i, e, _, hs, rfl, hout⟩⟩
        · split at h
          · cases h
          · cases h; exact ⟨rfl, Or.inr ⟨base, i, e, _, hs, rfl, hout⟩⟩
      · simp only [gt_iff_lt, hc, if_false] at h
        split at h
        · cases h
        · rename_i hid
          simp only [ne_eq, not_not] at hid
          have hp : e.pcs = pcs := hs.2.2.1
          cases hv : on_suppression_list env.nl st.supp.supp_list type
              (env.packed_callstack_print e.pcs) with
          | error err => rw [hv] at h; cases h
          | ok r =>
            obtain ⟨suppressed, out⟩ := r
            rw [hv] at h
            simp only [] at h
            have hverdict : suppression_verdict env st.supp.supp_list type pcs
                = some suppressed := by simp [suppression_verdict, ← hp, hv]
            split at h
            · cases suppressed
              · simp only [Bool.false_eq_true, if_false] at h
                cases h
                rw [acquire_error_number_eq _ i { e with count := uint_inc e.count }
                  (by simp [List.getElem?_set_self hi])]
                refine ⟨rfl, Or.inr ⟨base, i, e, _, hs, ?_, Or.inr (Or.inr (Or.inl
                  ⟨by omega, hverdict, hid, ?_, rfl, rfl⟩))⟩⟩
                · simp only [List.set_set]
                · intro hq
                  rename_i hty
                  rw [hq] at hty
                  exact absurd hty (by decide)
              · simp only [if_true] at h
                cases h
                have hm := modify_eq_set_of_getElem? (fun e => { e with suppressed := true })
                  (base.set i { e with count := uint_inc e.count }) i
                  { e with count := uint_inc e.count } (by simp [List.getElem?_set_self hi])
                refine ⟨rfl, Or.inr ⟨base, i, e, _, hs, ?_, Or.inr (Or.inl
                  ⟨by omega, hverdict, rfl, rfl⟩)⟩⟩
                simp only [hm, List.set_set]
            · cases h
    · simp only [record_error, ht, if_false] at h
      cases h

theorem count_leak_bytes_errors (env : report_env) (st : report_state) (m : Bool) (s i : Nat) :
    (count_leak_bytes env st m s i).errors = st.errors := by
  unfold count_leak_bytes; split <;> rfl

theorem count_leak_bytes_error_id (env : report_env) (st : report_state) (m : Bool) (s i : Nat) :
    (count_leak_bytes env st m s i).error_id = st.error_id := by
  unfold count_leak_bytes; split <;> rfl

theorem count_leak_bytes_supp (env : report_env) (st : report_state) (m : Bool) (s i : Nat) :
    (count_leak_bytes env st m s i).supp = st.supp := by
  unfold count_leak_bytes; split <;> rfl

theorem report_leak_print_errors (env : report_env) (st : report_state) (m : Bool)
    (n : Option Nat) : (report_leak_print env st m n).errors = st.errors := by
  unfold report_leak_print; split <;> rfl

theorem report_leak_print_error_id (env : report_env) (st : report_state) (m : Bool)
    (n : Option Nat) : (report_leak_print env st m n).error_id = st.error_id := by
  unfold report_leak_print; split <;> rfl

theorem report_leak_print_supp (env : report_env) (st : report_state) (m : Bool)
    (n : Option Nat) : (report_leak_print env st m n).supp = st.supp := by
  unfold report_leak_print; split <;> rfl

/-- The shape of the recording part of `report_leak`. -/
theorem report_leak_checked_shape (env : report_env) (st st1 : report_state) (type : Nat)
    (size indirect_size : Nat) (maybe_reachable : Bool) (pcs : packed_callstack_t)
    (hm : type = ERROR_POSSIBLE_LEAK ↔ maybe_reachable = true)
    (h : report_leak_checked env st type size indirect_size maybe_reachable pcs = .ok st1) :
    st1.supp = st.supp ∧
    ∃ base i e e1, table_slot st.errors type pcs base i e ∧ st1.errors = base.set i e1 ∧
      occurrence_outcome env st.supp.supp_list st.error_id type pcs e e1 st1.error_id := by
  unfold report_leak_checked at h
  by_cases ht : type < ERROR_MAX_VAL
  · obtain ⟨base, i, e, hs, hr⟩ := record_error_ok st type pcs ht
    have hi := table_slot_lt hs
    rw [hr] at h
    simp only [List.getElem?_set_self hi] at h
    by_cases hc : 1 < uint_inc e.count
    · simp only [gt_iff_lt, hc, if_true] at h
      have hout : occurrence_outcome env st.supp.supp_list st.error_id type pcs e
          { e with count := uint_inc e.count } st.error_id := Or.inl ⟨hc, rfl, rfl⟩
      split at h
      · cases h; exact ⟨rfl, base, i, e, _, hs, rfl, hout⟩
      · cases h
        refine ⟨by simp only [count_leak_bytes_supp], base, i, e,
          { e with count := uint_inc e.count }, hs,
          by simp only [count_leak_bytes_errors], ?_⟩
        simp only [count_leak_bytes_error_id]; exact hout
    · simp only [gt_iff_lt, hc, if_false] at h
      cases hv : on_suppression_list env.nl st.supp.supp_list type
          (env.packed_callstack_print pcs) with
      | error err => rw [hv] at h; cases h
      | ok r =>
        obtain ⟨suppressed, out⟩ := r
        rw [hv] at h
        have hverdict : suppression_verdict env st.supp.supp_list type pcs
            = some suppressed := by simp [suppression_verdict, hv]
        cases suppressed
        · simp only [] at h
          split at h
          · rename_i hcond
            cases h
            rw [acquire_error_number_eq _ i { e with count := uint_inc e.count }
              (by simp [List.getElem?_set_self hi])]
            refine ⟨by simp only [count_leak_bytes_supp, report_leak_print_supp], base, i, e,
              { e with count := uint_inc e.count, id := (st.error_id + 1) % 2 ^ 32 }, hs,
              by simp only [count_leak_bytes_errors, report_leak_print_errors, List.set_set],
              ?_⟩
            simp only [count_leak_bytes_error_id, report_leak_print_error_id]
            refine Or.inr (Or.inr (Or.inl ⟨by omega, hverdict, hcond.1, ?_, rfl, rfl⟩))
            intro hq
            rcases hcond.2 with h0 | h0
            · rw [hm.1 hq] at h0; cases h0
            · exact h0
          · rename_i hcond
            cases h
            refine ⟨by simp only [count_leak_bytes_supp, report_leak_print_supp], base, i, e,
              { e with count := uint_inc e.count }, hs,
              by simp only [count_leak_bytes_errors, report_leak_print_errors],
              ?_⟩
            simp only [count_leak_bytes_error_id, report_leak_print_error_id]
            refine Or.inr (Or.inr (Or.inr ⟨by omega, hverdict, ?_, rfl, rfl⟩))
            intro hq
            apply hcond
            refine ⟨hq.1, ?_⟩
            cases hmr : maybe_reachable
            · exact Or.inl rfl
            · exact Or.inr (hq.2 (hm.2 hmr))
        · simp only [] at h
          cases h
          have hm2 := modify_eq_set_of_getElem? (fun e => { e with suppressed := true })
            (base.set i { e with count := uint_inc e.count }) i
            { e with count := uint_inc e.count } (by simp [List.getElem?_set_self hi])
          refine ⟨rfl, base, i, e, _, hs, ?_, Or.inr (Or.inl ⟨by omega, hverdict, rfl, rfl⟩)⟩
          simp only [hm2, List.set_set]
  · simp only [record_error, ht, if_false] at h
    cases h

theorem report_error_change (env : report_env) (st st1 : report_state) (type : Nat)
    (pcs : packed_callstack_t) (h : report_error env st type pcs = .ok st1) :
    table_change env st st1 (fun t p => t = type ∧ p = pcs) := by
  obtain ⟨h1, h2⟩ := report_error_shape env st st1 type pcs h
  refine ⟨h1, ?_⟩
  rcases h2 with h2 | ⟨base, i, e, e1, h2⟩
  · exact Or.inl h2
  · exact Or.inr ⟨type, pcs, base, i, e, e1, ⟨rfl, rfl⟩, h2⟩

theorem report_leak_locked_change (env : report_env) (st st1 : report_state) (type : Nat)
    (size indirect_size : Nat) (maybe_reachable : Bool) (pcs : Option packed_callstack_t)
    (hm : type < ERROR_MAX_VAL →
      (type = ERROR_LEAK ∨ type = ERROR_POSSIBLE_LEAK) ∧
      (type = ERROR_POSSIBLE_LEAK ↔ maybe_reachable = true))
    (h : report_leak_locked env st type size indirect_size maybe_reachable pcs = .ok st1) :
    table_change env st st1
      (fun t p => (t = ERROR_LEAK ∨ t = ERROR_POSSIBLE_LEAK) ∧ pcs = some p) := by
  unfold report_leak_locked at h
  split at h
  · split at h
    · cases h
    · rename_i p
      split at h
      · rename_i ht
        obtain ⟨h1, base, i, e, e1, h2⟩ :=
          report_leak_checked_shape env st st1 type size indirect_size maybe_reachable p
            (hm ht).2 h
        exact ⟨h1, Or.inr ⟨type, p, base, i, e, e1, ⟨(hm ht).1, rfl⟩, h2⟩⟩
      · cases h; exact ⟨rfl, Or.inl ⟨rfl, rfl⟩⟩
  · split at h
    · cases h
      refine ⟨by simp only [count_leak_bytes_supp, report_leak_print_supp], Or.inl
        ⟨by simp only [count_leak_bytes_errors, report_leak_print_errors],
         by simp only [count_leak_bytes_error_id, report_leak_print_error_id]⟩⟩
    · cases h; exact ⟨rfl, Or.inl ⟨rfl, rfl⟩⟩

theorem report_leak_counted_change (env : report_env) (st st1 : report_state) (label : Bool)
    (size indirect_size : Nat) (early reachable maybe_reachable : Bool)
    (pcs : Option packed_callstack_t)
    (h : report_leak_counted env st label size indirect_size early reachable maybe_reachable pcs
          = .ok st1) :
    table_change env st st1
      (fun t p => (t = ERROR_LEAK ∨ t = ERROR_POSSIBLE_LEAK) ∧ pcs = some p) := by
  unfold report_leak_counted at h
  split at h
  · cases h; exact ⟨rfl, Or.inl ⟨rfl, rfl⟩⟩
  · split at h
    · have hh := fun hm => report_leak_locked_change env _ st1 _ size indirect_size
        maybe_reachable pcs hm h
      exact hh (fun hlt => absurd hlt (by decide))
    · split at h
      · have hh := fun hm => report_leak_locked_change env _ st1 _ size indirect_size
          maybe_reachable pcs hm h
        exact hh (fun hlt => absurd hlt (by decide))
      · split at h
        · rename_i hmr
          have hh := fun hm => report_leak_locked_change env _ st1 _ size indirect_size
            maybe_reachable pcs hm h
          exact hh (fun _ => ⟨Or.inr rfl, ⟨fun _ => hmr, fun _ => rfl⟩⟩)
        · rename_i hmr
          have hh := fun hm => report_leak_locked_change env _ st1 _ size indirect_size
            maybe_reachable pcs hm h
          exact hh (fun _ => ⟨Or.inl rfl,
            ⟨fun hq => absurd hq (by decide), fun hq => absurd hq hmr⟩⟩)

/-- The shape of a `report_leak` call that returns. -/
theorem report_leak_change (env : report_env) (st st1 : report_state) (known_malloc : Bool)
    (size indirect_size : Nat) (early reachable maybe_reachable : Bool)
    (pcs : Option packed_callstack_t)
    (h : report_leak env st known_malloc size indirect_size early reachable maybe_reachable pcs
          = .ok st1) :
    table_change env st st1
      (fun t p => (t = ERROR_LEAK ∨ t = ERROR_POSSIBLE_LEAK) ∧ pcs = some p) := by
  unfold report_leak at h
  split at h
  · split at h
    · have hh := report_leak_counted_change env _ st1 _ size indirect_size early reachable
        maybe_reachable pcs h
      exact hh
    · cases h; exact ⟨rfl, Or.inl ⟨rfl, rfl⟩⟩
  · split at h
    · split at h
      · cases h; exact ⟨rfl, Or.inl ⟨rfl, rfl⟩⟩
      · have hh := report_leak_counted_change env _ st1 _ size indirect_size early reachable
          maybe_reachable pcs h
        exact hh
    · have hh := report_leak_counted_change env _ st1 _ size indirect_size early reachable
        maybe_reachable pcs h
      exact hh

theorem map_set_same {α β : Type} (f : α → β) (l : List α) (i : Nat) (e e1 : α)
    (h : l[i]? = some e) (hf : f e1 = f e) : (l.set i e1).map f = l.map f := by
  rw [List.map_set, hf]
  apply List.ext_getElem?
  intro j
  rw [List.getElem?_set]
  split
  · rename_i hij
    subst hij
    split
    · simp [h]
    · rename_i hlt
      simp only [List.length_map] at hlt
      rw [List.getElem?_eq_none (by simp; omega)]
  · rfl

theorem mem_of_getElem? {α : Type} {l : List α} {i : Nat} {e : α} (h : l[i]? = some e) :
    e ∈ l := List.mem_iff_getElem?.2 ⟨i, h⟩

theorem table_inv_init (env : report_env) (supp : supp_globals) :
    table_inv env (report_state.init supp) := by
  refine ⟨rfl, ?_, ?_⟩ <;> intro e he <;> cases he

/-- A call that updates the table as `table_change` tells keeps the invariant
of the table, as long as `error_id` does not wrap. -/
theorem table_inv_change (env : report_env) (st st1 : report_state)
    (ok : Nat → packed_callstack_t → Prop)
    (hinv : table_inv env st) (hid : st.error_id + 1 < 2 ^ 32)
    (h : table_change env st st1 ok) : table_inv env st1 := by
  obtain ⟨hsupp, h⟩ := h
  obtain ⟨j1, j2, j3⟩ := hinv
  rcases h with ⟨he, hi⟩ | ⟨type, p, base, i, e, e1, _, hslot, hset, hout⟩
  · refine ⟨?_, ?_, ?_⟩
    · unfold assigned_ids; rw [he, hi]; exact j1
    · rw [he]; exact j2
    · rw [he, hsupp]; exact j3
  · obtain ⟨hbi, hty, hpcs, hcase⟩ := hslot
    rcases hcase with ⟨hl, hb⟩ | ⟨hl, hb, hil, hec⟩
    · -- the record was in the table
      subst hb
      have hmem : e ∈ st.errors := mem_of_getElem? hbi
      have hnoacq : ¬ (suppression_verdict env st.supp.supp_list type p = some false ∧
          e.id = 0 ∧ (type = ERROR_POSSIBLE_LEAK → env.options.possible_leaks = true)) := by
        rintro ⟨hv, h0, hp⟩
        rcases j2 e hmem h0 with hs | ⟨ht, hpl⟩
        · have := j3 e hmem hs
          rw [hty, hpcs, hv] at this
          cases this
        · rw [hp (hty ▸ ht)] at hpl
          cases hpl
      have hcommon : e1.id = e.id ∧ e1.errtype = e.errtype ∧ e1.pcs = e.pcs ∧
          (e.suppressed = true → e1.suppressed = true) ∧
          (e1.suppressed = true → e.suppressed = true ∨
            suppression_verdict env st.supp.supp_list type p = some true) ∧
          st1.error_id = st.error_id := by
        rcases hout with ⟨_, h1, h2⟩ | ⟨_, hv, h1, h2⟩ | ⟨_, hv, h0, hp, _, _⟩ | ⟨_, _, _, h1, h2⟩
        · subst h1; exact ⟨rfl, rfl, rfl, id, Or.inl, h2⟩
        · subst h1; exact ⟨rfl, rfl, rfl, fun _ => rfl, fun _ => Or.inr hv, h2⟩
        · exact absurd ⟨hv, h0, hp⟩ hnoacq
        · subst h1; exact ⟨rfl, rfl, rfl, id, Or.inl, h2⟩
      obtain ⟨c1, c2, c3, c4, c5, c6⟩ := hcommon
      refine ⟨?_, ?_, ?_⟩
      · unfold assigned_ids
        rw [hset, map_set_same (fun e => e.id) st.errors i e e1 hbi c1, c6]
        exact j1
      · intro x hx h0
        rw [hset] at hx
        rcases List.mem_or_eq_of_mem_set hx with hx | hx
        · exact j2 x hx h0
        · subst hx
          rcases j2 e hmem (c1 ▸ h0) with hs | ⟨ht, hpl⟩
          · exact Or.inl (c4 hs)
          · exact Or.inr ⟨c2 ▸ ht, hpl⟩
      · intro x hx hs
        rw [hset] at hx
        rw [hsupp]
        rcases List.mem_or_eq_of_mem_set hx with hx | hx
        · exact j3 x hx hs
        · subst hx
          rw [c2, c3]
          rcases c5 hs with hs1 | hv
          · exact j3 e hmem hs1
          · rw [hty, hpcs]; exact hv
    · -- the record is new
      subst hb hil hec
      rw [set_length_append] at hset
      have hcount : uint_inc (stored_error_create type p).count = 1 := rfl
      rcases hout with ⟨hc, _, _⟩ | ⟨_, hv, h1, h2⟩ | ⟨_, hv, h0, hp, h1, h2⟩ | ⟨_, hv, hn, h1, h2⟩
      · rw [hcount] at hc; omega
      · subst h1
        refine ⟨?_, ?_, ?_⟩
        · unfold assigned_ids
          rw [hset, h2]
          simp only [List.map_append, List.filter_append, List.map_cons, List.map_nil]
          have : List.filter (fun n => decide (n ≠ 0)) [(stored_error_create type p).id] = [] := rfl
          rw [this, List.append_nil]
          exact j1
        · intro x hx h0
          rw [hset] at hx
          rcases List.mem_append.1 hx with hx | hx
          · exact j2 x hx h0
          · simp only [List.mem_singleton] at hx
            subst hx
            exact Or.inl rfl
        · intro x hx hs
          rw [hset] at hx
          rw [hsupp]
          rcases List.mem_append.1 hx with hx | hx
          · exact j3 x hx hs
          · simp only [List.mem_singleton] at hx
            subst hx
            exact hv
      · subst h1
        have hmod : (st.error_id + 1) % 2 ^ 32 = st.error_id + 1 := Nat.mod_eq_of_lt hid
        refine ⟨?_, ?_, ?_⟩
        · unfold assigned_ids
          rw [hset, h2]
          simp only [List.map_append, List.filter_append, List.map_cons, List.map_nil, hmod]
          have : List.filter (fun n => decide (n ≠ 0)) [st.error_id + 1]
              = [st.error_id + 1] := by simp
          rw [this]
          have j1b : List.filter (fun n => decide (n ≠ 0)) (List.map (fun e => e.id) st.errors)
              = List.range' 1 st.error_id := j1
          rw [j1b, List.range'_concat, Nat.one_mul, Nat.add_comm 1 st.error_id]
        · intro x hx h0
          rw [hset] at hx
          rcases List.mem_append.1 hx with hx | hx
          · exact j2 x hx h0
          · simp only [List.mem_singleton] at hx
            subst hx
            simp only [hmod] at h0
            omega
        · intro x hx hs
          rw [hset] at hx
          rw [hsupp]
          rcases List.mem_append.1 hx with hx | hx
          · exact j3 x hx hs
          · simp only [List.mem_singleton] at hx
            subst hx
            cases hs
      · subst h1
        have hpl : type = ERROR_POSSIBLE_LEAK ∧ env.options.possible_leaks = false := by
          by_cases ht : type = ERROR_POSSIBLE_LEAK
          · refine ⟨ht, ?_⟩
            cases hpo : env.options.possible_leaks
            · rfl
            · exact absurd ⟨rfl, fun _ => hpo⟩ hn
          · exact absurd ⟨rfl, fun hq => absurd hq ht⟩ hn
        refine ⟨?_, ?_, ?_⟩
        · unfold assigned_ids
          rw [hset, h2]
          simp only [List.map_append, List.filter_append, List.map_cons, List.map_nil]
          have : List.filter (fun n => decide (n ≠ 0)) [(stored_error_create type p).id] = [] := rfl
          rw [this, List.append_nil]
          exact j1
        · intro x hx h0
          rw [hset] at hx
          rcases List.mem_append.1 hx with hx | hx
          · exact j2 x hx h0
          · simp only [List.mem_singleton] at hx
            subst hx
            exact Or.inr hpl
        · intro x hx hs
          rw [hset] at hx
          rw [hsupp]
          rcases List.mem_append.1 hx with hx | hx
          · exact j3 x hx hs
          · simp only [List.mem_singleton] at hx
            subst hx
            cases hs

theorem table_change_error_id (env : report_env) (st st1 : report_state)
    (ok : Nat → packed_callstack_t → Prop) (h : table_change env st st1 ok) :
    st1.error_id ≤ st.error_id + 1 := by
  obtain ⟨_, h⟩ := h
  rcases h with ⟨_, hi⟩ | ⟨type, p, base, i, e, e1, _, _, _, hout⟩
  · omega
  · rcases hout with ⟨_, _, h2⟩ | ⟨_, _, _, h2⟩ | ⟨_, _, _, _, _, h2⟩ | ⟨_, _, _, _, h2⟩
    · omega
    · omega
    · rw [h2]; exact Nat.mod_le _ _
    · omega

theorem table_inv_revert (env : report_env) (st : report_state) (h : table_inv env st) :
    table_inv env (report_leak_stats_revert st) := by
  obtain ⟨j1, j2, j3⟩ := h
  refine ⟨?_, ?_, ?_⟩
  · unfold assigned_ids at j1 ⊢
    have : (report_leak_stats_revert st).errors.map (fun e => e.id)
        = st.errors.map (fun e => e.id) := by
      simp only [report_leak_stats_revert, List.map_map]
      apply List.map_congr_left
      intro e _
      simp only [Function.comp]
      split <;> rfl
    rw [this]; exact j1
  · intro x hx h0
    simp only [report_leak_stats_revert, List.mem_map] at hx
    obtain ⟨e, he, hxe⟩ := hx
    split at hxe
    · subst hxe; exact j2 e he h0
    · subst hxe; exact j2 e he h0
  · intro x hx hs
    simp only [report_leak_stats_revert, List.mem_map] at hx
    obtain ⟨e, he, hxe⟩ := hx
    have hsupp : (report_leak_stats_revert st).supp = st.supp := rfl
    rw [hsupp]
    split at hxe
    · subst hxe; exact j3 e he hs
    · subst hxe; exact j3 e he hs

/-- Every call keeps the invariant of the error table, as long as `error_id`
does not wrap. -/
theorem report_step_inv (env : report_env) (st st1 : report_state) (c : report_call)
    (hinv : table_inv env st) (hid : st.error_id + 1 < 2 ^ 32)
    (h : report_step env st c = .ok st1) :
    table_inv env st1 ∧ st1.error_id ≤ st.error_id + 1 := by
  cases c with
  | error type pcs =>
    have hc := report_error_change env st st1 type pcs h
    exact ⟨table_inv_change env st st1 _ hinv hid hc, table_change_error_id env st st1 _ hc⟩
  | leak known_malloc size indirect_size early reachable maybe_reachable pcs =>
    have hc := report_leak_change env st st1 known_malloc size indirect_size early reachable
      maybe_reachable pcs h
    exact ⟨table_inv_change env st st1 _ hinv hid hc, table_change_error_id env st st1 _ hc⟩
  | checkpoint =>
    simp only [report_step] at h
    cases h
    exact ⟨hinv, Nat.le_succ _⟩
  | revert =>
    simp only [report_step] at h
    cases h
    exact ⟨table_inv_revert env st hinv, Nat.le_succ _⟩
  | fork_init =>
    simp only [report_step] at h
    cases h
    refine ⟨⟨rfl, ?_, ?_⟩, Nat.zero_le _⟩ <;> intro e he <;> cases he

theorem report_run_inv (env : report_env) :
    ∀ (calls : List report_call) (st st1 : report_state),
      table_inv env st → st.error_id + calls.length < 2 ^ 32 →
      report_run env st calls = .ok st1 →
      table_inv env st1 ∧ st1.error_id ≤ st.error_id + calls.length
  | [], st, st1, hinv, _, h => by
    simp only [report_run] at h
    cases h
    exact ⟨hinv, Nat.le_refl _⟩
  | c :: cs, st, st1, hinv, hid, h => by
    simp only [report_run] at h
    simp only [List.length_cons] at hid
    cases hs : report_step env st c with
    | error e => rw [hs] at h; cases h
    | ok st2 =>
      rw [hs] at h
      obtain ⟨h1, h2⟩ := report_step_inv env st st2 c hinv (by omega) hs
      obtain ⟨h3, h4⟩ := report_run_inv env cs st2 st1 h1 (by omega) h
      refine ⟨h3, ?_⟩
      simp only [List.length_cons]
      omega

/-! ## The results of `record_error` and `report_error`, case by case -/

theorem record_error_new (st : report_state) (type : Nat) (pcs : packed_callstack_t)
    (ht : type < ERROR_MAX_VAL)
    (hl : hashtable_lookup st.errors (stored_error_create type pcs) = none) :
    record_error st type pcs = .ok
      ({ st with
         errors := st.errors ++
           [{ id := 0, errtype := type, count := 1, suppressed := false, pcs := pcs }],
         num_total := array_inc st.num_total type }, st.errors.length) := by
  obtain ⟨base, i, e, ⟨_, _, _, hcase⟩, hr⟩ := record_error_ok st type pcs ht
  rcases hcase with ⟨h1, _⟩ | ⟨_, hb, hi, he⟩
  · rw [hl] at h1; cases h1
  · subst hb hi he
    rw [hr, set_length_append]
    rfl

theorem record_error_old (st : report_state) (type : Nat) (pcs : packed_callstack_t)
    (i : Nat) (e : stored_error_t) (ht : type < ERROR_MAX_VAL)
    (hl : hashtable_lookup st.errors (stored_error_create type pcs) = some i)
    (he : st.errors[i]? = some e) :
    record_error st type pcs = .ok
      ({ st with
         errors := st.errors.set i { e with count := uint_inc e.count },
         num_total := if e.suppressed then st.num_total else array_inc st.num_total type },
       i) := by
  obtain ⟨base, j, e1, ⟨hb1, _, _, hcase⟩, hr⟩ := record_error_ok st type pcs ht
  rcases hcase with ⟨h1, hb⟩ | ⟨h1, _⟩
  · rw [hl] at h1
    cases h1
    subst hb
    rw [he] at hb1
    cases hb1
    exact hr
  · rw [hl] at h1; cases h1

/-- A `report_error` call at or beyond `-report_max` only counts the throttled
error: it returns before `record_error`. -/
theorem report_error_throttled (env : report_env) (st : report_state) (type : Nat)
    (pcs : packed_callstack_t) (h0 : 0 ≤ env.options.report_max)
    (h1 : env.options.report_max ≤ (st.num_reported_errors : Int)) :
    report_error env st type pcs =
      .ok { st with num_throttled_errors := uint_inc st.num_throttled_errors } := by
  simp only [report_error, h0, h1, and_self, if_true]

/-- The first occurrence of an error that no suppression matches: the record
is added with the next error number. -/
theorem report_error_new_reported (env : report_env) (st : report_state) (type : Nat)
    (pcs : packed_callstack_t) (out : List Char)
    (hthr : ¬ (0 ≤ env.options.report_max ∧
      env.options.report_max ≤ (st.num_reported_errors : Int)))
    (ht : type = ERROR_UNADDRESSABLE ∨ type = ERROR_UNDEFINED ∨
      type = ERROR_INVALID_HEAP_ARG ∨ type = ERROR_WARNING)
    (hl : hashtable_lookup st.errors (stored_error_create type pcs) = none)
    (hv : on_suppression_list env.nl st.supp.supp_list type (env.packed_callstack_print pcs)
      = .ok (false, out)) :
    report_error env st type pcs = .ok
      { st with
        error_id := (st.error_id + 1) % 2 ^ 32,
        errors := st.errors ++
          [{ id := (st.error_id + 1) % 2 ^ 32, errtype := type, count := 1,
             suppressed := false, pcs := pcs }],
        num_unique := array_inc st.num_unique type,
        num_total := array_inc st.num_total type,
        num_reported_errors := uint_inc st.num_reported_errors,
        f_suppress := st.f_suppress ++ out,
        f_results := st.f_results ++ [some ((st.error_id + 1) % 2 ^ 32)] } := by
  have ht6 : type < ERROR_MAX_VAL := by
    rcases ht with h | h | h | h <;> rw [h] <;> decide
  simp only [report_error, hthr, if_false, record_error_new st type pcs ht6 hl,
    List.getElem?_concat_length, gt_iff_lt, Nat.lt_irrefl, ne_eq, not_true_eq_false, hv,
    Bool.false_eq_true, ht, if_true]
  rw [acquire_error_number_eq _ st.errors.length
    { id := 0, errtype := type, count := 1, suppressed := false, pcs := pcs }
    (by simp)]
  simp only [set_length_append]

/-- The first occurrence of an error that a suppression matches: the record is
added as suppressed, without an error number. -/
theorem report_error_new_suppressed (env : report_env) (st : report_state) (type : Nat)
    (pcs : packed_callstack_t) (out : List Char)
    (hthr : ¬ (0 ≤ env.options.report_max ∧
      env.options.report_max ≤ (st.num_reported_errors : Int)))
    (ht : type = ERROR_UNADDRESSABLE ∨ type = ERROR_UNDEFINED ∨
      type = ERROR_INVALID_HEAP_ARG ∨ type = ERROR_WARNING)
    (hl : hashtable_lookup st.errors (stored_error_create type pcs) = none)
    (hv : on_suppression_list env.nl st.supp.supp_list type (env.packed_callstack_print pcs)
      = .ok (true, out)) :
    report_error env st type pcs = .ok
      { st with
        errors := st.errors ++
          [{ id := 0, errtype := type, count := 1, suppressed := true, pcs := pcs }],
        num_total := array_dec (array_inc st.num_total type) type,
        num_suppressions_matched := uint_inc st.num_suppressions_matched,
        f_suppress := st.f_suppress ++ out } := by
  have ht6 : type < ERROR_MAX_VAL := by
    rcases ht with h | h | h | h <;> rw [h] <;> decide
  have hm := modify_eq_set_of_getElem? (fun e => { e with suppressed := true })
    (st.errors ++ [{ id := 0, errtype := type, count := 1, suppressed := false, pcs := pcs }])
    st.errors.length
    { id := 0, errtype := type, count := 1, suppressed := false, pcs := pcs } (by simp)
  simp only [report_error, hthr, if_false, record_error_new st type pcs ht6 hl,
    List.getElem?_concat_length, gt_iff_lt, Nat.lt_irrefl, ne_eq, not_true_eq_false, hv,
    ht, if_true, hm, set_length_append]

/-- A later occurrence of an error that has been reported: only the count of
its record and `num_total` of its kind are incremented. -/
theorem report_error_dup_reported (env : report_env) (st : report_state) (type : Nat)
    (pcs : packed_callstack_t) (i : Nat) (e : stored_error_t)
    (hthr : ¬ (0 ≤ env.options.report_max ∧
      env.options.report_max ≤ (st.num_reported_errors : Int)))
    (ht : type < ERROR_MAX_VAL)
    (hl : hashtable_lookup st.errors (stored_error_create type pcs) = some i)
    (he : st.errors[i]? = some e) (hc : 1 < uint_inc e.count)
    (hs : e.suppressed = false) (hid : e.id ≠ 0) :
    report_error env st type pcs = .ok
      { st with
        errors := st.errors.set i { e with count := uint_inc e.count },
        num_total := array_inc st.num_total type } := by
  have hi : i < st.errors.length := by
    by_contra hc2
    rw [List.getElem?_eq_none (by omega)] at he
    cases he
  simp only [report_error, hthr, if_false, record_error_old st type pcs i e ht hl he,
    List.getElem?_set_self hi, gt_iff_lt, hc, if_true, hs, Bool.false_eq_true, hid]

/-- A later occurrence of a suppressed error: only the count of its record and
`num_suppressions_matched` are incremented. -/
theorem report_error_dup_suppressed (env : report_env) (st : report_state) (type : Nat)
    (pcs : packed_callstack_t) (i : Nat) (e : stored_error_t)
    (hthr : ¬ (0 ≤ env.options.report_max ∧
      env.options.report_max ≤ (st.num_reported_errors : Int)))
    (ht : type < ERROR_MAX_VAL)
    (hl : hashtable_lookup st.errors (stored_error_create type pcs) = some i)
    (he : st.errors[i]? = some e) (hc : 1 < uint_inc e.count)
    (hs : e.suppressed = true) :
    report_error env st type pcs = .ok
      { st with
        errors := st.errors.set i { e with count := uint_inc e.count },
        num_suppressions_matched := uint_inc st.num_suppressions_matched } := by
  have hi : i < st.errors.length := by
    by_contra hc2
    rw [List.getElem?_eq_none (by omega)] at he
    cases he
  simp only [report_error, hthr, if_false, record_error_old st type pcs i e ht hl he,
    List.getElem?_set_self hi, gt_iff_lt, hc, if_true, hs]

/-! ## Claims on the error accumulator -/

theorem on_suppression_list_match_out (nl : List Char) (supp_list : List (List suppress_spec_t))
    (type : Nat) (cstack out : List Char)
    (h : on_suppression_list nl supp_list type cstack = .ok (true, out)) : out = [] := by
  unfold on_suppression_list at h
  split at h
  · split at h
    · cases h
    · cases h; rfl
    · split at h
      · cases h
      · split at h
        · cases h
        · cases h
  · cases h

/-- A call of `report_error`, `report_leak`, the checkpoint or the revert keeps
every record of the table in its place, with its kind and callstack, keeps it
suppressed when it was, and keeps its error number when it had one. -/
theorem table_change_keeps (env : report_env) (st st1 : report_state)
    (ok : Nat → packed_callstack_t → Prop) (h : table_change env st st1 ok)
    (i : Nat) (e : stored_error_t) (he : st.errors[i]? = some e) :
    ∃ e1, st1.errors[i]? = some e1 ∧ e1.errtype = e.errtype ∧ e1.pcs = e.pcs ∧
      (e.suppressed = true → e1.suppressed = true) ∧ (e.id ≠ 0 → e1.id = e.id) := by
  obtain ⟨_, h⟩ := h
  rcases h with ⟨hs, _⟩ | ⟨type, p, base, j, x, x1, _, hslot, hset, hout⟩
  · exact ⟨e, by rw [hs]; exact he, rfl, rfl, id, fun _ => rfl⟩
  · have hil : i < st.errors.length := by
      by_contra hc
      rw [List.getElem?_eq_none (by omega)] at he
      cases he
    have hbase : base[i]? = some e := by
      rcases hslot.2.2.2 with ⟨_, hb⟩ | ⟨_, hb, _, _⟩
      · rw [hb]; exact he
      · rw [hb, List.getElem?_append_left hil]; exact he
    by_cases hij : j = i
    · subst hij
      have hx : x = e := by
        have := hslot.1
        rw [hbase] at this
        cases this; rfl
      subst hx
      refine ⟨x1, ?_, ?_⟩
      · rw [hset, List.getElem?_set_self (table_slot_lt hslot)]
      · rcases hout with ⟨_, h1, _⟩ | ⟨_, _, h1, _⟩ | ⟨_, _, h0, _, h1, _⟩ | ⟨_, _, _, h1, _⟩
        · subst h1; exact ⟨rfl, rfl, id, fun _ => rfl⟩
        · subst h1; exact ⟨rfl, rfl, fun _ => rfl, fun _ => rfl⟩
        · subst h1; exact ⟨rfl, rfl, id, fun hne => absurd h0 hne⟩
        · subst h1; exact ⟨rfl, rfl, id, fun _ => rfl⟩
    · refine ⟨e, ?_, rfl, rfl, id, fun _ => rfl⟩
      rw [hset, List.getElem?_set_ne hij]
      exact hbase

theorem report_leak_stats_revert_keeps (st : report_state) (i : Nat) (e : stored_error_t)
    (he : st.errors[i]? = some e) :
    ∃ e1, (report_leak_stats_revert st).errors[i]? = some e1 ∧ e1.errtype = e.errtype ∧
      e1.pcs = e.pcs ∧ e1.suppressed = e.suppressed ∧ e1.id = e.id ∧
      e1.count = (if e.errtype = ERROR_LEAK ∨ e.errtype = ERROR_POSSIBLE_LEAK then 0
                  else e.count) := by
  simp only [report_leak_stats_revert, List.getElem?_map, he, Option.map_some']
  split
  · exact ⟨_, rfl, rfl, rfl, rfl, rfl, rfl⟩
  · exact ⟨_, rfl, rfl, rfl, rfl, rfl, rfl⟩

/-- C16, counterexample: with `-report_max 1`, a second report of the error
that was just reported as `Error #1` is not duplicate-checked: the count of its
record stays 1 while the throttle counter becomes 1. -/
theorem C16_counterexample :
    (report_run (env_of { options_unlimited with report_max := 1 })
        (report_state.init supp_globals.init)
        [.error ERROR_UNADDRESSABLE [1], .error ERROR_UNADDRESSABLE [1]]).map
      (fun s => (s.num_reported_errors, s.errors.map (fun e => e.count),
                 s.num_throttled_errors))
    = .ok (1, [1], 1) := by decide

/-- C16, amended: once `num_reported_errors` has reached `report_max` (at least
0), a further `report_error` call only increments `num_throttled_errors`: the
call returns before `record_error`, so the table is not consulted, no count
changes and nothing is written, whether or not the error is in the table. -/
theorem C16_throttled_call_is_not_recorded (env : report_env) (st : report_state)
    (type : Nat) (pcs : packed_callstack_t)
    (h0 : 0 ≤ env.options.report_max)
    (h1 : env.options.report_max ≤ (st.num_reported_errors : Int)) :
    report_error env st type pcs =
      .ok { st with num_throttled_errors := (st.num_throttled_errors + 1) % 2 ^ 32 } :=
  report_error_throttled env st type pcs h0 h1

theorem C16_throttled_call_is_not_recorded_witness :
    ((0 : Int) ≤ (env_of { options_unlimited with report_max := 1 }).options.report_max ∧
     (env_of { options_unlimited with report_max := 1 }).options.report_max
       ≤ (state_one_reported.num_reported_errors : Int)) ∧
    report_error (env_of { options_unlimited with report_max := 1 }) state_one_reported
        ERROR_UNADDRESSABLE [1] =
      .ok { state_one_reported with
            num_throttled_errors := (state_one_reported.num_throttled_errors + 1) % 2 ^ 32 } :=
  ⟨⟨by decide, by decide⟩,
   C16_throttled_call_is_not_recorded (env_of { options_unlimited with report_max := 1 })
     state_one_reported ERROR_UNADDRESSABLE [1] (by decide) (by decide)⟩

/-! ## Claims on the error table and the leak statistics -/

/-- C20, counterexample: a leak is reported once and then the statistics are
checkpointed, so the count of its record is 1 at the checkpoint; the revert
that follows leaves the count 0, not 1. -/
theorem C20_counterexample :
    (report_run (env_of options_unlimited) (report_state.init supp_globals.init)
        [.leak true 8 0 false false false (some [1]), .checkpoint]).map
      (fun s => s.errors.map (fun e => (e.errtype, e.count))) = .ok [(ERROR_LEAK, 1)] ∧
    (report_run (env_of options_unlimited) (report_state.init supp_globals.init)
        [.leak true 8 0 false false false (some [1]), .checkpoint, .revert]).map
      (fun s => s.errors.map (fun e => (e.errtype, e.count))) = .ok [(ERROR_LEAK, 0)] := by
  decide

/-- C20, amended: `report_leak_stats_revert` sets the count of every `LEAK` and
`POSSIBLE LEAK` record to 0, whatever it was at the last checkpoint, and leaves
the count of every record of the other kinds, and the id, the suppressed flag,
the kind and the callstack of every record, unchanged; no record is added or
removed. -/
theorem C20_revert_clears_leak_counts (st : report_state) :
    (report_leak_stats_revert st).errors.map (fun e => e.count) =
      st.errors.map (fun e =>
        if e.errtype = ERROR_LEAK ∨ e.errtype = ERROR_POSSIBLE_LEAK then 0 else e.count) ∧
    (report_leak_stats_revert st).errors.map (fun e => (e.id, e.suppressed, e.errtype, e.pcs)) =
      st.errors.map (fun e => (e.id, e.suppressed, e.errtype, e.pcs)) := by
  simp only [report_leak_stats_revert, List.map_map]
  constructor <;>
  · apply List.map_congr_left
    intro e _
    simp only [Function.comp]
    split <;> rfl

theorem range'_one_facts (n : Nat) :
    (∀ x ∈ List.range' 1 n, x ≠ 0 ∧ x ≤ n) ∧ (List.range' 1 n).Nodup ∧
    (List.range' 1 n).Pairwise (fun a b => a < b) := by
  refine ⟨?_, List.nodup_range' 1 n, List.pairwise_lt_range' 1 n⟩
  intro x hx
  rw [List.mem_range'_1] at hx
  omega

theorem mem_assigned_ids (st : report_state) (e : stored_error_t) (he : e ∈ st.errors)
    (h0 : e.id ≠ 0) : e.id ∈ assigned_ids st := by
  unfold assigned_ids
  rw [List.mem_filter]
  exact ⟨List.mem_map_of_mem _ he, by simpa using h0⟩

/-- C13: in every state reached from the start of the process by calls of
`report_error`, `report_leak`, the checkpoint, the revert and `report_fork_init`
(fewer than 2^32 of them), the error numbers of the records that have one, read
along the error list from its head, are exactly `1, 2, .., error_id`: so every
assigned id is nonzero, no two records share one, they increase strictly along
the list, and no record has an id above `error_id`. -/
theorem C13_ids_are_one_to_error_id (env : report_env) (supp : supp_globals)
    (calls : List report_call) (st1 : report_state)
    (hlen : calls.length < 2 ^ 32)
    (h : report_run env (report_state.init supp) calls = .ok st1) :
    assigned_ids st1 = List.range' 1 st1.error_id ∧
    (∀ x ∈ assigned_ids st1, x ≠ 0) ∧
    (assigned_ids st1).Nodup ∧
    (assigned_ids st1).Pairwise (fun a b => a < b) ∧
    (∀ e ∈ st1.errors, e.id ≤ st1.error_id) := by
  have hinv := (report_run_inv env calls (report_state.init supp) st1
    (table_inv_init env supp) (by simpa [report_state.init] using hlen) h).1
  obtain ⟨h1, h2, h3⟩ := range'_one_facts st1.error_id
  refine ⟨hinv.1, ?_, ?_, ?_, ?_⟩
  · intro x hx; rw [hinv.1] at hx; exact (h1 x hx).1
  · rw [hinv.1]; exact h2
  · rw [hinv.1]; exact h3
  · intro e he
    by_cases h0 : e.id = 0
    · omega
    · have := mem_assigned_ids st1 e he h0
      rw [hinv.1] at this
      exact (h1 _ this).2

theorem C13_ids_are_one_to_error_id_witness :
    assigned_ids (state_after (env_of options_unlimited) (report_state.init supp_globals.init)
      calls_three) = [1, 2] ∧
    assigned_ids (state_after (env_of options_unlimited) (report_state.init supp_globals.init)
      calls_three) = List.range' 1 (state_after (env_of options_unlimited)
        (report_state.init supp_globals.init) calls_three).error_id :=
  ⟨by decide,
   (C13_ids_are_one_to_error_id (env_of options_unlimited) supp_globals.init calls_three
     (state_after (env_of options_unlimited) (report_state.init supp_globals.init) calls_three)
     (by decide) rfl).1⟩

/-- A `record_error` call keeps every record of the table in its place and
changes nothing of it but the count. -/
theorem record_error_keeps (st st1 : report_state) (type : Nat) (pcs : packed_callstack_t)
    (j : Nat) (h : record_error st type pcs = .ok (st1, j))
    (i : Nat) (e : stored_error_t) (he : st.errors[i]? = some e) :
    ∃ e1, st1.errors[i]? = some e1 ∧ e1.errtype = e.errtype ∧ e1.pcs = e.pcs ∧
      e1.suppressed = e.suppressed ∧ e1.id = e.id := by
  by_cases ht : type < ERROR_MAX_VAL
  · obtain ⟨base, k, x, hslot, hr⟩ := record_error_ok st type pcs ht
    rw [hr] at h
    cases h
    have hil : i < st.errors.length := by
      by_contra hc
      rw [List.getElem?_eq_none (by omega)] at he
      cases he
    have hbase : base[i]? = some e := by
      rcases hslot.2.2.2 with ⟨_, hb⟩ | ⟨_, hb, _, _⟩
      · rw [hb]; exact he
      · rw [hb, List.getElem?_append_left hil]; exact he
    by_cases hij : j = i
    · subst hij
      have hx : x = e := by
        have := hslot.1
        rw [hbase] at this
        cases this; rfl
      subst hx
      exact ⟨_, List.getElem?_set_self (table_slot_lt hslot), rfl, rfl, rfl, rfl⟩
    · refine ⟨e, ?_, rfl, rfl, rfl, rfl⟩
      show (base.set j _)[i]? = some e
      rw [List.getElem?_set_ne hij]
      exact hbase
  · simp only [record_error, ht, if_false] at h
    cases h

/-- C14, counterexample: with `-report_max 1` and the suppression `supp_foo`,
an unaddressable access is suppressed, an uninitialized read is reported as
`Error #1`, and the suppressed access occurs again: the later occurrence leaves
the count of the suppressed record at 1 and `num_suppressions_matched` at 1;
only `num_throttled_errors` is incremented. -/
theorem C14_counterexample :
    (report_run (env_of { options_unlimited with report_max := 1 }) (report_state.init supp_foo)
        [.error ERROR_UNADDRESSABLE [1], .error ERROR_UNDEFINED [2],
         .error ERROR_UNADDRESSABLE [1]]).map
      (fun s => (s.errors.map (fun e => (e.errtype, e.suppressed, e.count)),
                 s.num_suppressions_matched, s.num_throttled_errors))
    = .ok ([(ERROR_UNADDRESSABLE, true, 1), (ERROR_UNDEFINED, false, 1)], 1, 1) := by
  decide

/-- C14, amended: a record that is marked suppressed stays in its place in the
table, with its kind and callstack, and stays suppressed, through every call of
`report_error`, `report_leak`, the checkpoint and the revert, and through every
`record_error` call.  A later occurrence of the record through `report_error`
increments its count and `num_suppressions_matched`, and changes nothing else
(so `num_total`, `num_unique`, `num_reported_errors` and the id are as
before), provided the call is not throttled by `-report_max`: a throttled call
changes neither the count nor `num_suppressions_matched`. -/
theorem C14_suppressed_flag_is_sticky (env : report_env) (st : report_state) (i : Nat)
    (e : stored_error_t) (he : st.errors[i]? = some e) (hs : e.suppressed = true) :
    (∀ c st1, c ≠ report_call.fork_init → report_step env st c = .ok st1 →
      ∃ e1, st1.errors[i]? = some e1 ∧ e1.suppressed = true ∧ e1.errtype = e.errtype ∧
        e1.pcs = e.pcs) ∧
    (∀ type pcs st1 j, record_error st type pcs = .ok (st1, j) →
      ∃ e1, st1.errors[i]? = some e1 ∧ e1.suppressed = true ∧ e1.errtype = e.errtype ∧
        e1.pcs = e.pcs ∧ e1.id = e.id) ∧
    (¬ (0 ≤ env.options.report_max ∧
          env.options.report_max ≤ (st.num_reported_errors : Int)) →
      e.errtype < ERROR_MAX_VAL →
      hashtable_lookup st.errors (stored_error_create e.errtype e.pcs) = some i →
      1 < uint_inc e.count →
      report_error env st e.errtype e.pcs = .ok
        { st with
          errors := st.errors.set i { e with count := (e.count + 1) % 2 ^ 32 },
          num_suppressions_matched := (st.num_suppressions_matched + 1) % 2 ^ 32 }) ∧
    (0 ≤ env.options.report_max ∧
        env.options.report_max ≤ (st.num_reported_errors : Int) →
      report_error env st e.errtype e.pcs = .ok
        { st with num_throttled_errors := (st.num_throttled_errors + 1) % 2 ^ 32 }) := by
  refine ⟨?_, ?_, ?_, ?_⟩
  · intro c st1 hc h
    cases c with
    | error type pcs =>
      obtain ⟨e1, h1, h2, h3, h4, _⟩ := table_change_keeps env st st1 _
        (report_error_change env st st1 type pcs h) i e he
      exact ⟨e1, h1, h4 hs, h2, h3⟩
    | leak known_malloc size indirect_size early reachable maybe_reachable pcs =>
      obtain ⟨e1, h1, h2, h3, h4, _⟩ := table_change_keeps env st st1 _
        (report_leak_change env st st1 known_malloc size indirect_size early reachable
          maybe_reachable pcs h) i e he
      exact ⟨e1, h1, h4 hs, h2, h3⟩
    | checkpoint =>
      simp only [report_step] at h
      cases h
      exact ⟨e, he, hs, rfl, rfl⟩
    | revert =>
      simp only [report_step] at h
      cases h
      obtain ⟨e1, h1, h2, h3, h4, _⟩ := report_leak_stats_revert_keeps st i e he
      exact ⟨e1, h1, by rw [h4]; exact hs, h2, h3⟩
    | fork_init => exact absurd rfl hc
  · intro type pcs st1 j h
    obtain ⟨e1, h1, h2, h3, h4, h5⟩ := record_error_keeps st st1 type pcs j h i e he
    exact ⟨e1, h1, by rw [h4]; exact hs, h2, h3, h5⟩
  · intro hthr ht hl hc
    exact report_error_dup_suppressed env st e.errtype e.pcs i e hthr ht hl he hc hs
  · intro hthr
    exact report_error_throttled env st e.errtype e.pcs hthr.1 hthr.2

theorem C14_suppressed_flag_is_sticky_witness :
    report_error (env_of options_unlimited) state_one_suppressed ERROR_UNADDRESSABLE [1] = .ok
      { state_one_suppressed with
        errors := [{ id := 0, errtype := ERROR_UNADDRESSABLE, count := 2, suppressed := true,
                     pcs := [1] }],
        num_suppressions_matched := 2 } :=
  (C14_suppressed_flag_is_sticky (env_of options_unlimited) state_one_suppressed 0
    { id := 0, errtype := ERROR_UNADDRESSABLE, count := 1, suppressed := true, pcs := [1] }
    (by decide) (by decide)).2.2.1 (by decide) (by decide) (by decide) (by decide)

/-- C21: `report_fork_init` leaves an empty error list, `error_id = 0`, every
counter of a kind and every count of reported, throttled, leaked, suppressed
and reachable errors at 0, and leaves the suppression specs (`supp_list` and
`supp_num`) as they were; and the first error reported afterwards (not
suppressed, `-report_max` not 0) is `Error #1`, whatever had been reported
before the fork. -/
theorem C21_fork_init_resets (env : report_env) (st : report_state) (type : Nat)
    (pcs : packed_callstack_t) (out : List Char)
    (hmax : env.options.report_max ≠ 0)
    (ht : type = ERROR_UNADDRESSABLE ∨ type = ERROR_UNDEFINED ∨
      type = ERROR_INVALID_HEAP_ARG ∨ type = ERROR_WARNING)
    (hv : on_suppression_list env.nl st.supp.supp_list type (env.packed_callstack_print pcs)
      = .ok (false, out)) :
    (report_fork_init st).errors = [] ∧ (report_fork_init st).error_id = 0 ∧
    (report_fork_init st).num_unique = List.replicate ERROR_MAX_VAL 0 ∧
    (report_fork_init st).num_total = List.replicate ERROR_MAX_VAL 0 ∧
    (report_fork_init st).num_reported_errors = 0 ∧
    (report_fork_init st).num_throttled_errors = 0 ∧
    (report_fork_init st).num_total_leaks = 0 ∧
    (report_fork_init st).num_throttled_leaks = 0 ∧
    (report_fork_init st).num_leaks_ignored = 0 ∧
    (report_fork_init st).num_bytes_leaked = 0 ∧
    (report_fork_init st).num_bytes_possible_leaked = 0 ∧
    (report_fork_init st).num_suppressions_matched = 0 ∧
    (report_fork_init st).num_suppressed_leaks = 0 ∧
    (report_fork_init st).num_reachable_leaks = 0 ∧
    (report_fork_init st).supp.supp_list = st.supp.supp_list ∧
    (report_fork_init st).supp.supp_num = st.supp.supp_num ∧
    ∃ st1, report_error env (report_fork_init st) type pcs = .ok st1 ∧
      st1.error_id = 1 ∧
      st1.errors = [{ id := 1, errtype := type, count := 1, suppressed := false, pcs := pcs }] ∧
      st1.f_results = st.f_results ++ [some 1] := by
  refine ⟨rfl, rfl, rfl, rfl, rfl, rfl, rfl, rfl, rfl, rfl, rfl, rfl, rfl, rfl, rfl, rfl, ?_⟩
  have hthr : ¬ (0 ≤ env.options.report_max ∧
      env.options.report_max ≤ ((report_fork_init st).num_reported_errors : Int)) := by
    intro h
    have h2 : env.options.report_max ≤ 0 := h.2
    exact hmax (Int.le_antisymm h2 h.1)
  exact ⟨_, report_error_new_reported env (report_fork_init st) type pcs out hthr ht rfl hv,
    rfl, rfl, rfl⟩

theorem C21_fork_init_resets_witness :
    ∃ st1, report_error (env_of options_unlimited) (report_fork_init state_one_reported)
        ERROR_UNADDRESSABLE [1] = .ok st1 ∧
      st1.error_id = 1 ∧
      st1.errors = [{ id := 1, errtype := ERROR_UNADDRESSABLE, count := 1, suppressed := false,
                      pcs := [1] }] ∧
      st1.f_results = state_one_reported.f_results ++ [some 1] :=
  (C21_fork_init_resets (env_of options_unlimited) state_one_reported ERROR_UNADDRESSABLE [1]
    suggested_foo_main (by decide) (by decide) rfl).2.2.2.2.2.2.2.2.2.2.2.2.2.2.2.2

theorem mem_set_cases {α : Type} (l : List α) (i : Nat) (a x : α) (h : x ∈ l.set i a) :
    x = a ∨ ∃ j, j ≠ i ∧ l[j]? = some x := by
  obtain ⟨j, hj⟩ := List.mem_iff_getElem?.1 h
  by_cases hji : i = j
  · subst hji
    by_cases hl : i < l.length
    · rw [List.getElem?_set_self hl] at hj
      cases hj; exact Or.inl rfl
    · rw [List.getElem?_eq_none (by simp; omega)] at hj
      cases hj
  · rw [List.getElem?_set_ne hji] at hj
    exact Or.inr ⟨j, fun h => hji h.symm, hj⟩

/-- The records after a sequence of `record_error` calls, in terms of the calls
made so far (`done`): one record per key, and the count of a record is the
number of calls with its key. -/
theorem record_errors_inv :
    ∀ (calls done : List (Nat × packed_callstack_t)) (st : report_state),
      (∀ c ∈ calls, c.1 < ERROR_MAX_VAL) →
      done.length + calls.length < 2 ^ 32 →
      (st.errors.map (fun e => (e.errtype, e.pcs))).Nodup →
      (∀ e ∈ st.errors, (e.errtype, e.pcs) ∈ done ∧ e.count = done.count (e.errtype, e.pcs)) →
      (∀ p ∈ done, p ∈ st.errors.map (fun e => (e.errtype, e.pcs))) →
      ∃ st1, record_errors st calls = .ok st1 ∧
        (st1.errors.map (fun e => (e.errtype, e.pcs))).Nodup ∧
        (∀ e ∈ st1.errors, (e.errtype, e.pcs) ∈ done ++ calls ∧
          e.count = (done ++ calls).count (e.errtype, e.pcs)) ∧
        (∀ p ∈ done ++ calls, p ∈ st1.errors.map (fun e => (e.errtype, e.pcs)))
  | [], done, st, _, _, h1, h2, h3 => by
    refine ⟨st, rfl, h1, ?_, ?_⟩
    · simpa using h2
    · simpa using h3
  | (type, pcs) :: cs, done, st, ht, hlen, h1, h2, h3 => by
    simp only [List.length_cons] at hlen
    have ht6 : type < ERROR_MAX_VAL := ht (type, pcs) (List.mem_cons_self _ _)
    have hcount : ∀ p : Nat × packed_callstack_t, done.count p ≤ done.length :=
      fun p => List.count_le_length p done
    have hfin : ∀ st2 : report_state,
        (st2.errors.map (fun e => (e.errtype, e.pcs))).Nodup →
        (∀ e ∈ st2.errors, (e.errtype, e.pcs) ∈ done ++ [(type, pcs)] ∧
          e.count = (done ++ [(type, pcs)]).count (e.errtype, e.pcs)) →
        (∀ p ∈ done ++ [(type, pcs)], p ∈ st2.errors.map (fun e => (e.errtype, e.pcs))) →
        ∃ st1, record_errors st2 cs = .ok st1 ∧
          (st1.errors.map (fun e => (e.errtype, e.pcs))).Nodup ∧
          (∀ e ∈ st1.errors, (e.errtype, e.pcs) ∈ done ++ (type, pcs) :: cs ∧
            e.count = (done ++ (type, pcs) :: cs).count (e.errtype, e.pcs)) ∧
          (∀ p ∈ done ++ (type, pcs) :: cs, p ∈ st1.errors.map (fun e => (e.errtype, e.pcs))) := by
      intro st2 a1 a2 a3
      have := record_errors_inv cs (done ++ [(type, pcs)]) st2
        (fun c hc => ht c (List.mem_cons_of_mem _ hc))
        (by simp only [List.length_append, List.length_singleton]; omega) a1 a2 a3
      simpa only [List.append_assoc, List.singleton_append] using this
    cases hl : hashtable_lookup st.errors (stored_error_create type pcs) with
    | none =>
      have hnew := (hashtable_lookup_none st.errors type pcs).1 hl
      have hnd : (type, pcs) ∉ done := by
        intro hd
        obtain ⟨e, he, hk⟩ := List.mem_map.1 (h3 _ hd)
        exact hnew e he ⟨congrArg Prod.fst hk, congrArg Prod.snd hk⟩
      simp only [record_errors, record_error_new st type pcs ht6 hl]
      apply hfin
      · simp only [List.map_append, List.map_cons, List.map_nil]
        refine List.Nodup.append h1 (List.nodup_singleton _) ?_
        intro p hp hq
        rw [List.mem_singleton] at hq
        subst hq
        obtain ⟨e, he, hk⟩ := List.mem_map.1 hp
        exact hnew e he ⟨congrArg Prod.fst hk, congrArg Prod.snd hk⟩
      · intro e he
        rcases List.mem_append.1 he with he | he
        · obtain ⟨b1, b2⟩ := h2 e he
          refine ⟨List.mem_append_left _ b1, ?_⟩
          have hne : (e.errtype, e.pcs) ≠ (type, pcs) := fun hq =>
            hnew e he ⟨congrArg Prod.fst hq, congrArg Prod.snd hq⟩
          rw [List.count_append, b2, List.count_singleton]
          simp [hne.symm]
        · rw [List.mem_singleton] at he
          subst he
          refine ⟨by simp, ?_⟩
          simp only [List.count_append, List.count_singleton, beq_self_eq_true, if_true,
            List.count_eq_zero_of_not_mem hnd]
      · intro p hp
        simp only [List.map_append, List.map_cons, List.map_nil]
        rcases List.mem_append.1 hp with hp | hp
        · exact List.mem_append_left _ (h3 p hp)
        · exact List.mem_append_right _ hp
    | some i =>
      obtain ⟨e, hei, hk1, hk2, _⟩ := hashtable_lookup_some st.errors type pcs i hl
      have hmem : e ∈ st.errors := mem_of_getElem? hei
      have hkeys : (st.errors.set i { e with count := uint_inc e.count }).map
          (fun e => (e.errtype, e.pcs)) = st.errors.map (fun e => (e.errtype, e.pcs)) :=
        map_set_same _ _ _ e _ hei rfl
      simp only [record_errors, record_error_old st type pcs i e ht6 hl hei]
      apply hfin
      · simp only [hkeys]; exact h1
      · intro x hx
        simp only [] at hx
        rcases mem_set_cases _ _ _ _ hx with hx | ⟨j, hji, hj⟩
        · subst hx
          simp only [hk1, hk2]
          refine ⟨by simp, ?_⟩
          have := (h2 e hmem).2
          rw [hk1, hk2] at this
          rw [uint_inc_of_lt (by have := hcount (type, pcs); omega), this]
          simp [List.count_append, List.count_singleton]
        · have hxm : x ∈ st.errors := mem_of_getElem? hj
          obtain ⟨b1, b2⟩ := h2 x hxm
          refine ⟨List.mem_append_left _ b1, ?_⟩
          have hne : (x.errtype, x.pcs) ≠ (type, pcs) := by
            intro hq
            apply hji
            have hlt : ∀ {k : Nat} {y : stored_error_t}, st.errors[k]? = some y →
                k < (st.errors.map (fun e => (e.errtype, e.pcs))).length := by
              intro k y hy
              by_contra hc
              rw [List.getElem?_eq_none (by simpa using hc)] at hy
              cases hy
            have e1 : (st.errors.map (fun e => (e.errtype, e.pcs)))[j]? = some (type, pcs) := by
              rw [List.getElem?_map, hj]; simp [← hq]
            have e2 : (st.errors.map (fun e => (e.errtype, e.pcs)))[i]? = some (type, pcs) := by
              rw [List.getElem?_map, hei]; simp [hk1, hk2]
            have hjl := hlt hj
            have hil := hlt hei
            rw [List.getElem?_eq_getElem hjl] at e1
            rw [List.getElem?_eq_getElem hil] at e2
            exact (List.Nodup.getElem_inj_iff h1).1
              ((Option.some.inj e1).trans (Option.some.inj e2).symm)
          rw [List.count_append, b2, List.count_singleton]
          simp [hne.symm]
      · intro p hp
        simp only [hkeys]
        rcases List.mem_append.1 hp with hp | hp
        · exact h3 p hp
        · rw [List.mem_singleton] at hp
          subst hp
          exact List.mem_map.2 ⟨e, hmem, by rw [hk1, hk2]⟩

/-- After any sequence of `record_error` calls in a row (kinds of the enum,
fewer than 2^32 calls) from the start of the process or from `report_fork_init`, the
error table holds exactly one record for each (kind, callstack) pair among the
calls, no record of another pair, and the count of a record is the number of
calls made with its pair. -/
theorem record_errors_one_record_per_pair (start : report_state) (supp : supp_globals)
    (st0 : report_state) (calls : List (Nat × packed_callstack_t))
    (hstart : start = report_state.init supp ∨ start = report_fork_init st0)
    (ht : ∀ c ∈ calls, c.1 < ERROR_MAX_VAL) (hlen : calls.length < 2 ^ 32) :
    ∃ st1, record_errors start calls = .ok st1 ∧
      (st1.errors.map (fun e => (e.errtype, e.pcs))).Nodup ∧
      (∀ p, p ∈ st1.errors.map (fun e => (e.errtype, e.pcs)) ↔ p ∈ calls) ∧
      (∀ e ∈ st1.errors, e.count = calls.count (e.errtype, e.pcs)) := by
  have he : start.errors = [] := by
    rcases hstart with h | h <;> rw [h] <;> rfl
  obtain ⟨st1, hr, h1, h2, h3⟩ := record_errors_inv calls [] start ht
    (by simpa using hlen) (by rw [he]; exact List.nodup_nil)
    (by rw [he]; intro e h; cases h) (by intro p h; cases h)
  simp only [List.nil_append] at h2 h3
  refine ⟨st1, hr, h1, fun p => ⟨?_, h3 p⟩, fun e h => (h2 e h).2⟩
  intro hp
  obtain ⟨e, hm, hk⟩ := List.mem_map.1 hp
  rw [← hk]
  exact (h2 e hm).1

theorem record_errors_one_record_per_pair_example :
    ∃ st1, record_errors (report_state.init supp_foo) records_four = .ok st1 ∧
      (st1.errors.map (fun e => (e.errtype, e.pcs))).Nodup ∧
      (∀ p, p ∈ st1.errors.map (fun e => (e.errtype, e.pcs)) ↔ p ∈ records_four) ∧
      (∀ e ∈ st1.errors, e.count = records_four.count (e.errtype, e.pcs)) :=
  record_errors_one_record_per_pair (report_state.init supp_foo) supp_foo (report_state.init supp_foo)
    records_four (Or.inl rfl) (by decide) (by decide)

/-- The result of the recording part of `report_leak`, case by case: a later
occurrence of a suppressed record, a later occurrence of another record, a
first occurrence that a suppression matches, one that gets an error number, and
one that does not (a possible leak while `-possible_leaks` is off, or a record
that has kept its number through a revert). -/
theorem report_leak_checked_cases (env : report_env) (st st1 : report_state) (type : Nat)
    (size indirect_size : Nat) (maybe_reachable : Bool) (pcs : packed_callstack_t)
    (h : report_leak_checked env st type size indirect_size maybe_reachable pcs = .ok st1) :
    ∃ base i e, table_slot st.errors type pcs base i e ∧
      ((1 < uint_inc e.count ∧ e.suppressed = true ∧
        st1 = { st with
                errors := base.set i { e with count := uint_inc e.count },
                num_suppressed_leaks := uint_inc st.num_suppressed_leaks }) ∨
       (1 < uint_inc e.count ∧ e.suppressed = false ∧
        st1 = count_leak_bytes env
                { st with
                  errors := base.set i { e with count := uint_inc e.count },
                  num_total := array_inc st.num_total type }
                maybe_reachable size indirect_size) ∨
       (uint_inc e.count ≤ 1 ∧
        on_suppression_list env.nl st.supp.supp_list type (env.packed_callstack_print pcs)
          = .ok (true, []) ∧
        st1 = { st with
                errors := base.set i { e with count := uint_inc e.count, suppressed := true },
                num_suppressed_leaks := uint_inc st.num_suppressed_leaks,
                num_total := array_dec
                  (if e.suppressed then st.num_total else array_inc st.num_total type) type }) ∨
       (∃ out, uint_inc e.count ≤ 1 ∧
        on_suppression_list env.nl st.supp.supp_list type (env.packed_callstack_print pcs)
          = .ok (false, out) ∧
        e.id = 0 ∧ (maybe_reachable = false ∨ env.options.possible_leaks = true) ∧
        st1 = report_leak_print env (count_leak_bytes env
                { st with
                  error_id := (st.error_id + 1) % 2 ^ 32,
                  errors := base.set i
                    { e with count := uint_inc e.count, id := (st.error_id + 1) % 2 ^ 32 },
                  num_unique := array_inc st.num_unique e.errtype,
                  num_total := if e.suppressed then st.num_total
                               else array_inc st.num_total type,
                  f_suppress := st.f_suppress ++ out }
                maybe_reachable size indirect_size)
              maybe_reachable (some ((st.error_id + 1) % 2 ^ 32))) ∨
       (∃ out, uint_inc e.count ≤ 1 ∧
        on_suppression_list env.nl st.supp.supp_list type (env.packed_callstack_print pcs)
          = .ok (false, out) ∧
        ¬ (e.id = 0 ∧ (maybe_reachable = false ∨ env.options.possible_leaks = true)) ∧
        st1 = report_leak_print env (count_leak_bytes env
                { st with
                  errors := base.set i { e with count := uint_inc e.count },
                  num_unique := array_inc st.num_unique e.errtype,
                  num_total := if e.suppressed then st.num_total
                               else array_inc st.num_total type,
                  f_suppress := st.f_suppress ++ out }
                maybe_reachable size indirect_size)
              maybe_reachable (some e.id))) := by
  unfold report_leak_checked at h
  by_cases ht : type < ERROR_MAX_VAL
  · obtain ⟨base, i, e, hs, hr⟩ := record_error_ok st type pcs ht
    have hi := table_slot_lt hs
    refine ⟨base, i, e, hs, ?_⟩
    rw [hr] at h
    simp only [List.getElem?_set_self hi] at h
    by_cases hc : 1 < uint_inc e.count
    · simp only [gt_iff_lt, hc, if_true] at h
      cases hsup : e.suppressed
      · simp only [hsup, Bool.false_eq_true, if_false] at h
        cases h
        exact Or.inr (Or.inl ⟨hc, rfl, rfl⟩)
      · simp only [hsup, if_true] at h
        cases h
        exact Or.inl ⟨hc, rfl, rfl⟩
    · simp only [gt_iff_lt, hc, if_false] at h
      cases hv : on_suppression_list env.nl st.supp.supp_list type
          (env.packed_callstack_print pcs) with
      | error err => rw [hv] at h; cases h
      | ok r =>
        obtain ⟨suppressed, out⟩ := r
        rw [hv] at h
        cases suppressed
        · simp only [] at h
          split at h
          · rename_i hcond
            cases h
            rw [acquire_error_number_eq _ i { e with count := uint_inc e.count }
              (by simp [List.getElem?_set_self hi])]
            refine Or.inr (Or.inr (Or.inr (Or.inl ⟨out, by omega, rfl, hcond.1, hcond.2, ?_⟩)))
            simp only [List.set_set]
          · rename_i hcond
            cases h
            exact Or.inr (Or.inr (Or.inr (Or.inr ⟨out, by omega, rfl, hcond, rfl⟩)))
        · simp only [] at h
          cases h
          have hout := on_suppression_list_match_out _ _ _ _ _ hv
          subst hout
          have hm2 := modify_eq_set_of_getElem? (fun e => { e with suppressed := true })
            (base.set i { e with count := uint_inc e.count }) i
            { e with count := uint_inc e.count } (by simp [List.getElem?_set_self hi])
          refine Or.inr (Or.inr (Or.inl ⟨by omega, rfl, ?_⟩))
          simp only [hm2, List.set_set, List.append_nil]
  · simp only [record_error, ht, if_false] at h
    cases h

theorem count_leak_bytes_frame (env : report_env) (st : report_state) (m : Bool) (s i : Nat) :
    leak_locked_frame (count_leak_bytes env st m s i) = leak_locked_frame st := by
  unfold count_leak_bytes; split <;> rfl

theorem report_leak_print_frame (env : report_env) (st : report_state) (m : Bool)
    (n : Option Nat) : leak_locked_frame (report_leak_print env st m n) = leak_locked_frame st := by
  unfold report_leak_print; split <;> rfl

theorem array_inc_length (a : List Nat) (i : Nat) : (array_inc a i).length = a.length := by
  unfold array_inc; exact List.length_modify _ _ _

theorem array_dec_length (a : List Nat) (i : Nat) : (array_dec a i).length = a.length := by
  unfold array_dec; exact List.length_modify _ _ _

theorem ite_array_inc_length (b : Bool) (a : List Nat) (i : Nat) :
    (if b = true then a else array_inc a i).length = a.length := by
  split
  · rfl
  · exact array_inc_length a i

theorem report_leak_checked_frame (env : report_env) (st st1 : report_state) (type : Nat)
    (size indirect_size : Nat) (maybe_reachable : Bool) (pcs : packed_callstack_t)
    (h : report_leak_checked env st type size indirect_size maybe_reachable pcs = .ok st1) :
    leak_locked_frame st1 = leak_locked_frame st := by
  obtain ⟨base, i, e, _, hc⟩ := report_leak_checked_cases env st st1 type size indirect_size
    maybe_reachable pcs h
  rcases hc with ⟨_, _, h1⟩ | ⟨_, _, h1⟩ | ⟨_, _, h1⟩ | ⟨out, _, _, _, _, h1⟩ |
    ⟨out, _, _, _, h1⟩
  · subst h1; rfl
  · subst h1
    rw [count_leak_bytes_frame]
    simp only [leak_locked_frame, leak_frame, saved_counts, array_inc_length]
  · subst h1
    simp only [leak_locked_frame, leak_frame, saved_counts, array_dec_length,
      ite_array_inc_length]
  · subst h1
    rw [report_leak_print_frame, count_leak_bytes_frame]
    simp only [leak_locked_frame, leak_frame, saved_counts, array_inc_length,
      ite_array_inc_length]
  · subst h1
    rw [report_leak_print_frame, count_leak_bytes_frame]
    simp only [leak_locked_frame, leak_frame, saved_counts, array_inc_length,
      ite_array_inc_length]

theorem report_leak_locked_frame (env : report_env) (st st1 : report_state) (type : Nat)
    (size indirect_size : Nat) (maybe_reachable : Bool) (pcs : Option packed_callstack_t)
    (h : report_leak_locked env st type size indirect_size maybe_reachable pcs = .ok st1) :
    leak_locked_frame st1 = leak_locked_frame st := by
  unfold report_leak_locked at h
  split at h
  · split at h
    · cases h
    · split at h
      · exact report_leak_checked_frame env st st1 type size indirect_size maybe_reachable _ h
      · cases h; rfl
  · split at h
    · cases h
      rw [report_leak_print_frame, count_leak_bytes_frame]
      simp only [leak_locked_frame, leak_frame, saved_counts, array_inc_length]
    · cases h; rfl

/-- What `report_leak_counted` does to the counts of leaks: a throttled leak
only increments `num_throttled_leaks`; another leak increments
`num_total_leaks`, which was below `-report_leak_max`, and leaves
`num_throttled_leaks`. -/
theorem report_leak_counted_frame (env : report_env) (st st1 : report_state) (label : Bool)
    (size indirect_size : Nat) (early reachable maybe_reachable : Bool)
    (pcs : Option packed_callstack_t)
    (h : report_leak_counted env st label size indirect_size early reachable maybe_reachable pcs
          = .ok st1) :
    leak_frame st1 = leak_frame st ∧ st1.num_reachable_leaks = st.num_reachable_leaks ∧
    ((0 ≤ env.options.report_leak_max ∧
        env.options.report_leak_max ≤ (st.num_total_leaks : Int) ∧
        st1 = { st with num_throttled_leaks := uint_inc st.num_throttled_leaks }) ∨
     (¬ (0 ≤ env.options.report_leak_max ∧
          env.options.report_leak_max ≤ (st.num_total_leaks : Int)) ∧
        st1.num_total_leaks = uint_inc st.num_total_leaks ∧
        st1.num_throttled_leaks = st.num_throttled_leaks)) := by
  unfold report_leak_counted at h
  split at h
  · rename_i hthr
    cases h
    exact ⟨rfl, rfl, Or.inl ⟨hthr.1, hthr.2, rfl⟩⟩
  · rename_i hthr
    have key : ∀ (st2 : report_state) (type : Nat),
        report_leak_locked env st2 type size indirect_size maybe_reachable pcs = .ok st1 →
        leak_frame st2 = leak_frame st → st2.num_reachable_leaks = st.num_reachable_leaks →
        st2.num_total_leaks = uint_inc st.num_total_leaks →
        st2.num_throttled_leaks = st.num_throttled_leaks →
        leak_frame st1 = leak_frame st ∧ st1.num_reachable_leaks = st.num_reachable_leaks ∧
        ((0 ≤ env.options.report_leak_max ∧
            env.options.report_leak_max ≤ (st.num_total_leaks : Int) ∧
            st1 = { st with num_throttled_leaks := uint_inc st.num_throttled_leaks }) ∨
         (¬ (0 ≤ env.options.report_leak_max ∧
              env.options.report_leak_max ≤ (st.num_total_leaks : Int)) ∧
            st1.num_total_leaks = uint_inc st.num_total_leaks ∧
            st1.num_throttled_leaks = st.num_throttled_leaks)) := by
      intro st2 type hl a1 a2 a3 a4
      have hf := report_leak_locked_frame env st2 st1 type size indirect_size maybe_reachable
        pcs hl
      simp only [leak_locked_frame, Prod.mk.injEq] at hf
      obtain ⟨f1, f2, f3, f4, f5⟩ := hf
      exact ⟨f1.trans a1, f5.trans a2, Or.inr ⟨hthr, f3.trans a3, f2.trans a4⟩⟩
    split at h
    · exact key _ _ h rfl rfl rfl rfl
    · split at h
      · exact key _ _ h rfl rfl rfl rfl
      · split at h
        · exact key _ _ h rfl rfl rfl rfl
        · exact key _ _ h rfl rfl rfl rfl

/-- What `report_leak` does to the counts of leaks. -/
theorem report_leak_frame (env : report_env) (st st1 : report_state) (known_malloc : Bool)
    (size indirect_size : Nat) (early reachable maybe_reachable : Bool)
    (pcs : Option packed_callstack_t)
    (h : report_leak env st known_malloc size indirect_size early reachable maybe_reachable pcs
          = .ok st1) :
    leak_frame st1 = leak_frame st ∧
    (st1.num_total_leaks = st.num_total_leaks ∨
     (¬ (0 ≤ env.options.report_leak_max ∧
          env.options.report_leak_max ≤ (st.num_total_leaks : Int)) ∧
      st1.num_total_leaks = uint_inc st.num_total_leaks)) ∧
    (st1.num_throttled_leaks = st.num_throttled_leaks ∨
     (0 ≤ env.options.report_leak_max ∧
        env.options.report_leak_max ≤ (st.num_total_leaks : Int) ∧
        st1.num_throttled_leaks = uint_inc st.num_throttled_leaks)) := by
  have key : ∀ (st2 : report_state) (label : Bool),
      report_leak_counted env st2 label size indirect_size early reachable maybe_reachable pcs
        = .ok st1 →
      leak_frame st2 = leak_frame st → st2.num_total_leaks = st.num_total_leaks →
      st2.num_throttled_leaks = st.num_throttled_leaks →
      leak_frame st1 = leak_frame st ∧
      (st1.num_total_leaks = st.num_total_leaks ∨
       (¬ (0 ≤ env.options.report_leak_max ∧
            env.options.report_leak_max ≤ (st.num_total_leaks : Int)) ∧
        st1.num_total_leaks = uint_inc st.num_total_leaks)) ∧
      (st1.num_throttled_leaks = st.num_throttled_leaks ∨
       (0 ≤ env.options.report_leak_max ∧
          env.options.report_leak_max ≤ (st.num_total_leaks : Int) ∧
          st1.num_throttled_leaks = uint_inc st.num_throttled_leaks)) := by
    intro st2 label hl a1 a2 a3
    obtain ⟨f1, _, f3⟩ := report_leak_counted_frame env st2 st1 label size indirect_size early
      reachable maybe_reachable pcs hl
    refine ⟨f1.trans a1, ?_⟩
    rw [a2, a3] at f3
    rcases f3 with ⟨b1, b2, b3⟩ | ⟨b1, b2, b3⟩
    · subst b3
      exact ⟨Or.inl rfl, Or.inr ⟨b1, b2, rfl⟩⟩
    · exact ⟨Or.inr ⟨b1, b2⟩, Or.inl b3⟩
  unfold report_leak at h
  split at h
  · split at h
    · exact key _ _ h rfl rfl rfl
    · cases h; exact ⟨rfl, Or.inl rfl, Or.inl rfl⟩
  · split at h
    · split at h
      · cases h; exact ⟨rfl, Or.inl rfl, Or.inl rfl⟩
      · exact key _ _ h rfl rfl rfl
    · exact key _ _ h rfl rfl rfl

/-- The result of a `report_error` call that returns, case by case: a throttled
call, a later occurrence of a suppressed record, a later occurrence of a
reported record, a first occurrence that a suppression matches, and a first
occurrence that is reported. -/
theorem report_error_cases (env : report_env) (st st1 : report_state) (type : Nat)
    (pcs : packed_callstack_t) (h : report_error env st type pcs = .ok st1) :
    (0 ≤ env.options.report_max ∧ env.options.report_max ≤ (st.num_reported_errors : Int) ∧
      st1 = { st with num_throttled_errors := uint_inc st.num_throttled_errors }) ∨
    (¬ (0 ≤ env.options.report_max ∧
        env.options.report_max ≤ (st.num_reported_errors : Int)) ∧
     ∃ base i e, table_slot st.errors type pcs base i e ∧
      ((1 < uint_inc e.count ∧ e.suppressed = true ∧
        st1 = { st with
                errors := base.set i { e with count := uint_inc e.count },
                num_suppressions_matched := uint_inc st.num_suppressions_matched }) ∨
       (1 < uint_inc e.count ∧ e.suppressed = false ∧ e.id ≠ 0 ∧
        st1 = { st with
                errors := base.set i { e with count := uint_inc e.count },
                num_total := array_inc st.num_total type }) ∨
       (uint_inc e.count ≤ 1 ∧ e.id = 0 ∧
        (type = ERROR_UNADDRESSABLE ∨ type = ERROR_UNDEFINED ∨
          type = ERROR_INVALID_HEAP_ARG ∨ type = ERROR_WARNING) ∧
        on_suppression_list env.nl st.supp.supp_list type (env.packed_callstack_print pcs)
          = .ok (true, []) ∧
        st1 = { st with
                errors := base.set i { e with count := uint_inc e.count, suppressed := true },
                num_suppressions_matched := uint_inc st.num_suppressions_matched,
                num_total := array_dec
                  (if e.suppressed then st.num_total else array_inc st.num_total type) type }) ∨
       (∃ out, uint_inc e.count ≤ 1 ∧ e.id = 0 ∧
        (type = ERROR_UNADDRESSABLE ∨ type = ERROR_UNDEFINED ∨
          type = ERROR_INVALID_HEAP_ARG ∨ type = ERROR_WARNING) ∧
        on_suppression_list env.nl st.supp.supp_list type (env.packed_callstack_print pcs)
          = .ok (false, out) ∧
        st1 = { st with
                error_id := (st.error_id + 1) % 2 ^ 32,
                errors := base.set i
                  { e with count := uint_inc e.count, id := (st.error_id + 1) % 2 ^ 32 },
                num_unique := array_inc st.num_unique e.errtype,
                num_total := if e.suppressed then st.num_total
                             else array_inc st.num_total type,
                num_reported_errors := uint_inc st.num_reported_errors,
                f_suppress := st.f_suppress ++ out,
                f_results := st.f_results ++ [some ((st.error_id + 1) % 2 ^ 32)] }))) := by
  unfold report_error at h
  split at h
  · rename_i hthr
    cases h; exact Or.inl ⟨hthr.1, hthr.2, rfl⟩
  · rename_i hthr
    refine Or.inr ⟨hthr, ?_⟩
    by_cases ht : type < ERROR_MAX_VAL
    · obtain ⟨base, i, e, hs, hr⟩ := record_error_ok st type pcs ht
      have hi := table_slot_lt hs
      refine ⟨base, i, e, hs, ?_⟩
      rw [hr] at h
      simp only [List.getElem?_set_self hi] at h
      by_cases hc : 1 < uint_inc e.count
      · simp only [gt_iff_lt, hc, if_true] at h
        cases hsup : e.suppressed
        · simp only [hsup, Bool.false_eq_true, if_false] at h
          split at h
          · cases h
          · rename_i hid
            cases h
            exact Or.inr (Or.inl ⟨hc, rfl, hid, rfl⟩)
        · simp only [hsup, if_true] at h
          cases h
          exact Or.inl ⟨hc, rfl, rfl⟩
      · simp only [gt_iff_lt, hc, if_false] at h
        split at h
        · cases h
        · rename_i hid
          simp only [ne_eq, not_not] at hid
          have hp : e.pcs = pcs := hs.2.2.1
          cases hv : on_suppression_list env.nl st.supp.supp_list type
              (env.packed_callstack_print e.pcs) with
          | error err => rw [hv] at h; cases h
          | ok r =>
            obtain ⟨suppressed, out⟩ := r
            rw [hv] at h
            simp only [] at h
            rw [hp] at hv
            split at h
            · rename_i hty
              cases suppressed
              · simp only [Bool.false_eq_true, if_false] at h
                cases h
                rw [acquire_error_number_eq _ i { e with count := uint_inc e.count }
                  (by simp [List.getElem?_set_self hi])]
                refine Or.inr (Or.inr (Or.inr ⟨out, by omega, hid, hty, hv, ?_⟩))
                simp only [List.set_set]
              · simp only [if_true] at h
                cases h
                have hout := on_suppression_list_match_out _ _ _ _ _ hv
                subst hout
                have hm := modify_eq_set_of_getElem? (fun e => { e with suppressed := true })
                  (base.set i { e with count := uint_inc e.count }) i
                  { e with count := uint_inc e.count } (by simp [List.getElem?_set_self hi])
                refine Or.inr (Or.inr (Or.inl ⟨by omega, hid, hty, hv, ?_⟩))
                simp only [hm, List.set_set, List.append_nil]
            · cases h
    · simp only [record_error, ht, if_false] at h
      cases h

theorem report_error_frame (env : report_env) (st st1 : report_state) (type : Nat)
    (pcs : packed_callstack_t) (h : report_error env st type pcs = .ok st1) :
    error_frame st1 = error_frame st := by
  rcases report_error_cases env st st1 type pcs h with ⟨_, _, h1⟩ | ⟨_, base, i, e, _, hc⟩
  · subst h1; rfl
  · rcases hc with ⟨_, _, h1⟩ | ⟨_, _, _, h1⟩ | ⟨_, _, _, _, h1⟩ | ⟨out, _, _, _, _, h1⟩
    · subst h1; rfl
    · subst h1
      simp only [error_frame, saved_counts, array_inc_length]
    · subst h1
      simp only [error_frame, saved_counts, array_dec_length, ite_array_inc_length]
    · subst h1
      simp only [error_frame, saved_counts, array_inc_length, ite_array_inc_length]

theorem uint_inc_le (x : Nat) : uint_inc x ≤ x + 1 := Nat.mod_le _ _

theorem report_step_leak_max (env : report_env) (st st1 : report_state) (c : report_call)
    (hinv : leak_max_inv env st) (h : report_step env st c = .ok st1) :
    leak_max_inv env st1 := by
  obtain ⟨i1, i2⟩ := hinv
  cases c with
  | error type pcs =>
    have hf := report_error_frame env st st1 type pcs h
    simp only [error_frame, saved_counts, Prod.mk.injEq] at hf
    obtain ⟨⟨f1, f2, _⟩, f3, f4, _⟩ := hf
    unfold leak_max_inv
    rw [f1, f2, f3, f4]
    exact ⟨i1, i2⟩
  | leak known_malloc size indirect_size early reachable maybe_reachable pcs =>
    obtain ⟨hf, h1, h2⟩ := report_leak_frame env st st1 known_malloc size indirect_size early
      reachable maybe_reachable pcs h
    simp only [leak_frame, saved_counts, Prod.mk.injEq] at hf
    obtain ⟨⟨f1, f2, _⟩, _⟩ := hf
    unfold leak_max_inv
    rw [f1, f2]
    refine ⟨fun m hm => ⟨?_, (i1 m hm).2⟩, fun hneg => ⟨?_, (i2 hneg).2⟩⟩
    · rcases h1 with h1 | ⟨hthr, h1⟩
      · rw [h1]; exact (i1 m hm).1
      · rw [h1]
        have := uint_inc_le st.num_total_leaks
        have : (st.num_total_leaks : Int) < m := by
          by_contra hc
          exact hthr ⟨by omega, by omega⟩
        omega
    · rcases h2 with h2 | ⟨h0, _, _⟩
      · rw [h2]; exact (i2 hneg).1
      · omega
  | checkpoint =>
    simp only [report_step] at h
    cases h
    exact ⟨fun m hm => ⟨(i1 m hm).1, (i1 m hm).1⟩, fun hneg => ⟨(i2 hneg).1, (i2 hneg).1⟩⟩
  | revert =>
    simp only [report_step] at h
    cases h
    exact ⟨fun m hm => ⟨(i1 m hm).2, (i1 m hm).2⟩, fun hneg => ⟨(i2 hneg).2, (i2 hneg).2⟩⟩
  | fork_init =>
    simp only [report_step] at h
    cases h
    exact ⟨fun m hm => ⟨Nat.zero_le _, (i1 m hm).2⟩, fun hneg => ⟨rfl, (i2 hneg).2⟩⟩

theorem report_run_leak_max (env : report_env) :
    ∀ (calls : List report_call) (st st1 : report_state),
      leak_max_inv env st → report_run env st calls = .ok st1 → leak_max_inv env st1
  | [], st, st1, hinv, h => by
    simp only [report_run] at h
    cases h
    exact hinv
  | c :: cs, st, st1, hinv, h => by
    simp only [report_run] at h
    cases hs : report_step env st c with
    | error e => rw [hs] at h; cases h
    | ok st2 =>
      rw [hs] at h
      exact report_run_leak_max env cs st2 st1 (report_step_leak_max env st st2 c hinv hs) h

/-- C18: in every state reached from the start of the process, with
`report_leak_max = m >= 0`, `num_total_leaks` is at most `m`, and with
`report_leak_max < 0` no leak has been throttled; and a `report_leak` call that
arrives when `num_total_leaks >= m` (and is not returned earlier, as a
reachable leak that is not shown or as a leak that is not a known malloc
without `-verbose 2`) only increments `num_throttled_leaks`, besides
`num_reachable_leaks` for a reachable leak: the error table and the other
counters are unchanged. -/
theorem C18_report_leak_max_throttles (env : report_env) (supp : supp_globals)
    (calls : List report_call) (st1 : report_state)
    (h : report_run env (report_state.init supp) calls = .ok st1) :
    (∀ m : Nat, env.options.report_leak_max = (m : Int) → st1.num_total_leaks ≤ m) ∧
    (env.options.report_leak_max < 0 → st1.num_throttled_leaks = 0) ∧
    (0 ≤ env.options.report_leak_max →
      env.options.report_leak_max ≤ (st1.num_total_leaks : Int) →
      ∀ known_malloc size indirect_size early reachable maybe_reachable pcs,
        report_leak env st1 known_malloc size indirect_size early reachable maybe_reachable pcs
          = .ok
            (if reachable = true then
               if env.options.show_reachable = true then
                 { st1 with
                   num_reachable_leaks := (st1.num_reachable_leaks + 1) % 2 ^ 32,
                   num_throttled_leaks := (st1.num_throttled_leaks + 1) % 2 ^ 32 }
               else { st1 with num_reachable_leaks := (st1.num_reachable_leaks + 1) % 2 ^ 32 }
             else if known_malloc = false ∧ env.options.verbose < 2 then st1
             else { st1 with num_throttled_leaks := (st1.num_throttled_leaks + 1) % 2 ^ 32 })) := by
  have hinv := report_run_leak_max env calls (report_state.init supp) st1
    ⟨fun m _ => ⟨Nat.zero_le _, Nat.zero_le _⟩, fun _ => ⟨rfl, rfl⟩⟩ h
  refine ⟨fun m hm => (hinv.1 m hm).1, fun hneg => (hinv.2 hneg).1, ?_⟩
  intro h0 h1 known_malloc size indirect_size early reachable maybe_reachable pcs
  have hthr : 0 ≤ env.options.report_leak_max ∧
      env.options.report_leak_max ≤ (st1.num_total_leaks : Int) := ⟨h0, h1⟩
  cases reachable
  · cases known_malloc
    · by_cases hv : env.options.verbose < 2
      · simp only [report_leak, Bool.false_eq_true, if_false, if_true, hv, and_self]
      · simp only [report_leak, Bool.false_eq_true, if_false, if_true, hv, and_false,
          report_leak_counted, hthr, and_self, uint_inc]
    · simp only [report_leak, Bool.false_eq_true, Bool.true_eq_false, if_false, false_and,
        report_leak_counted, hthr, and_self, if_true, uint_inc]
  · cases hs : env.options.show_reachable
    · simp only [report_leak, if_true, hs, Bool.false_eq_true, if_false, uint_inc]
    · simp only [report_leak, if_true, hs, report_leak_counted, hthr, and_self, uint_inc]

theorem C18_report_leak_max_throttles_witness :
    (state_after (env_of { options_unlimited with report_leak_max := 1 })
      (report_state.init supp_globals.init) calls_two_leaks).num_throttled_leaks = 1 ∧
    ∀ m : Nat, (env_of { options_unlimited with report_leak_max := 1 }).options.report_leak_max
        = (m : Int) →
      (state_after (env_of { options_unlimited with report_leak_max := 1 })
        (report_state.init supp_globals.init) calls_two_leaks).num_total_leaks ≤ m :=
  ⟨by decide,
   (C18_report_leak_max_throttles (env_of { options_unlimited with report_leak_max := 1 })
     supp_globals.init calls_two_leaks
     (state_after (env_of { options_unlimited with report_leak_max := 1 })
       (report_state.init supp_globals.init) calls_two_leaks) rfl).1⟩

theorem report_run_only_leaks (env : report_env) :
    ∀ (calls : List report_call) (st st1 : report_state),
      only_leaks calls → report_run env st calls = .ok st1 → leak_frame st1 = leak_frame st
  | [], st, st1, _, h => by
    simp only [report_run] at h
    cases h
    rfl
  | c :: cs, st, st1, hl, h => by
    simp only [report_run] at h
    cases hs : report_step env st c with
    | error e => rw [hs] at h; cases h
    | ok st2 =>
      rw [hs] at h
      have h2 := report_run_only_leaks env cs st2 st1
        (fun x hx => hl x (List.mem_cons_of_mem _ hx)) h
      obtain ⟨km, size, isz, early, reachable, mr, pcs, hc⟩ := hl c (List.mem_cons_self _ _)
      subst hc
      exact h2.trans (report_leak_frame env st st2 km size isz early reachable mr pcs hs).1

theorem revert_restores (st : report_state) (hu : st.num_unique.length = ERROR_MAX_VAL)
    (ht : st.num_total.length = ERROR_MAX_VAL) :
    leak_counts (report_leak_stats_revert st) = saved_counts st := by
  have key : ∀ (l : List Nat) (a b : Nat), l.length = ERROR_MAX_VAL →
      ((l.set ERROR_POSSIBLE_LEAK a).set ERROR_LEAK b).getD ERROR_POSSIBLE_LEAK 0 = a ∧
      ((l.set ERROR_POSSIBLE_LEAK a).set ERROR_LEAK b).getD ERROR_LEAK 0 = b := by
    intro l a b hl
    match l, hl with
    | [x0, x1, x2, x3, x4, x5], _ => exact ⟨rfl, rfl⟩
  simp only [leak_counts, saved_counts, report_leak_stats_revert,
    (key st.num_unique _ _ hu).1, (key st.num_unique _ _ hu).2,
    (key st.num_total _ _ ht).1, (key st.num_total _ _ ht).2]

theorem revert_other_kinds (l : List Nat) (a b k : Nat) (hk : k < ERROR_LEAK) :
    ((l.set ERROR_POSSIBLE_LEAK a).set ERROR_LEAK b).getD k 0 = l.getD k 0 := by
  have h4 : ERROR_LEAK = 4 := rfl
  have h5 : ERROR_POSSIBLE_LEAK = 5 := rfl
  rw [h4] at hk
  simp only [List.getD_eq_getElem?_getD, h4, h5]
  rw [List.getElem?_set_ne (by omega), List.getElem?_set_ne (by omega)]

/-- C19: after `report_leak_stats_checkpoint`, any sequence of `report_leak`
calls and then `report_leak_stats_revert`, each of the eleven counters that the
checkpoint saves (`num_throttled_leaks`, `num_total_leaks`,
`num_leaks_ignored`, `num_suppressed_leaks`, `num_reachable_leaks`,
`num_unique` and `num_total` of `LEAK` and `POSSIBLE LEAK`, `num_bytes_leaked`,
`num_bytes_possible_leaked`) has the value it had at the checkpoint; and the
revert changes neither `num_unique` nor `num_total` of the four other kinds,
nor `error_id`, `num_reported_errors`, `num_throttled_errors` and
`num_suppressions_matched`. -/
theorem C19_checkpoint_revert_restores (env : report_env) (st st2 : report_state)
    (leaks : List report_call) (hl : only_leaks leaks)
    (hu : st.num_unique.length = ERROR_MAX_VAL) (ht : st.num_total.length = ERROR_MAX_VAL)
    (h : report_run env (report_leak_stats_checkpoint st) leaks = .ok st2) :
    leak_counts (report_leak_stats_revert st2) = leak_counts st ∧
    (∀ k, k < ERROR_LEAK →
      (report_leak_stats_revert st2).num_unique.getD k 0 = st2.num_unique.getD k 0 ∧
      (report_leak_stats_revert st2).num_total.getD k 0 = st2.num_total.getD k 0) ∧
    (report_leak_stats_revert st2).error_id = st2.error_id ∧
    (report_leak_stats_revert st2).num_reported_errors = st2.num_reported_errors ∧
    (report_leak_stats_revert st2).num_throttled_errors = st2.num_throttled_errors ∧
    (report_leak_stats_revert st2).num_suppressions_matched = st2.num_suppressions_matched := by
  have hf := report_run_only_leaks env leaks _ st2 hl h
  simp only [leak_frame, Prod.mk.injEq] at hf
  obtain ⟨f1, _, _, _, f2, f3, _⟩ := hf
  refine ⟨?_, fun k hk => ⟨revert_other_kinds _ _ _ k hk, revert_other_kinds _ _ _ k hk⟩,
    rfl, rfl, rfl, rfl⟩
  rw [revert_restores st2 (f2.trans hu) (f3.trans ht), f1]
  rfl

theorem C19_checkpoint_revert_restores_witness :
    leak_counts (report_leak_stats_revert
        (state_after (env_of options_unlimited)
          (report_leak_stats_checkpoint state_one_reported) calls_two_leaks))
      = leak_counts state_one_reported ∧
    leak_counts (state_after (env_of options_unlimited)
          (report_leak_stats_checkpoint state_one_reported) calls_two_leaks)
      = (0, 2, 0, 0, 0, 0, 0, 2, 2, 28, 0) :=
  ⟨(C19_checkpoint_revert_restores (env_of options_unlimited) state_one_reported
      (state_after (env_of options_unlimited)
        (report_leak_stats_checkpoint state_one_reported) calls_two_leaks)
      calls_two_leaks
      (fun c hc => by
        have h2 : c = .leak true 8 0 false false false (some [1]) ∨
            c = .leak true 16 4 false false false (some [2]) := by
          simpa [calls_two_leaks] using hc
        rcases h2 with h2 | h2 <;> exact ⟨_, _, _, _, _, _, _, h2⟩)
      rfl rfl rfl).1,
   rfl⟩

/-- C22, counterexample: a suppressed record with count 2 gets no line in the
section of duplicate error counts. -/
theorem C22_counterexample :
    report_summary_duplicates (env_of options_unlimited)
      [{ id := 0, errtype := ERROR_UNADDRESSABLE, count := 2, suppressed := true, pcs := [1] }]
    = .ok [] := by decide

/-- The lines of the duplicate error counts, when every listed record has an
error number. -/
theorem report_summary_duplicates_ok (env : report_env) (errors : List stored_error_t)
    (hid : ∀ e ∈ errors, duplicate_listed env e = true → 0 < e.id) :
    report_summary_duplicates env errors = .ok
      ((errors.filter (fun e => decide (e.count > 1) && !e.suppressed &&
          (decide (e.errtype ≠ ERROR_POSSIBLE_LEAK) || env.options.possible_leaks))).map
        (fun e => (e.id, e.count))) := by
  induction errors with
  | nil => rfl
  | cons e rest ih =>
    have ih2 := ih (fun x hx => hid x (List.mem_cons_of_mem _ hx))
    have he := hid e (List.mem_cons_self _ _)
    unfold report_summary_duplicates
    cases hl : duplicate_listed env e
    · have hl2 := hl
      unfold duplicate_listed at hl2
      simp only [Bool.false_eq_true, if_false, ih2, List.filter_cons, hl2]
    · have hl2 := hl
      unfold duplicate_listed at hl2
      simp only [if_true, gt_iff_lt, he hl, ih2, List.filter_cons, hl2, List.map_cons]

/-- C22, amended: when every record that is listed has an error number (as
`ASSERT(err->id > 0)` wants), the section of duplicate error counts holds, in
the order of the error list, one line `Error #N: C` for each record whose count
`C` is above 1, that is not suppressed, and that is not a possible leak unless
`-possible_leaks` is on; so no line for a record whose count is 0 or 1. -/
theorem C22_duplicate_lines (env : report_env) (errors : List stored_error_t)
    (hid : ∀ e ∈ errors, duplicate_listed env e = true → 0 < e.id) :
    report_summary_duplicates env errors = .ok
      ((errors.filter (fun e => decide (e.count > 1) && !e.suppressed &&
          (decide (e.errtype ≠ ERROR_POSSIBLE_LEAK) || env.options.possible_leaks))).map
        (fun e => (e.id, e.count))) :=
  report_summary_duplicates_ok env errors hid

theorem C22_duplicate_lines_witness :
    report_summary_duplicates (env_of options_unlimited)
      (state_after (env_of options_unlimited) (report_state.init supp_globals.init)
        calls_three).errors = .ok [(1, 2)] :=
  (C22_duplicate_lines (env_of options_unlimited)
    (state_after (env_of options_unlimited) (report_state.init supp_globals.init)
      calls_three).errors (by decide)).trans (by decide)

/-! ## The count of a record and the `record_error` calls -/

theorem occurrence_outcome_record {env : report_env} {supp_list : List (List suppress_spec_t)}
    {error_id type : Nat} {pcs : packed_callstack_t} {e e1 : stored_error_t} {error_id1 : Nat}
    (h : occurrence_outcome env supp_list error_id type pcs e e1 error_id1) :
    e1.errtype = e.errtype ∧ e1.pcs = e.pcs ∧ e1.count = uint_inc e.count := by
  rcases h with ⟨_, h1, _⟩ | ⟨_, _, h1, _⟩ | ⟨_, _, _, _, h1, _⟩ | ⟨_, _, _, h1, _⟩ <;>
    rw [h1] <;> exact ⟨rfl, rfl, rfl⟩

theorem nodup_keys_index {errors : List stored_error_t}
    (hnd : (errors.map (fun e => (e.errtype, e.pcs))).Nodup)
    {i j : Nat} {x y : stored_error_t} (hx : errors[i]? = some x) (hy : errors[j]? = some y)
    (hk : (x.errtype, x.pcs) = (y.errtype, y.pcs)) : i = j := by
  have hlt : ∀ {k : Nat} {z : stored_error_t}, errors[k]? = some z →
      k < (errors.map (fun e => (e.errtype, e.pcs))).length := by
    intro k z hz
    by_contra hc
    rw [List.getElem?_eq_none (by simpa using hc)] at hz
    cases hz
  have e1 : (errors.map (fun e => (e.errtype, e.pcs)))[i]? = some (x.errtype, x.pcs) := by
    rw [List.getElem?_map, hx]; rfl
  have e2 : (errors.map (fun e => (e.errtype, e.pcs)))[j]? = some (x.errtype, x.pcs) := by
    rw [List.getElem?_map, hy, hk]; rfl
  rw [List.getElem?_eq_getElem (hlt hx)] at e1
  rw [List.getElem?_eq_getElem (hlt hy)] at e2
  exact (List.Nodup.getElem_inj_iff hnd).1 ((Option.some.inj e1).trans (Option.some.inj e2).symm)

/-- A `record_error` call for the pair (`type`, `pcs`), with whatever its caller
then does to the id and the suppressed flag of the record, keeps the table in
agreement with the log to which the call is added. -/
theorem log_inv_record (errors : List stored_error_t) (log : record_log) (type : Nat)
    (pcs : packed_callstack_t) (base : List stored_error_t) (i : Nat) (e e1 : stored_error_t)
    (hinv : log_inv errors log) (hslot : table_slot errors type pcs base i e)
    (hk : e1.errtype = e.errtype ∧ e1.pcs = e.pcs ∧ e1.count = uint_inc e.count) :
    log_inv (base.set i e1) ⟨log.recorded ++ [(type, pcs)], log.counted ++ [(type, pcs)]⟩ := by
  obtain ⟨h1, h2, h3, h4, h5⟩ := hinv
  obtain ⟨hb, ht, hp, hcase⟩ := hslot
  have key1 : (e1.errtype, e1.pcs) = (type, pcs) := by rw [hk.1, hk.2.1, ht, hp]
  have hsub : ∀ p ∈ log.counted ++ [(type, pcs)], p ∈ log.recorded ++ [(type, pcs)] := by
    intro p hp1
    rcases List.mem_append.1 hp1 with hp1 | hp1
    · exact List.mem_append_left _ (h4 p hp1)
    · exact List.mem_append_right _ hp1
  have hcnt : ∀ p : Nat × packed_callstack_t, p.1 ≠ ERROR_LEAK → p.1 ≠ ERROR_POSSIBLE_LEAK →
      (log.counted ++ [(type, pcs)]).count p = (log.recorded ++ [(type, pcs)]).count p := by
    intro p hp1 hp2
    rw [List.count_append, List.count_append, h5 p hp1 hp2]
  rcases hcase with ⟨_, hbase⟩ | ⟨hl, hbase, hi, he⟩
  · subst hbase
    have hmem : e ∈ base := mem_of_getElem? hb
    have hkeys : (base.set i e1).map (fun e => (e.errtype, e.pcs))
        = base.map (fun e => (e.errtype, e.pcs)) :=
      map_set_same _ _ _ e _ hb (by simp only [hk.1, hk.2.1])
    refine ⟨by rw [hkeys]; exact h1, ?_, ?_, hsub, hcnt⟩
    · intro x hx
      rcases mem_set_cases _ _ _ _ hx with hx | ⟨j, hji, hj⟩
      · subst hx
        have hc := h2 e hmem
        rw [ht, hp] at hc
        simp only [key1, hk.2.2, List.count_append, List.count_singleton_self, hc, uint_inc]
        omega
      · have hne : (x.errtype, x.pcs) ≠ (type, pcs) := by
          intro hq
          exact hji (nodup_keys_index h1 hj hb (by rw [hq, ht, hp]))
        have hc := h2 x (mem_of_getElem? hj)
        simp only [List.count_append, List.count_singleton, hc]
        simp [hne.symm]
    · intro p
      rw [hkeys, h3 p, List.mem_append, List.mem_singleton]
      constructor
      · exact Or.inl
      · rintro (hq | hq)
        · exact hq
        · rw [hq, ← h3]
          exact List.mem_map.2 ⟨e, hmem, by rw [ht, hp]⟩
  · subst hbase hi he
    have hnew := (hashtable_lookup_none errors type pcs).1 hl
    have hnk : (type, pcs) ∉ errors.map (fun e => (e.errtype, e.pcs)) := by
      intro hq
      obtain ⟨x, hx, hxk⟩ := List.mem_map.1 hq
      exact hnew x hx ⟨congrArg Prod.fst hxk, congrArg Prod.snd hxk⟩
    have hnr : (type, pcs) ∉ log.recorded := fun hq => hnk ((h3 _).2 hq)
    have hnc : (type, pcs) ∉ log.counted := fun hq => hnr (h4 _ hq)
    rw [set_length_append]
    refine ⟨?_, ?_, ?_, hsub, hcnt⟩
    · simp only [List.map_append, List.map_cons, List.map_nil, key1]
      refine List.Nodup.append h1 (List.nodup_singleton _) ?_
      intro p hp1 hq
      rw [List.mem_singleton] at hq
      subst hq
      exact hnk hp1
    · intro x hx
      rcases List.mem_append.1 hx with hx | hx
      · have hne : (x.errtype, x.pcs) ≠ (type, pcs) := fun hq =>
          hnew x hx ⟨congrArg Prod.fst hq, congrArg Prod.snd hq⟩
        have hc := h2 x hx
        simp only [List.count_append, List.count_singleton, hc]
        simp [hne.symm]
      · rw [List.mem_singleton] at hx
        subst hx
        simp only [key1, hk.2.2, List.count_append, List.count_singleton_self,
          List.count_eq_zero_of_not_mem hnc]
        rfl
    · intro p
      simp only [List.map_append, List.map_cons, List.map_nil, key1, List.mem_append,
        List.mem_singleton, h3 p]

/-- The `record_error` call of `report_leak_locked`: it is made exactly under
`-check_leaks` for a kind of the enum, with the callstack of the allocation. -/
theorem report_leak_locked_record (env : report_env) (st st1 : report_state) (type : Nat)
    (size indirect_size : Nat) (maybe_reachable : Bool) (pcs : Option packed_callstack_t)
    (hm : type < ERROR_MAX_VAL → (type = ERROR_POSSIBLE_LEAK ↔ maybe_reachable = true))
    (h : report_leak_locked env st type size indirect_size maybe_reachable pcs = .ok st1) :
    (¬ (env.options.check_leaks = true ∧ type < ERROR_MAX_VAL) ∧ st1.errors = st.errors) ∨
    (env.options.check_leaks = true ∧ type < ERROR_MAX_VAL ∧
      ∃ p base i e e1, pcs = some p ∧ table_slot st.errors type p base i e ∧
        st1.errors = base.set i e1 ∧
        e1.errtype = e.errtype ∧ e1.pcs = e.pcs ∧ e1.count = uint_inc e.count) := by
  unfold report_leak_locked at h
  split at h
  · rename_i hcl
    split at h
    · cases h
    · rename_i p
      split at h
      · rename_i ht
        obtain ⟨_, base, i, e, e1, h2, h3, h4⟩ :=
          report_leak_checked_shape env st st1 type size indirect_size maybe_reachable p
            (hm ht) h
        exact Or.inr ⟨hcl, ht, p, base, i, e, e1, rfl, h2, h3, occurrence_outcome_record h4⟩
      · rename_i ht
        cases h
        exact Or.inl ⟨fun hq => ht hq.2, rfl⟩
  · rename_i hcl
    split at h
    · cases h
      exact Or.inl ⟨fun hq => hcl hq.1,
        by simp only [count_leak_bytes_errors, report_leak_print_errors]⟩
    · cases h
      exact Or.inl ⟨fun hq => hcl hq.1, rfl⟩

/-- The `record_error` call of `report_leak`, and what it does to the table:
when `record_error_call` gives none the table is as before, and when it gives a
pair the record of that pair has its count incremented. -/
theorem report_leak_record (env : report_env) (st st1 : report_state) (known_malloc : Bool)
    (size indirect_size : Nat) (early reachable maybe_reachable : Bool)
    (pcs : Option packed_callstack_t)
    (h : report_leak env st known_malloc size indirect_size early reachable maybe_reachable pcs
          = .ok st1) :
    (record_error_call env st
        (.leak known_malloc size indirect_size early reachable maybe_reachable pcs) = none ∧
      st1.errors = st.errors) ∨
    (∃ type p base i e e1,
      record_error_call env st
        (.leak known_malloc size indirect_size early reachable maybe_reachable pcs)
          = some (type, p) ∧
      table_slot st.errors type p base i e ∧ st1.errors = base.set i e1 ∧
      e1.errtype = e.errtype ∧ e1.pcs = e.pcs ∧ e1.count = uint_inc e.count) := by
  have hlabel : ∀ (s : report_state) (r : Bool),
      report_leak_counted env s true size indirect_size early r maybe_reachable pcs
        = .ok st1 → s.errors = st.errors → st1.errors = st.errors := by
    intro s r hc hs
    unfold report_leak_counted at hc
    split at hc
    · cases hc; exact hs
    · simp only [if_true] at hc
      rcases report_leak_locked_record env _ st1 _ size indirect_size maybe_reachable pcs
        (fun hlt => absurd hlt (by decide)) hc with ⟨_, h1⟩ | ⟨_, hlt, _⟩
      · rw [h1]; exact hs
      · exact absurd hlt (by decide)
  unfold report_leak at h
  cases reachable
  · simp only [Bool.false_eq_true, if_false] at h
    cases known_malloc
    · left
      refine ⟨by simp [record_error_call], ?_⟩
      simp only [if_true] at h
      split at h
      · cases h; rfl
      · exact hlabel _ _ h rfl
    · simp only [Bool.true_eq_false, if_false] at h
      unfold report_leak_counted at h
      by_cases hthr : 0 ≤ env.options.report_leak_max ∧
          env.options.report_leak_max ≤ (st.num_total_leaks : Int)
      · left
        simp only [hthr, and_self, if_true] at h
        cases h
        exact ⟨by simp [record_error_call, hthr], rfl⟩
      · simp only [hthr, if_false, Bool.false_eq_true] at h
        by_cases hearly : early = true ∧ env.options.ignore_early_leaks = true
        · left
          simp only [hearly, and_self, if_true] at h
          rcases report_leak_locked_record env _ st1 _ size indirect_size maybe_reachable pcs
            (fun hlt => absurd hlt (by decide)) h with ⟨_, h1⟩ | ⟨_, hlt, _⟩
          · exact ⟨by simp [record_error_call, hthr, hearly], h1⟩
          · exact absurd hlt (by decide)
        · have hearly2 : ¬ (early = true ∧ true ∧ env.options.ignore_early_leaks = true) :=
            fun hq => hearly ⟨hq.1, hq.2.2⟩
          simp only [true_and, hearly, if_false] at h
          have hrc : record_error_call env st
              (.leak true size indirect_size early false maybe_reachable pcs)
              = if env.options.check_leaks then
                  pcs.map (fun p =>
                    (if maybe_reachable then ERROR_POSSIBLE_LEAK else ERROR_LEAK, p))
                else none := by
            simp only [record_error_call, Bool.false_eq_true, Bool.true_eq_false, or_self,
              if_false, hthr, true_and, hearly]
          rw [hrc]
          have hfin : ∀ type : Nat, type < ERROR_MAX_VAL →
              (type = ERROR_POSSIBLE_LEAK ↔ maybe_reachable = true) →
              type = (if maybe_reachable then ERROR_POSSIBLE_LEAK else ERROR_LEAK) →
              report_leak_locked env
                { st with num_total_leaks := uint_inc st.num_total_leaks } type size
                indirect_size maybe_reachable pcs = .ok st1 →
              ((if env.options.check_leaks then
                  pcs.map (fun p =>
                    (if maybe_reachable then ERROR_POSSIBLE_LEAK else ERROR_LEAK, p))
                else none) = none ∧ st1.errors = st.errors) ∨
              (∃ type p base i e e1,
                (if env.options.check_leaks then
                  pcs.map (fun p =>
                    (if maybe_reachable then ERROR_POSSIBLE_LEAK else ERROR_LEAK, p))
                else none) = some (type, p) ∧
                table_slot st.errors type p base i e ∧ st1.errors = base.set i e1 ∧
                e1.errtype = e.errtype ∧ e1.pcs = e.pcs ∧ e1.count = uint_inc e.count) := by
            intro type hlt hm hty hc
            rcases report_leak_locked_record env _ st1 type size indirect_size maybe_reachable
              pcs (fun _ => hm) hc with ⟨hn, h1⟩ | ⟨hcl, _, p, base, i, e, e1, hp, h2⟩
            · left
              have hcl : env.options.check_leaks = false := by
                cases hq : env.options.check_leaks
                · rfl
                · exact absurd ⟨hq, hlt⟩ hn
              exact ⟨by simp [hcl], h1⟩
            · right
              refine ⟨type, p, base, i, e, e1, ?_, h2⟩
              simp only [hcl, if_true, hp, Option.map_some', hty]
          cases maybe_reachable
          · simp only [Bool.false_eq_true, if_false] at h
            exact hfin ERROR_LEAK (by decide)
              ⟨fun hq => absurd hq (by decide), fun hq => absurd hq (by decide)⟩ rfl h
          · simp only [if_true] at h
            exact hfin ERROR_POSSIBLE_LEAK (by decide) ⟨fun _ => rfl, fun _ => rfl⟩ rfl h
  · left
    refine ⟨by simp [record_error_call], ?_⟩
    simp only [if_true] at h
    split at h
    · exact hlabel _ _ h rfl
    · cases h; rfl

theorem log_inv_revert (st : report_state) (log : record_log) (hinv : log_inv st.errors log) :
    log_inv (report_leak_stats_revert st).errors
      ⟨log.recorded,
       log.counted.filter (fun p => p.1 != ERROR_LEAK && p.1 != ERROR_POSSIBLE_LEAK)⟩ := by
  obtain ⟨h1, h2, h3, h4, h5⟩ := hinv
  have hkeys : (report_leak_stats_revert st).errors.map (fun e => (e.errtype, e.pcs))
      = st.errors.map (fun e => (e.errtype, e.pcs)) := by
    simp only [report_leak_stats_revert, List.map_map]
    apply List.map_congr_left
    intro e _
    simp only [Function.comp]
    split <;> rfl
  have hkeep : ∀ p : Nat × packed_callstack_t, p.1 ≠ ERROR_LEAK → p.1 ≠ ERROR_POSSIBLE_LEAK →
      (log.counted.filter (fun p => p.1 != ERROR_LEAK && p.1 != ERROR_POSSIBLE_LEAK)).count p
        = log.counted.count p := by
    intro p hp1 hp2
    exact List.count_filter (by simp [hp1, hp2])
  refine ⟨by rw [hkeys]; exact h1, ?_, by rw [hkeys]; exact h3, ?_, ?_⟩
  · intro x hx
    simp only [report_leak_stats_revert, List.mem_map] at hx
    obtain ⟨e, he, hxe⟩ := hx
    by_cases hleak : e.errtype = ERROR_LEAK ∨ e.errtype = ERROR_POSSIBLE_LEAK
    · rw [if_pos hleak] at hxe
      subst hxe
      have hnot : (e.errtype, e.pcs) ∉
          log.counted.filter (fun p => p.1 != ERROR_LEAK && p.1 != ERROR_POSSIBLE_LEAK) := by
        intro hm
        have := (List.mem_filter.1 hm).2
        rcases hleak with hl | hl <;> simp [hl] at this
      simp only [List.count_eq_zero_of_not_mem hnot]
      rfl
    · rw [if_neg hleak] at hxe
      subst hxe
      rw [hkeep _ (fun hq => hleak (Or.inl hq)) (fun hq => hleak (Or.inr hq))]
      exact h2 e he
  · intro p hp
    exact h4 p (List.mem_filter.1 hp).1
  · intro p hp1 hp2
    rw [hkeep p hp1 hp2]
    exact h5 p hp1 hp2

/-- One call of an entry point keeps the table in agreement with the log of the
`record_error` calls. -/
theorem log_inv_step (env : report_env) (st st1 : report_state) (log : record_log)
    (c : report_call) (hinv : log_inv st.errors log) (h : report_step env st c = .ok st1) :
    log_inv st1.errors (record_log_step env st log c) := by
  cases c with
  | error type pcs =>
    simp only [report_step] at h
    rcases report_error_cases env st st1 type pcs h with ⟨h0, h1, hst⟩ |
      ⟨hthr, base, i, e, hslot, hcases⟩
    · have hlog : record_log_step env st log (.error type pcs) = log := by
        simp [record_log_step, record_error_call, h0, h1]
      rw [hlog, hst]
      exact hinv
    · have hlog : record_log_step env st log (.error type pcs)
          = ⟨log.recorded ++ [(type, pcs)], log.counted ++ [(type, pcs)]⟩ := by
        simp only [record_log_step, record_error_call, hthr, if_false]
      rw [hlog]
      rcases hcases with ⟨_, _, hst⟩ | ⟨_, _, _, hst⟩ | ⟨_, _, _, _, hst⟩ |
        ⟨out, _, _, _, _, hst⟩ <;>
      · rw [hst]
        exact log_inv_record st.errors log type pcs base i e _ hinv hslot ⟨rfl, rfl, rfl⟩
  | leak known_malloc size indirect_size early reachable maybe_reachable pcs =>
    simp only [report_step] at h
    rcases report_leak_record env st st1 known_malloc size indirect_size early reachable
      maybe_reachable pcs h with ⟨hn, he⟩ | ⟨type, p, base, i, e, e1, hs, hslot, hset, hk⟩
    · have hlog : record_log_step env st log
          (.leak known_malloc size indirect_size early reachable maybe_reachable pcs) = log := by
        simp only [record_log_step, hn]
      rw [hlog, he]
      exact hinv
    · have hlog : record_log_step env st log
          (.leak known_malloc size indirect_size early reachable maybe_reachable pcs)
          = ⟨log.recorded ++ [(type, p)], log.counted ++ [(type, p)]⟩ := by
        simp only [record_log_step, hs]
      rw [hlog, hset]
      exact log_inv_record st.errors log type p base i e e1 hinv hslot hk
  | checkpoint =>
    simp only [report_step] at h
    cases h
    exact hinv
  | revert =>
    simp only [report_step] at h
    cases h
    exact log_inv_revert st log hinv
  | fork_init =>
    simp only [report_step] at h
    cases h
    refine ⟨List.nodup_nil, ?_, ?_, ?_, ?_⟩
    · intro e he; cases he
    · intro p; simp [report_fork_init, record_log_step]
    · intro p hp; cases hp
    · intro p _ _; rfl

theorem record_calls_inv (env : report_env) :
    ∀ (calls : List report_call) (st st1 : report_state) (log : record_log),
      log_inv st.errors log → report_run env st calls = .ok st1 →
      log_inv st1.errors (record_calls env st log calls)
  | [], st, st1, log, hinv, h => by
    simp only [report_run] at h
    cases h
    exact hinv
  | c :: cs, st, st1, log, hinv, h => by
    simp only [report_run] at h
    cases hs : report_step env st c with
    | error e => rw [hs] at h; cases h
    | ok st2 =>
      rw [hs] at h
      simp only [record_calls, hs]
      exact record_calls_inv env cs st2 st1 _ (log_inv_step env st st2 log c hinv hs) h

/-- C11, counterexample: a leak is reported, the leak statistics are reverted,
and the same leak is reported again, from the start of the process:
`record_error` is called twice for the pair (`LEAK`, callstack 7), by the first
and by the third call, and the count of its record is 1, not 2. -/
theorem C11_counterexample :
    ((report_run (env_of options_unlimited) (report_state.init supp_globals.init)
        [.leak true 8 0 false false false (some [7]), .revert,
         .leak true 8 0 false false false (some [7])]).map
      (fun s => s.errors.map (fun e => (e.errtype, e.pcs, e.count))))
      = .ok [(ERROR_LEAK, [7], 1)] ∧
    (record_calls (env_of options_unlimited) (report_state.init supp_globals.init) ⟨[], []⟩
        [.leak true 8 0 false false false (some [7]), .revert,
         .leak true 8 0 false false false (some [7])]).recorded
      = [(ERROR_LEAK, [7]), (ERROR_LEAK, [7])] ∧
    ((record_error (report_state.init supp_globals.init) ERROR_LEAK [7]).bind
        (fun r => record_error (report_leak_stats_revert r.1) ERROR_LEAK [7])).map
      (fun r => r.1.errors.map (fun e => (e.errtype, e.pcs, e.count)))
      = .ok [(ERROR_LEAK, [7], 1)] := by
  decide

/-- C11, amended: after any sequence of calls of the entry points
(`report_error`, `report_leak`, the checkpoint, the revert, `report_fork_init`)
from the start of the process, the error table holds exactly one record for
each (kind, callstack) pair that `record_error` was called with since the start
or the last `report_fork_init`, and no other record; the count of a record is
the number of the `record_error` calls made for its pair since then, as a
`uint`, except that for a record of the kind `LEAK` or `POSSIBLE LEAK` only the
calls since the last `report_leak_stats_revert` are counted. -/
theorem C11_one_record_per_pair (env : report_env) (supp : supp_globals)
    (calls : List report_call) (st : report_state)
    (h : report_run env (report_state.init supp) calls = .ok st) :
    (st.errors.map (fun e => (e.errtype, e.pcs))).Nodup ∧
    (∀ p, p ∈ st.errors.map (fun e => (e.errtype, e.pcs)) ↔
      p ∈ (record_calls env (report_state.init supp) ⟨[], []⟩ calls).recorded) ∧
    (∀ e ∈ st.errors, e.count =
      (record_calls env (report_state.init supp) ⟨[], []⟩ calls).counted.count
        (e.errtype, e.pcs) % 2 ^ 32) ∧
    (∀ e ∈ st.errors, e.errtype ≠ ERROR_LEAK → e.errtype ≠ ERROR_POSSIBLE_LEAK →
      e.count =
        (record_calls env (report_state.init supp) ⟨[], []⟩ calls).recorded.count
          (e.errtype, e.pcs) % 2 ^ 32) := by
  have hinit : log_inv (report_state.init supp).errors ⟨[], []⟩ := by
    refine ⟨List.nodup_nil, ?_, ?_, ?_, ?_⟩
    · intro e he; cases he
    · intro p; simp [report_state.init]
    · intro p hp; cases hp
    · intro p _ _; rfl
  obtain ⟨h1, h2, h3, _, h5⟩ := record_calls_inv env calls _ st _ hinit h
  refine ⟨h1, h3, h2, ?_⟩
  intro e he hn1 hn2
  rw [← h5 (e.errtype, e.pcs) hn1 hn2]
  exact h2 e he

theorem C11_one_record_per_pair_witness :
    (state_after (env_of options_unlimited) (report_state.init supp_globals.init)
        calls_leak_revert_leak).errors.map (fun e => (e.errtype, e.pcs, e.count))
      = [(ERROR_LEAK, [7], 1), (ERROR_UNADDRESSABLE, [1], 2)] ∧
    (record_calls (env_of options_unlimited) (report_state.init supp_globals.init) ⟨[], []⟩
        calls_leak_revert_leak).counted
      = [(ERROR_LEAK, [7]), (ERROR_UNADDRESSABLE, [1]), (ERROR_UNADDRESSABLE, [1])] ∧
    ∀ e ∈ (state_after (env_of options_unlimited) (report_state.init supp_globals.init)
        calls_leak_revert_leak).errors,
      e.count =
        (record_calls (env_of options_unlimited) (report_state.init supp_globals.init) ⟨[], []⟩
          calls_leak_revert_leak).counted.count (e.errtype, e.pcs) % 2 ^ 32 :=
  ⟨by decide, by decide,
   (C11_one_record_per_pair (env_of options_unlimited) supp_globals.init calls_leak_revert_leak
     (state_after (env_of options_unlimited) (report_state.init supp_globals.init)
       calls_leak_revert_leak) rfl).2.2.1⟩

/-- A `report_error` call changes no record of another kind. -/
theorem report_error_other_kinds (env : report_env) (st st1 : report_state) (type : Nat)
    (pcs : packed_callstack_t) (h : report_error env st type pcs = .ok st1)
    (x : stored_error_t) (hx : x.errtype ≠ type) : x ∈ st1.errors ↔ x ∈ st.errors := by
  have hc := report_error_change env st st1 type pcs h
  obtain ⟨_, hc⟩ := hc
  rcases hc with ⟨he, _⟩ | ⟨t, p, base, i, e, e1, ⟨ht, _⟩, hslot, hset, hout⟩
  · rw [he]
  · subst ht
    have he1 : e1.errtype = e.errtype := by
      rcases hout with ⟨_, h1, _⟩ | ⟨_, _, h1, _⟩ | ⟨_, _, _, _, h1, _⟩ | ⟨_, _, _, h1, _⟩ <;>
        rw [h1]
    have hbase : x ∈ base ↔ x ∈ st.errors := by
      rcases hslot.2.2.2 with ⟨_, hb⟩ | ⟨_, hb, _, _⟩
      · rw [hb]
      · rw [hb, List.mem_append, List.mem_singleton]
        constructor
        · rintro (h1 | h1)
          · exact h1
          · rw [h1] at hx; exact absurd rfl hx
        · exact Or.inl
    rw [hset, ← hbase]
    constructor
    · intro hm
      rcases mem_set_cases _ _ _ _ hm with h1 | ⟨j, _, hj⟩
      · rw [h1, he1, hslot.2.1] at hx; exact absurd rfl hx
      · exact mem_of_getElem? hj
    · intro hm
      obtain ⟨j, hj⟩ := List.mem_iff_getElem?.1 hm
      have hji : i ≠ j := by
        intro hij
        subst hij
        rw [hslot.1] at hj
        cases hj
        exact hx hslot.2.1
      exact List.mem_iff_getElem?.2 ⟨j, by rw [List.getElem?_set_ne hji]; exact hj⟩

/-- A call of `report_error` that is not throttled, in a state of the table
invariant where the count of the record of the pair, if there is one, is at
least 1 and does not wrap, and for a callstack whose rendering passes the
`ASSERT`s of the matcher: the call returns, and the table then holds the record
of the pair, with count 1 when the pair was not in the table and with its count
incremented when it was. -/
theorem report_error_records (env : report_env) (st : report_state) (type : Nat)
    (pcs : packed_callstack_t)
    (hthr : ¬ (0 ≤ env.options.report_max ∧
      env.options.report_max ≤ (st.num_reported_errors : Int)))
    (ht : type = ERROR_UNADDRESSABLE ∨ type = ERROR_UNDEFINED ∨
      type = ERROR_INVALID_HEAP_ARG ∨ type = ERROR_WARNING)
    (hinv : table_inv env st)
    (hv : suppression_verdict env st.supp.supp_list type pcs ≠ none)
    (hc : ∀ e ∈ st.errors, e.errtype = type → e.pcs = pcs →
      1 ≤ e.count ∧ e.count + 1 < 2 ^ 32) :
    ∃ st1, report_error env st type pcs = .ok st1 ∧
      ∃ e1 ∈ st1.errors, e1.errtype = type ∧ e1.pcs = pcs ∧
        (hashtable_lookup st.errors (stored_error_create type pcs) = none → e1.count = 1) ∧
        (∀ i e, hashtable_lookup st.errors (stored_error_create type pcs) = some i →
          st.errors[i]? = some e → e1.count = e.count + 1) := by
  have ht6 : type < ERROR_MAX_VAL := by
    rcases ht with h | h | h | h <;> rw [h] <;> decide
  cases hl : hashtable_lookup st.errors (stored_error_create type pcs) with
  | none =>
    cases hs : on_suppression_list env.nl st.supp.supp_list type
        (env.packed_callstack_print pcs) with
    | error x => exact absurd (by simp [suppression_verdict, hs]) hv
    | ok r =>
      obtain ⟨b, out⟩ := r
      cases b
      · refine ⟨_, report_error_new_reported env st type pcs out hthr ht hl hs, _,
          List.mem_append_right _ (List.mem_singleton_self _), rfl, rfl, fun _ => rfl, ?_⟩
        intro i e h
        cases h
      · refine ⟨_, report_error_new_suppressed env st type pcs out hthr ht hl hs, _,
          List.mem_append_right _ (List.mem_singleton_self _), rfl, rfl, fun _ => rfl, ?_⟩
        intro i e h
        cases h
  | some i =>
    obtain ⟨e, hei, hk1, hk2, _⟩ := hashtable_lookup_some st.errors type pcs i hl
    have hmem : e ∈ st.errors := mem_of_getElem? hei
    obtain ⟨c1, c2⟩ := hc e hmem hk1 hk2
    have hcnt : uint_inc e.count = e.count + 1 := uint_inc_of_lt c2
    have hgt : 1 < uint_inc e.count := by omega
    have hi : i < st.errors.length := by
      by_contra hcon
      rw [List.getElem?_eq_none (by omega)] at hei
      cases hei
    have hfin : ∀ st1 : report_state,
        st1.errors = st.errors.set i { e with count := uint_inc e.count } →
        ∃ e1 ∈ st1.errors, e1.errtype = type ∧ e1.pcs = pcs ∧
          ((some i : Option Nat) = none → e1.count = 1) ∧
          (∀ j x, (some i : Option Nat) = some j → st.errors[j]? = some x →
            e1.count = x.count + 1) := by
      intro st1 h1
      refine ⟨{ e with count := uint_inc e.count }, ?_, hk1, hk2, ?_, ?_⟩
      · rw [h1]
        exact List.mem_iff_getElem?.2 ⟨i, List.getElem?_set_self hi⟩
      · intro h; cases h
      · intro j x hj hx
        cases hj
        rw [hei] at hx
        cases hx
        exact hcnt
    cases hsup : e.suppressed
    · have hid : e.id ≠ 0 := by
        intro h0
        rcases hinv.2.1 e hmem h0 with h | ⟨h, _⟩
        · rw [hsup] at h; cases h
        · rw [hk1] at h
          rcases ht with h1 | h1 | h1 | h1 <;> rw [h1] at h <;> exact absurd h (by decide)
      exact ⟨_, report_error_dup_reported env st type pcs i e hthr ht6 hl hei hgt hsup hid,
        hfin _ rfl⟩
    · exact ⟨_, report_error_dup_suppressed env st type pcs i e hthr ht6 hl hei hgt hsup,
        hfin _ rfl⟩

theorem record_calls_length (env : report_env) :
    ∀ (calls : List report_call) (st : report_state) (log : record_log),
      (record_calls env st log calls).recorded.length ≤ log.recorded.length + calls.length
  | [], st, log => by simp [record_calls]
  | c :: cs, st, log => by
    simp only [record_calls, List.length_cons]
    cases hs : report_step env st c with
    | error e => simp only []; omega
    | ok st2 =>
      simp only []
      have h1 := record_calls_length env cs st2 (record_log_step env st log c)
      have h2 : (record_log_step env st log c).recorded.length ≤ log.recorded.length + 1 := by
        unfold record_log_step
        split
        · simp
        · simp
        · split
          · omega
          · simp
      omega

/-- In a state reached from the start of the process by fewer than 2^32 - 1
calls of the entry points, the table invariant holds and the count of every
record of a kind other than the leaks is at least 1 and does not wrap at the
next increment. -/
theorem reached_state_counts (env : report_env) (supp : supp_globals)
    (calls : List report_call) (st : report_state)
    (h : report_run env (report_state.init supp) calls = .ok st)
    (hlen : calls.length + 1 < 2 ^ 32) :
    table_inv env st ∧
    ∀ e ∈ st.errors, e.errtype ≠ ERROR_LEAK → e.errtype ≠ ERROR_POSSIBLE_LEAK →
      1 ≤ e.count ∧ e.count + 1 < 2 ^ 32 := by
  have hinv := (report_run_inv env calls (report_state.init supp) st
    (table_inv_init env supp) (by simp only [report_state.init]; omega) h).1
  have hinit : log_inv (report_state.init supp).errors ⟨[], []⟩ := by
    refine ⟨List.nodup_nil, ?_, ?_, ?_, ?_⟩
    · intro e he; cases he
    · intro p; simp [report_state.init]
    · intro p hp; cases hp
    · intro p _ _; rfl
  obtain ⟨_, h2, h3, _, h5⟩ := record_calls_inv env calls _ st _ hinit h
  have hl := record_calls_length env calls (report_state.init supp) ⟨[], []⟩
  simp only [List.length_nil, Nat.zero_add] at hl
  refine ⟨hinv, ?_⟩
  intro e he hn1 hn2
  have hc := h2 e he
  rw [h5 (e.errtype, e.pcs) hn1 hn2] at hc
  have hmem : (e.errtype, e.pcs) ∈
      (record_calls env (report_state.init supp) ⟨[], []⟩ calls).recorded :=
    (h3 _).1 (List.mem_map.2 ⟨e, he, rfl⟩)
  have hpos := List.count_pos_iff.2 hmem
  have hle := List.count_le_length (e.errtype, e.pcs)
    (record_calls env (report_state.init supp) ⟨[], []⟩ calls).recorded
  omega

/-- C33, counterexample: with `-report_max 1` and one error already reported,
`free(NULL)` with `-warn_null_ptr` records no warning, and `free` of the
address 8 records no invalid heap argument: the table still holds the one
record of the unaddressable access, and only `num_throttled_errors` is
incremented. -/
theorem C33_counterexample :
    (report_invalid_heap_arg (env_of { options_unlimited with report_max := 1 }) false true
        (state_after (env_of { options_unlimited with report_max := 1 })
          (report_state.init supp_globals.init) [.error ERROR_UNADDRESSABLE [1]])
        0 "free".toList [2]).map
      (fun s => (s.errors.map (fun e => (e.errtype, e.count)), s.num_throttled_errors))
      = .ok ([(ERROR_UNADDRESSABLE, 1)], 1) ∧
    (report_invalid_heap_arg (env_of { options_unlimited with report_max := 1 }) false true
        (state_after (env_of { options_unlimited with report_max := 1 })
          (report_state.init supp_globals.init) [.error ERROR_UNADDRESSABLE [1]])
        8 "free".toList [2]).map
      (fun s => (s.errors.map (fun e => (e.errtype, e.count)), s.num_throttled_errors))
      = .ok ([(ERROR_UNADDRESSABLE, 1)], 1) := by
  decide

/-- C33, amended: for a `NULL` pointer passed to the free routine (`free`, or
`HeapFree` on Windows), `report_invalid_heap_arg` does nothing when
`warn_null_ptr` is off, and otherwise reports a warning through
`report_warning`: unless the call is throttled by `-report_max`, the table then
holds the `WARNING` record of the callstack, with count 1 when it is new and
with its count incremented when it is not, and the records of every other kind,
`INVALID HEAP ARGUMENT` among them, are those it held before.  For every other
(address, routine) pair it reports through `report_error`: unless the call is
throttled, the table then holds the `INVALID HEAP ARGUMENT` record of the
callstack, with count 1 or with its count incremented, and the records of every
other kind, `WARNING` among them, are those it held before.  A throttled call
only increments `num_throttled_errors`.  The state is any state reached from
the start of the process by calls of the entry points (fewer than 2^32 - 1 of
them, so that no count wraps), and the rendering of the callstack is one on
which no `ASSERT` of the matcher fails. -/
theorem C33_free_null_is_a_warning (env : report_env) (supp : supp_globals)
    (calls : List report_call) (windows warn_null_ptr : Bool)
    (st : report_state) (addr : Nat) (routine : List Char) (pcs : packed_callstack_t)
    (hrun : report_run env (report_state.init supp) calls = .ok st)
    (hlen : calls.length + 1 < 2 ^ 32)
    (hv : ∀ type, type = ERROR_WARNING ∨ type = ERROR_INVALID_HEAP_ARG →
      suppression_verdict env st.supp.supp_list type pcs ≠ none) :
    (addr = 0 ∧ routine = (if windows then "HeapFree".toList else "free".toList) →
      (warn_null_ptr = false →
        report_invalid_heap_arg env windows warn_null_ptr st addr routine pcs = .ok st) ∧
      (warn_null_ptr = true →
        (0 ≤ env.options.report_max ∧
          env.options.report_max ≤ (st.num_reported_errors : Int)) →
        report_invalid_heap_arg env windows warn_null_ptr st addr routine pcs = .ok
          { st with num_throttled_errors := (st.num_throttled_errors + 1) % 2 ^ 32 }) ∧
      (warn_null_ptr = true →
        ¬ (0 ≤ env.options.report_max ∧
          env.options.report_max ≤ (st.num_reported_errors : Int)) →
        ∃ st1, report_invalid_heap_arg env windows warn_null_ptr st addr routine pcs
            = .ok st1 ∧
          (∃ e1 ∈ st1.errors, e1.errtype = ERROR_WARNING ∧ e1.pcs = pcs ∧
            (hashtable_lookup st.errors (stored_error_create ERROR_WARNING pcs) = none →
              e1.count = 1) ∧
            (∀ i e, hashtable_lookup st.errors (stored_error_create ERROR_WARNING pcs)
                = some i → st.errors[i]? = some e → e1.count = e.count + 1)) ∧
          ∀ x : stored_error_t, x.errtype ≠ ERROR_WARNING →
            (x ∈ st1.errors ↔ x ∈ st.errors))) ∧
    (¬ (addr = 0 ∧ routine = (if windows then "HeapFree".toList else "free".toList)) →
      ((0 ≤ env.options.report_max ∧
          env.options.report_max ≤ (st.num_reported_errors : Int)) →
        report_invalid_heap_arg env windows warn_null_ptr st addr routine pcs = .ok
          { st with num_throttled_errors := (st.num_throttled_errors + 1) % 2 ^ 32 }) ∧
      (¬ (0 ≤ env.options.report_max ∧
          env.options.report_max ≤ (st.num_reported_errors : Int)) →
        ∃ st1, report_invalid_heap_arg env windows warn_null_ptr st addr routine pcs
            = .ok st1 ∧
          (∃ e1 ∈ st1.errors, e1.errtype = ERROR_INVALID_HEAP_ARG ∧ e1.pcs = pcs ∧
            (hashtable_lookup st.errors (stored_error_create ERROR_INVALID_HEAP_ARG pcs)
                = none → e1.count = 1) ∧
            (∀ i e, hashtable_lookup st.errors (stored_error_create ERROR_INVALID_HEAP_ARG pcs)
                = some i → st.errors[i]? = some e → e1.count = e.count + 1)) ∧
          ∀ x : stored_error_t, x.errtype ≠ ERROR_INVALID_HEAP_ARG →
            (x ∈ st1.errors ↔ x ∈ st.errors))) := by
  obtain ⟨hinv, hcount⟩ := reached_state_counts env supp calls st hrun hlen
  constructor
  · intro hnull
    have heq : warn_null_ptr = true →
        report_invalid_heap_arg env windows warn_null_ptr st addr routine pcs =
          report_error env st ERROR_WARNING pcs := by
      intro hw
      simp only [report_invalid_heap_arg, hnull, and_self, if_true, report_warning, hw]
    refine ⟨?_, ?_, ?_⟩
    · intro hw
      simp only [report_invalid_heap_arg, hnull, and_self, if_true, hw, Bool.false_eq_true,
        if_false]
    · intro hw hthr
      rw [heq hw]
      exact report_error_throttled env st ERROR_WARNING pcs hthr.1 hthr.2
    · intro hw hthr
      rw [heq hw]
      obtain ⟨st1, h1, h2⟩ := report_error_records env st ERROR_WARNING pcs hthr
        (Or.inr (Or.inr (Or.inr rfl))) hinv (hv _ (Or.inl rfl))
        (fun e he hk _ => hcount e he (by rw [hk]; decide) (by rw [hk]; decide))
      exact ⟨st1, h1, h2, fun x hx => report_error_other_kinds env st st1 _ pcs h1 x hx⟩
  · intro hnull
    have heq : report_invalid_heap_arg env windows warn_null_ptr st addr routine pcs =
        report_error env st ERROR_INVALID_HEAP_ARG pcs := by
      simp only [report_invalid_heap_arg, hnull, if_false]
    refine ⟨?_, ?_⟩
    · intro hthr
      rw [heq]
      exact report_error_throttled env st ERROR_INVALID_HEAP_ARG pcs hthr.1 hthr.2
    · intro hthr
      rw [heq]
      obtain ⟨st1, h1, h2⟩ := report_error_records env st ERROR_INVALID_HEAP_ARG pcs hthr
        (Or.inr (Or.inr (Or.inl rfl))) hinv (hv _ (Or.inr rfl))
        (fun e he hk _ => hcount e he (by rw [hk]; decide) (by rw [hk]; decide))
      exact ⟨st1, h1, h2, fun x hx => report_error_other_kinds env st st1 _ pcs h1 x hx⟩

theorem C33_free_null_is_a_warning_witness :
    ∃ st1, report_invalid_heap_arg (env_of options_unlimited) false true
        (state_after (env_of options_unlimited) (report_state.init supp_globals.init)
          [.error ERROR_WARNING [1]]) 0 "free".toList [1] = .ok st1 ∧
      (∃ e1 ∈ st1.errors, e1.errtype = ERROR_WARNING ∧ e1.pcs = [1] ∧
        (hashtable_lookup (state_after (env_of options_unlimited)
            (report_state.init supp_globals.init) [.error ERROR_WARNING [1]]).errors
            (stored_error_create ERROR_WARNING [1]) = none → e1.count = 1) ∧
        (∀ i e, hashtable_lookup (state_after (env_of options_unlimited)
            (report_state.init supp_globals.init) [.error ERROR_WARNING [1]]).errors
            (stored_error_create ERROR_WARNING [1]) = some i →
          (state_after (env_of options_unlimited) (report_state.init supp_globals.init)
            [.error ERROR_WARNING [1]]).errors[i]? = some e →
          e1.count = e.count + 1)) ∧
      ∀ x : stored_error_t, x.errtype ≠ ERROR_WARNING →
        (x ∈ st1.errors ↔ x ∈ (state_after (env_of options_unlimited)
          (report_state.init supp_globals.init) [.error ERROR_WARNING [1]]).errors) :=
  ((C33_free_null_is_a_warning (env_of options_unlimited) supp_globals.init
      [.error ERROR_WARNING [1]] false true
      (state_after (env_of options_unlimited) (report_state.init supp_globals.init)
        [.error ERROR_WARNING [1]]) 0 "free".toList [1]
      rfl (by decide)
      (by intro t h; rcases h with h | h <;> subst h <;> decide)).1 ⟨rfl, rfl⟩).2.2 rfl
    (by decide)

/-- C35: a leak that a suppression matches is reported once, the statistics
are checkpointed and reverted, and the same leak is reported again.  The revert
has cleared the count of the record and left it suppressed, so the second call
takes the record for a first occurrence: `record_error` does not count it in
`num_total` (the record is suppressed), and the suppression decrements
`num_total[ERROR_LEAK]` all the same, from 0 to 2^32 - 1. -/
theorem C35_suppressed_leak_decrements_twice :
    (report_run (env_of options_unlimited) (report_state.init supp_leak_foo)
        [.leak true 8 0 false false false (some [1]), .checkpoint]).map
      (fun s => (s.num_total, s.errors.map (fun e => (e.errtype, e.count, e.suppressed))))
      = .ok ([0, 0, 0, 0, 0, 0], [(ERROR_LEAK, 1, true)]) ∧
    (report_run (env_of options_unlimited) (report_state.init supp_leak_foo)
        [.leak true 8 0 false false false (some [1]), .checkpoint, .revert,
         .leak true 8 0 false false false (some [1])]).map
      (fun s => (s.num_total, s.errors.map (fun e => (e.errtype, e.count, e.suppressed))))
      = .ok ([0, 0, 0, 0, 4294967295, 0], [(ERROR_LEAK, 1, true)]) := by
  decide

/-- C37: in every state reached from the start of the process by calls of
`report_error`, `report_leak`, the checkpoint, the revert and
`report_fork_init` (fewer than 2^32 calls), a record that is not suppressed and
is not a possible leak (or is one while `-possible_leaks` is on) has `id > 0`,
whatever its count; so the loop of the duplicate error counts of
`report_summary_to_file` meets no failed `ASSERT(err->id > 0)`, and a record
that `report_error` finds as a duplicate that is not suppressed has `id != 0`:
the call passes the `ASSERT` and returns. -/
theorem C37_listed_records_have_ids (env : report_env) (supp : supp_globals)
    (calls : List report_call) (st1 : report_state)
    (hlen : calls.length < 2 ^ 32)
    (h : report_run env (report_state.init supp) calls = .ok st1) :
    (∀ e ∈ st1.errors, e.suppressed = false →
      (e.errtype ≠ ERROR_POSSIBLE_LEAK ∨ env.options.possible_leaks = true) → 0 < e.id) ∧
    (∃ lines, report_summary_duplicates env st1.errors = .ok lines) ∧
    (∀ type pcs i e, type < ERROR_MAX_VAL →
      (type ≠ ERROR_POSSIBLE_LEAK ∨ env.options.possible_leaks = true) →
      ¬ (0 ≤ env.options.report_max ∧
          env.options.report_max ≤ (st1.num_reported_errors : Int)) →
      hashtable_lookup st1.errors (stored_error_create type pcs) = some i →
      st1.errors[i]? = some e → 1 < uint_inc e.count → e.suppressed = false →
      e.id ≠ 0 ∧
      report_error env st1 type pcs = .ok
        { st1 with
          errors := st1.errors.set i { e with count := uint_inc e.count },
          num_total := array_inc st1.num_total type }) := by
  have hinv := (report_run_inv env calls (report_state.init supp) st1
    (table_inv_init env supp) (by simpa [report_state.init] using hlen) h).1
  have hids : ∀ e ∈ st1.errors, e.suppressed = false →
      (e.errtype ≠ ERROR_POSSIBLE_LEAK ∨ env.options.possible_leaks = true) → 0 < e.id := by
    intro e he hs hk
    by_contra h0
    have h0 : e.id = 0 := by omega
    rcases hinv.2.1 e he h0 with h1 | ⟨h1, h2⟩
    · rw [hs] at h1; cases h1
    · rcases hk with hk | hk
      · exact hk h1
      · rw [h2] at hk; cases hk
  refine ⟨hids, ⟨_, report_summary_duplicates_ok env st1.errors ?_⟩, ?_⟩
  · intro e he hl
    unfold duplicate_listed at hl
    simp only [Bool.and_eq_true, Bool.or_eq_true, decide_eq_true_eq, Bool.not_eq_true'] at hl
    exact hids e he hl.1.2 hl.2
  · intro type pcs i e ht hk hthr hl he hc hs
    obtain ⟨e2, he2, hk1, _, _⟩ := hashtable_lookup_some st1.errors type pcs i hl
    rw [he] at he2
    cases he2
    have hid : e.id ≠ 0 := by
      have := hids e (mem_of_getElem? he) hs (by rw [hk1]; exact hk)
      omega
    exact ⟨hid, report_error_dup_reported env st1 type pcs i e hthr ht hl he hc hs hid⟩

theorem C37_listed_records_have_ids_witness :
    ∃ lines, report_summary_duplicates (env_of options_unlimited)
      (state_after (env_of options_unlimited) (report_state.init supp_globals.init)
        calls_three).errors = .ok lines :=
  (C37_listed_records_have_ids (env_of options_unlimited) supp_globals.init calls_three
    (state_after (env_of options_unlimited) (report_state.init supp_globals.init) calls_three)
    (by decide) rfl).2.1

theorem count_leak_bytes_values (env : report_env) (st : report_state) (m : Bool) (s i : Nat) :
    (count_leak_bytes env st m s i).num_bytes_leaked =
      (if m = true then st.num_bytes_leaked
       else (st.num_bytes_leaked + (s + i)) % 2 ^ env.size_bits) ∧
    (count_leak_bytes env st m s i).num_bytes_possible_leaked =
      (if m = true then (st.num_bytes_possible_leaked + (s + i)) % 2 ^ env.size_bits
       else st.num_bytes_possible_leaked) := by
  unfold count_leak_bytes
  cases m
  · exact ⟨rfl, rfl⟩
  · exact ⟨rfl, rfl⟩

theorem report_leak_print_bytes (env : report_env) (st : report_state) (m : Bool)
    (n : Option Nat) :
    (report_leak_print env st m n).num_bytes_leaked = st.num_bytes_leaked ∧
    (report_leak_print env st m n).num_bytes_possible_leaked = st.num_bytes_possible_leaked ∧
    (report_leak_print env st m n).errors = st.errors := by
  unfold report_leak_print; split <;> exact ⟨rfl, rfl, rfl⟩

/-- The bytes that the recording part of `report_leak` counts, in a state with
the invariant of the error table: none when the record of the leak ends
suppressed, `size + indirect_size` otherwise. -/
theorem report_leak_checked_bytes (env : report_env) (st st1 : report_state) (type : Nat)
    (size indirect_size : Nat) (maybe_reachable : Bool) (pcs : packed_callstack_t)
    (hinv : table_inv env st)
    (h : report_leak_checked env st type size indirect_size maybe_reachable pcs = .ok st1) :
    ∃ (i : Nat) (e1 : stored_error_t), st1.errors[i]? = some e1 ∧ e1.errtype = type ∧
      e1.pcs = pcs ∧
      (e1.suppressed = true →
        st1.num_bytes_leaked = st.num_bytes_leaked ∧
        st1.num_bytes_possible_leaked = st.num_bytes_possible_leaked) ∧
      (e1.suppressed = false →
        st1.num_bytes_leaked =
          (if maybe_reachable = true then st.num_bytes_leaked
           else (st.num_bytes_leaked + (size + indirect_size)) % 2 ^ env.size_bits) ∧
        st1.num_bytes_possible_leaked =
          (if maybe_reachable = true then
             (st.num_bytes_possible_leaked + (size + indirect_size)) % 2 ^ env.size_bits
           else st.num_bytes_possible_leaked)) := by
  obtain ⟨base, i, e, hslot, hc⟩ := report_leak_checked_cases env st st1 type size
    indirect_size maybe_reachable pcs h
  have hi := table_slot_lt hslot
  have hnot : ∀ out, on_suppression_list env.nl st.supp.supp_list type
      (env.packed_callstack_print pcs) = .ok (false, out) → e.suppressed = false := by
    intro out hv
    cases hs : e.suppressed
    · rfl
    · exfalso
      rcases hslot.2.2.2 with ⟨_, hb⟩ | ⟨_, _, _, hb⟩
      · have hm : e ∈ st.errors := by
          have := hslot.1
          rw [hb] at this
          exact mem_of_getElem? this
        have := hinv.2.2 e hm hs
        rw [hslot.2.1, hslot.2.2.1] at this
        simp only [suppression_verdict, hv] at this
        cases this
      · rw [hb] at hs; cases hs
  rcases hc with ⟨_, hs, h1⟩ | ⟨_, hs, h1⟩ | ⟨_, _, h1⟩ | ⟨out, _, hv, _, _, h1⟩ |
    ⟨out, _, hv, _, h1⟩
  · subst h1
    refine ⟨i, _, List.getElem?_set_self hi, hslot.2.1, hslot.2.2.1, fun _ => ⟨rfl, rfl⟩, ?_⟩
    intro hf
    rw [hs] at hf; cases hf
  · subst h1
    refine ⟨i, { e with count := uint_inc e.count }, ?_, hslot.2.1, hslot.2.2.1, ?_, ?_⟩
    · rw [count_leak_bytes_errors]; exact List.getElem?_set_self hi
    · intro hf
      rw [hs] at hf; cases hf
    · intro _
      exact count_leak_bytes_values env _ maybe_reachable size indirect_size
  · subst h1
    refine ⟨i, _, List.getElem?_set_self hi, hslot.2.1, hslot.2.2.1, fun _ => ⟨rfl, rfl⟩, ?_⟩
    intro hf
    cases hf
  · subst h1
    refine ⟨i, { e with count := uint_inc e.count, id := (st.error_id + 1) % 2 ^ 32 }, ?_,
      hslot.2.1, hslot.2.2.1, ?_, ?_⟩
    · rw [(report_leak_print_bytes env _ _ _).2.2, count_leak_bytes_errors]
      exact List.getElem?_set_self hi
    · intro hf
      rw [hnot out hv] at hf; cases hf
    · intro _
      rw [(report_leak_print_bytes env _ _ _).1, (report_leak_print_bytes env _ _ _).2.1]
      exact count_leak_bytes_values env _ maybe_reachable size indirect_size
  · subst h1
    refine ⟨i, { e with count := uint_inc e.count }, ?_, hslot.2.1, hslot.2.2.1, ?_, ?_⟩
    · rw [(report_leak_print_bytes env _ _ _).2.2, count_leak_bytes_errors]
      exact List.getElem?_set_self hi
    · intro hf
      rw [hnot out hv] at hf; cases hf
    · intro _
      rw [(report_leak_print_bytes env _ _ _).1, (report_leak_print_bytes env _ _ _).2.1]
      exact count_leak_bytes_values env _ maybe_reachable size indirect_size

theorem report_leak_labelled (env : report_env) (st st1 : report_state)
    (size indirect_size : Nat) (maybe_reachable : Bool) (pcs : Option packed_callstack_t)
    (hcl : env.options.check_leaks = true)
    (h : report_leak_locked env st ERROR_MAX_VAL size indirect_size maybe_reachable pcs
      = .ok st1) : st1 = st := by
  unfold report_leak_locked at h
  simp only [hcl, if_true, Nat.lt_irrefl, if_false] at h
  split at h
  · cases h
  · cases h; rfl

/-- The bytes that `report_leak_counted` counts, with `-check_leaks`. -/
theorem report_leak_counted_bytes (env : report_env) (st st1 : report_state) (label : Bool)
    (size indirect_size : Nat) (early reachable maybe_reachable : Bool)
    (pcs : Option packed_callstack_t)
    (hcl : env.options.check_leaks = true) (hinv : table_inv env st)
    (h : report_leak_counted env st label size indirect_size early reachable maybe_reachable pcs
          = .ok st1) :
    ((label = true ∨ (early = true ∧ reachable = false ∧ env.options.ignore_early_leaks = true) ∨
        (0 ≤ env.options.report_leak_max ∧
          env.options.report_leak_max ≤ (st.num_total_leaks : Int))) →
      st1.num_bytes_leaked = st.num_bytes_leaked ∧
      st1.num_bytes_possible_leaked = st.num_bytes_possible_leaked) ∧
    (label = false →
      ¬ (early = true ∧ reachable = false ∧ env.options.ignore_early_leaks = true) →
      ¬ (0 ≤ env.options.report_leak_max ∧
          env.options.report_leak_max ≤ (st.num_total_leaks : Int)) →
      ∃ (p : packed_callstack_t) (i : Nat) (e1 : stored_error_t),
        pcs = some p ∧ st1.errors[i]? = some e1 ∧
        e1.errtype = (if maybe_reachable = true then ERROR_POSSIBLE_LEAK else ERROR_LEAK) ∧
        e1.pcs = p ∧
        (e1.suppressed = true →
          st1.num_bytes_leaked = st.num_bytes_leaked ∧
          st1.num_bytes_possible_leaked = st.num_bytes_possible_leaked) ∧
        (e1.suppressed = false →
          st1.num_bytes_leaked =
            (if maybe_reachable = true then st.num_bytes_leaked
             else (st.num_bytes_leaked + (size + indirect_size)) % 2 ^ env.size_bits) ∧
          st1.num_bytes_possible_leaked =
            (if maybe_reachable = true then
               (st.num_bytes_possible_leaked + (size + indirect_size)) % 2 ^ env.size_bits
             else st.num_bytes_possible_leaked))) := by
  have real : ∀ (st2 : report_state) (type : Nat),
      report_leak_locked env st2 type size indirect_size maybe_reachable pcs = .ok st1 →
      table_inv env st2 → type < ERROR_MAX_VAL →
      ∃ (p : packed_callstack_t) (i : Nat) (e1 : stored_error_t),
        pcs = some p ∧ st1.errors[i]? = some e1 ∧ e1.errtype = type ∧ e1.pcs = p ∧
        (e1.suppressed = true →
          st1.num_bytes_leaked = st2.num_bytes_leaked ∧
          st1.num_bytes_possible_leaked = st2.num_bytes_possible_leaked) ∧
        (e1.suppressed = false →
          st1.num_bytes_leaked =
            (if maybe_reachable = true then st2.num_bytes_leaked
             else (st2.num_bytes_leaked + (size + indirect_size)) % 2 ^ env.size_bits) ∧
          st1.num_bytes_possible_leaked =
            (if maybe_reachable = true then
               (st2.num_bytes_possible_leaked + (size + indirect_size)) % 2 ^ env.size_bits
             else st2.num_bytes_possible_leaked)) := by
    intro st2 type hl hinv2 ht
    unfold report_leak_locked at hl
    simp only [hcl, if_true, ht] at hl
    split at hl
    · cases hl
    · rename_i p
      obtain ⟨i, e1, a1, a2, a3, a4, a5⟩ := report_leak_checked_bytes env st2 st1 type size
        indirect_size maybe_reachable p hinv2 hl
      exact ⟨p, i, e1, rfl, a1, a2, a3, a4, a5⟩
  unfold report_leak_counted at h
  split at h
  · rename_i hthr
    cases h
    exact ⟨fun _ => ⟨rfl, rfl⟩, fun _ _ hn => absurd hthr hn⟩
  · rename_i hthr
    cases label
    · simp only [Bool.false_eq_true, if_false] at h
      split at h
      · rename_i hearly
        have := report_leak_labelled env _ st1 size indirect_size maybe_reachable pcs hcl h
        subst this
        exact ⟨fun _ => ⟨rfl, rfl⟩, fun _ hn _ => absurd hearly hn⟩
      · rename_i hearly
        refine ⟨fun hc => ?_, fun _ _ _ => ?_⟩
        · rcases hc with hc | hc | hc
          · cases hc
          · exact absurd hc hearly
          · exact absurd hc hthr
        · cases maybe_reachable
          · simp only [Bool.false_eq_true, if_false] at h ⊢
            have r := real _ _ h hinv (by decide)
            exact r
          · simp only [if_true] at h ⊢
            have r := real _ _ h hinv (by decide)
            exact r
    · simp only [if_true] at h
      have := report_leak_labelled env _ st1 size indirect_size maybe_reachable pcs hcl h
      subst this
      exact ⟨fun _ => ⟨rfl, rfl⟩, fun hn => by cases hn⟩

/-- C40: with `-check_leaks`, in a state with the invariant of the error table,
a `report_leak` call that returns adds nothing to `num_bytes_leaked` and
`num_bytes_possible_leaked` when the leak is reachable, is not a known malloc,
is ignored as early or is throttled; otherwise the call has a record of the
kind `LEAK` (`POSSIBLE LEAK` when `maybe_reachable`) for the callstack, and it
adds nothing when that record is suppressed, and adds `size + indirect_size`
to `num_bytes_leaked` (to `num_bytes_possible_leaked` when `maybe_reachable`)
and nothing to the other total when the record is not suppressed, first
occurrence or duplicate (the totals are `size_t`: modulo 2^size_bits). -/
theorem C40_leak_bytes_counted (env : report_env) (st st1 : report_state)
    (known_malloc : Bool) (size indirect_size : Nat) (early reachable maybe_reachable : Bool)
    (pcs : Option packed_callstack_t)
    (hcl : env.options.check_leaks = true) (hinv : table_inv env st)
    (h : report_leak env st known_malloc size indirect_size early reachable maybe_reachable pcs
          = .ok st1) :
    ((reachable = true ∨ known_malloc = false ∨
        (early = true ∧ env.options.ignore_early_leaks = true) ∨
        (0 ≤ env.options.report_leak_max ∧
          env.options.report_leak_max ≤ (st.num_total_leaks : Int))) →
      st1.num_bytes_leaked = st.num_bytes_leaked ∧
      st1.num_bytes_possible_leaked = st.num_bytes_possible_leaked) ∧
    (reachable = false → known_malloc = true →
      ¬ (early = true ∧ env.options.ignore_early_leaks = true) →
      ¬ (0 ≤ env.options.report_leak_max ∧
          env.options.report_leak_max ≤ (st.num_total_leaks : Int)) →
      ∃ (p : packed_callstack_t) (i : Nat) (e1 : stored_error_t),
        pcs = some p ∧ st1.errors[i]? = some e1 ∧
        e1.errtype = (if maybe_reachable = true then ERROR_POSSIBLE_LEAK else ERROR_LEAK) ∧
        e1.pcs = p ∧
        (e1.suppressed = true →
          st1.num_bytes_leaked = st.num_bytes_leaked ∧
          st1.num_bytes_possible_leaked = st.num_bytes_possible_leaked) ∧
        (e1.suppressed = false →
          st1.num_bytes_leaked =
            (if maybe_reachable = true then st.num_bytes_leaked
             else (st.num_bytes_leaked + (size + indirect_size)) % 2 ^ env.size_bits) ∧
          st1.num_bytes_possible_leaked =
            (if maybe_reachable = true then
               (st.num_bytes_possible_leaked + (size + indirect_size)) % 2 ^ env.size_bits
             else st.num_bytes_possible_leaked))) := by
  unfold report_leak at h
  cases reachable
  · simp only [Bool.false_eq_true, if_false] at h
    cases known_malloc
    · simp only [if_true] at h
      split at h
      · cases h
        exact ⟨fun _ => ⟨rfl, rfl⟩, fun _ hn => by cases hn⟩
      · have hb := (report_leak_counted_bytes env st st1 true size indirect_size early false
          maybe_reachable pcs hcl hinv h).1 (Or.inl rfl)
        exact ⟨fun _ => hb, fun _ hn => by cases hn⟩
    · simp only [Bool.true_eq_false, if_false] at h
      obtain ⟨b1, b2⟩ := report_leak_counted_bytes env st st1 false size indirect_size early
        false maybe_reachable pcs hcl hinv h
      refine ⟨fun hc => ?_, fun _ _ hearly hthr => ?_⟩
      · rcases hc with hc | hc | hc | hc
        · cases hc
        · cases hc
        · exact b1 (Or.inr (Or.inl ⟨hc.1, rfl, hc.2⟩))
        · exact b1 (Or.inr (Or.inr hc))
      · exact b2 rfl (fun hq => hearly ⟨hq.1, hq.2.2⟩) hthr
  · simp only [if_true] at h
    split at h
    · have hb := (report_leak_counted_bytes env
        { st with num_reachable_leaks := uint_inc st.num_reachable_leaks } st1 true size
        indirect_size early true maybe_reachable pcs hcl hinv h).1 (Or.inl rfl)
      exact ⟨fun _ => hb, fun hn => by cases hn⟩
    · cases h
      exact ⟨fun _ => ⟨rfl, rfl⟩, fun hn => by cases hn⟩

theorem C40_leak_bytes_counted_witness :
    (state_after (env_of options_unlimited) (report_state.init supp_globals.init)
      [.leak true 16 4 false false false (some [2])]).num_bytes_leaked = 20 ∧
    ((true = true ∨ true = false ∨
        (false = true ∧ (env_of options_unlimited).options.ignore_early_leaks = true) ∨
        (0 ≤ (env_of options_unlimited).options.report_leak_max ∧
          (env_of options_unlimited).options.report_leak_max
            ≤ ((report_state.init supp_globals.init).num_total_leaks : Int))) →
      (state_after (env_of options_unlimited) (report_state.init supp_globals.init)
        [.leak true 16 4 false true false (some [2])]).num_bytes_leaked
        = (report_state.init supp_globals.init).num_bytes_leaked ∧
      (state_after (env_of options_unlimited) (report_state.init supp_globals.init)
        [.leak true 16 4 false true false (some [2])]).num_bytes_possible_leaked
        = (report_state.init supp_globals.init).num_bytes_possible_leaked) :=
  ⟨by decide,
   (C40_leak_bytes_counted (env_of options_unlimited) (report_state.init supp_globals.init)
     (state_after (env_of options_unlimited) (report_state.init supp_globals.init)
       [.leak true 16 4 false true false (some [2])])
     true 16 4 false true false (some [2]) rfl
     (table_inv_init (env_of options_unlimited) supp_globals.init) rfl).1⟩

theorem probe_forward_some (h : heap_env) (n : Nat) (r : Nat × Nat) :
    ∀ (fuel start : Nat), probe_forward h n fuel start = .ok (some r) →
      r.1 < n ∧ ∃ size, h.malloc_size_include_invalid r.1 = some size ∧
        r.2 = (r.1 + size) % 2 ^ h.ptr_bits
  | 0, _, hp => by cases hp
  | fuel + 1, start, hp => by
    unfold probe_forward at hp
    split at hp
    · rename_i hlt
      split at hp
      · rename_i size hs
        cases hp
        exact ⟨hlt, size, hs, rfl⟩
      · exact probe_forward_some h n r fuel _ hp
    · cases hp

theorem probe_backward_some (h : heap_env) (p : Nat) (r : Nat × Nat) :
    ∀ (fuel start : Nat), probe_backward h p fuel start = .ok (some r) →
      p < r.1 ∧ ∃ size, h.malloc_size_include_invalid r.1 = some size ∧
        r.2 = (r.1 + size) % 2 ^ h.ptr_bits
  | 0, _, hp => by cases hp
  | fuel + 1, start, hp => by
    unfold probe_backward at hp
    split at hp
    · rename_i hlt
      split at hp
      · rename_i size hs
        cases hp
        exact ⟨hlt, size, hs, rfl⟩
      · exact probe_backward_some h p r fuel _ hp
    · cases hp

/-- C38, counterexample: no freed range overlaps the access to [8, 12), the
next higher malloc starts at 32, and the chunk at 16, of 8 bytes, has been
freed: the line says that 8-12 overlaps the freed memory 16-24, which it does
not intersect. -/
theorem C38_counterexample :
    report_heap_info_freed heap_freed_at_16 true (some 32) none 8 4 = .ok (some (16, 24)) ∧
    ¬ (16 < 8 + 4 ∧ 8 < 24) := by
  decide

/-- C38, amended: when `report_heap_info` writes the line "overlaps freed
memory", the range that it names is the one that `overlaps_delayed_free` has
found for [addr, addr+sz), or else it is a chunk that
`malloc_size_include_invalid` knows, met by the heuristic walk below the next
higher malloc or above the previous lower malloc, which need not intersect
[addr, addr+sz); and the line does not depend on whether a live neighbouring
malloc was found (`found` is assigned anew by `overlaps_delayed_free`). -/
theorem C38_freed_note_origin (h : heap_env) (found : Bool) (next_start prev_end : Option Nat)
    (addr sz : Nat) (r : Nat × Nat)
    (hres : report_heap_info_freed h found next_start prev_end addr sz = .ok (some r)) :
    report_heap_info_freed h (!found) next_start prev_end addr sz = .ok (some r) ∧
    (h.overlaps_delayed_free addr ((addr + sz) % 2 ^ h.ptr_bits) = some r ∨
     (h.overlaps_delayed_free addr ((addr + sz) % 2 ^ h.ptr_bits) = none ∧
      (∃ size, h.malloc_size_include_invalid r.1 = some size ∧
        r.2 = (r.1 + size) % 2 ^ h.ptr_bits) ∧
      ((∃ n, next_start = some n ∧ r.1 < n) ∨ (∃ p, prev_end = some p ∧ p < r.1)))) := by
  refine ⟨hres, ?_⟩
  unfold report_heap_info_freed at hres
  simp only [] at hres
  cases ho : h.overlaps_delayed_free addr ((addr + sz) % 2 ^ h.ptr_bits) with
  | some r1 =>
    rw [ho] at hres
    cases hres
    exact Or.inl rfl
  | none =>
    rw [ho] at hres
    simp only [] at hres
    refine Or.inr ⟨rfl, ?_⟩
    have back :
        (match prev_end with
          | some p => probe_backward h p (2 ^ h.ptr_bits + 1) (h.align_backward addr)
          | none => .ok none) = .ok (some r) →
        (∃ size, h.malloc_size_include_invalid r.1 = some size ∧
          r.2 = (r.1 + size) % 2 ^ h.ptr_bits) ∧
        ((∃ n, next_start = some n ∧ r.1 < n) ∨ (∃ p, prev_end = some p ∧ p < r.1)) := by
      intro hb
      cases prev_end with
      | none => cases hb
      | some p =>
        obtain ⟨b1, b2⟩ := probe_backward_some h p r _ _ hb
        exact ⟨b2, Or.inr ⟨p, rfl, b1⟩⟩
    cases next_start with
    | none =>
      simp only [] at hres
      exact back hres
    | some n =>
      simp only [] at hres
      cases hf : probe_forward h n (2 ^ h.ptr_bits + 1)
          (h.align_forward ((addr + sz) % 2 ^ h.ptr_bits)) with
      | error e => rw [hf] at hres; cases hres
      | ok o =>
        rw [hf] at hres
        cases o with
        | some r1 =>
          simp only [] at hres
          cases hres
          obtain ⟨b1, b2⟩ := probe_forward_some h n _ _ _ hf
          exact ⟨b2, Or.inl ⟨n, rfl, b1⟩⟩
        | none =>
          simp only [] at hres
          exact back hres

theorem C38_freed_note_origin_witness :
    report_heap_info_freed heap_freed_at_16 (!true) (some 32) none 8 4 = .ok (some (16, 24)) :=
  (C38_freed_note_origin heap_freed_at_16 true (some 32) none 8 4 (16, 24) (by decide)).1

/-! ## Claims on the suggested suppressions -/

/-- C23: for the two-frame stack `stack_foo_syscall`, whose second frame is a
system call, nothing matches and the text appended to the file of suggested
suppressions holds a symbolic stanza and an offset stanza of one frame line
each, `system call NtClose`: the search for `system call` from the first frame
finds the text of the second frame, and the first frame gets no line. -/
theorem C23_one_line_for_two_frames :
    on_suppression_list nl_unix supp_globals.init.supp_list ERROR_UNADDRESSABLE
        stack_foo_syscall
      = .ok (false,
          ("UNADDRESSABLE ACCESS\nsystem call NtClose\n" ++
           "\n# the mod+offs form of the above callstack:\n" ++
           "UNADDRESSABLE ACCESS\nsystem call NtClose\n\n").toList) ∧
    write_suppress_pattern nl_unix ERROR_UNADDRESSABLE stack_foo_main true
      = .ok "UNADDRESSABLE ACCESS\napp!foo\napp!main\n".toList := by
  decide

/-- C24: for the stack `stack_syscall_main` (a system call frame, then an
ordinary frame), the offset stanza that `write_suppress_pattern` emits has the
line `system call NtClose` followed by the line `<app+0x9>`;
`read_suppression_file` rejects it with the usage error "malformed suppression
mixes symbols and offsets", while it accepts the symbolic stanza. -/
theorem C24_offset_stanza_is_rejected :
    write_suppress_pattern nl_unix ERROR_UNADDRESSABLE stack_syscall_main false
      = .ok "UNADDRESSABLE ACCESS\nsystem call NtClose\n<app+0x9>\n".toList ∧
    read_suppression_file 12 supp_globals.init
        "UNADDRESSABLE ACCESS\nsystem call NtClose\n<app+0x9>\n".toList
      = .error (.usage_mixed "<app+0x9>".toList) ∧
    write_suppress_pattern nl_unix ERROR_UNADDRESSABLE stack_syscall_main true
      = .ok "UNADDRESSABLE ACCESS\nsystem call NtClose\napp!main\n".toList ∧
    (read_suppression_file 12 supp_globals.init
        "UNADDRESSABLE ACCESS\nsystem call NtClose\napp!main\n".toList).bind
      (fun g => (on_suppression_list nl_unix g.supp_list ERROR_UNADDRESSABLE
        stack_syscall_main).map Prod.fst) = .ok true := by
  decide

/-- C25: for the frame `app!f?o?` the symbolic stanza has the line `app!f*o?`:
only the first question mark of the frame is replaced. -/
theorem C25_only_first_question_mark_replaced :
    write_suppress_pattern nl_unix ERROR_UNADDRESSABLE stack_two_questions true
      = .ok "UNADDRESSABLE ACCESS\napp!f*o?\n".toList ∧
    '?' ∈ "app!f*o?".toList := by
  decide

/-- C39: the file `file_frameless_first` is read into two `WARNING` specs, the
two-frame spec in front of the spec without frames; alone, the spec without
frames suppresses the one-frame stack `stack_foo`, but behind the two-frame
spec it does not: the two-frame spec matches the frame `app!foo`, the stack
ends, and the search ends without a match. -/
theorem C39_frameless_spec_behind_longer_spec :
    read_suppression_file 12 supp_globals.init file_frameless_first
      = .ok { supp_list :=
                [[], [], [],
                 [{ symbolic := true, frames := [some "app!foo".toList, some "app!main".toList] },
                  { symbolic := false, frames := [] }],
                 [], []],
              supp_num := [0, 0, 0, 2, 0, 0], num_suppressions := 2 } ∧
    (on_suppression_list nl_unix
        [[], [], [],
         [{ symbolic := true, frames := [some "app!foo".toList, some "app!main".toList] },
          { symbolic := false, frames := [] }],
         [], []]
        ERROR_WARNING stack_foo).map Prod.fst = .ok false ∧
    (on_suppression_list nl_unix
        [[], [], [], [{ symbolic := false, frames := [] }], [], []]
        ERROR_WARNING stack_foo).map Prod.fst = .ok true := by
  decide

/-! ## Claims on the handlers of system call parameters -/

/-- C26: `os_syscall_succeeded(sysnum, res)` is true exactly when the signed
status `res` is non-negative or is `STATUS_BUFFER_OVERFLOW`, whatever `sysnum`
is; and when it is false `handle_post_DeviceIoControlFile` emits no mark. -/
theorem C26_syscall_success (A : win_abi) (sysnum res : Int) :
    (os_syscall_succeeded A sysnum res = true ↔ 0 ≤ res ∨ res = A.STATUS_BUFFER_OVERFLOW) ∧
    (∀ sysnum1, os_syscall_succeeded A sysnum1 res = os_syscall_succeeded A sysnum res) ∧
    (∀ (F : afd_abi) (mem : app_memory) (code inbuf insz outbuf outsz : Nat),
      os_syscall_succeeded A sysnum res = false →
      handle_post_DeviceIoControlFile F A mem sysnum res code inbuf insz outbuf outsz = []) := by
  refine ⟨?_, fun _ => rfl, ?_⟩
  · unfold os_syscall_succeeded
    by_cases h : res = A.STATUS_BUFFER_OVERFLOW
    · simp [h]
    · simp [h]
  · intro F mem code inbuf insz outbuf outsz h
    simp only [handle_post_DeviceIoControlFile, h, Bool.not_false, if_true]

theorem C26_syscall_success_witness :
    os_syscall_succeeded win32_abi 0 (-1) = false ∧
    handle_post_DeviceIoControlFile afd32_abi win32_abi mem_recv_datagram 0 (-1)
      0x1201b 0x1000 24 0x4000 16 = [] :=
  ⟨by decide,
   (C26_syscall_success win32_abi 0 (-1)).2.2 afd32_abi mem_recv_datagram
     0x1201b 0x1000 24 0x4000 16 (by decide)⟩

/-- C27: `handle_unicode_string_access`, called with the size of a
`UNICODE_STRING`, always returns true and first checks the header for
definedness, before and after the call; when the header is readable, before the
call it checks `MaximumLength` bytes at `Buffer` for addressability and, for a
parameter that is not written, `Length` bytes at `Buffer` for definedness;
after the call it marks `Length` bytes at `Buffer` as written for a parameter
that is written and nothing else; when the header is unreadable it checks
nothing else. -/
theorem C27_unicode_string_checks (A : win_abi) (mem : app_memory) (pre : Bool)
    (flags start size : Nat) (hsize : size = A.sizeof_UNICODE_STRING) :
    handle_unicode_string_access A mem pre flags start size = .ok (true,
      ⟨.check_definedness, start, A.sizeof_UNICODE_STRING⟩ ::
        (match mem.unicode_string start with
         | none => []
         | some us =>
           if pre = true then
             ⟨.check_addressable, us.Buffer, us.MaximumLength⟩ ::
               (if TEST SYSARG_WRITE flags = true then []
                else [⟨.check_definedness, us.Buffer, us.Length⟩])
           else if TEST SYSARG_WRITE flags = true then [⟨.write, us.Buffer, us.Length⟩]
           else [])) := by
  subst hsize
  unfold handle_unicode_string_access
  simp only [if_true]
  cases mem.unicode_string start with
  | none => rfl
  | some us =>
    cases pre <;> cases TEST SYSARG_WRITE flags <;> rfl

theorem C27_unicode_string_checks_witness :
    handle_unicode_string_access win32_abi mem_unicode_string true SYSARG_READ 0x1000 8 =
      .ok (true,
        [⟨.check_definedness, 0x1000, 8⟩, ⟨.check_addressable, 0x2000, 16⟩,
         ⟨.check_definedness, 0x2000, 6⟩]) :=
  C27_unicode_string_checks win32_abi mem_unicode_string true SYSARG_READ 0x1000 8 rfl

/-- C28: `handle_context_access` first checks the 4 bytes of `ContextFlags`;
when they are unreadable it checks nothing else; when they are readable (with
the bit `CONTEXT_i486` set, as its `ASSERT` wants) it then checks, in this
order, each group all of whose flag bits are set: the 6 dwords of debug
registers, the float save area, 2 bytes of each of `SegGs`, `SegFs`, `SegEs`,
`SegDs`, the 6 dwords of integer registers (not for `NtCreateThread`), the
control group `Ebp` (not for `NtCreateThread`), `Eip`, `Esp`, `EFlags` and 2
bytes of each of `SegCs` and `SegSs`, and the extended registers. -/
theorem C28_context_checks (A : win_abi) (mem : app_memory) (sysnum_CreateThread : Int)
    (pre : Bool) (sysnum : Int) (flags start : Nat) :
    (mem.dword start = none →
      handle_context_access A mem sysnum_CreateThread pre sysnum flags start =
        .ok (true, [⟨SYSARG_CHECK_TYPE flags pre, start, 4⟩])) ∧
    (∀ cf, mem.dword start = some cf → TEST A.CONTEXT_i486 cf = true →
      handle_context_access A mem sysnum_CreateThread pre sysnum flags start =
        .ok (true,
          [⟨SYSARG_CHECK_TYPE flags pre, start, 4⟩] ++
          (if TESTALL A.CONTEXT_DEBUG_REGISTERS cf = true then
             [⟨SYSARG_CHECK_TYPE flags pre, add32 start A.Dr0_offs, 24⟩] else []) ++
          (if TESTALL A.CONTEXT_FLOATING_POINT cf = true then
             [⟨SYSARG_CHECK_TYPE flags pre, add32 start A.FloatSave_offs, A.FloatSave_size⟩]
           else []) ++
          (if TESTALL A.CONTEXT_SEGMENTS cf = true then
             [⟨SYSARG_CHECK_TYPE flags pre, add32 start A.SegGs_offs, 2⟩,
              ⟨SYSARG_CHECK_TYPE flags pre, add32 start A.SegFs_offs, 2⟩,
              ⟨SYSARG_CHECK_TYPE flags pre, add32 start A.SegEs_offs, 2⟩,
              ⟨SYSARG_CHECK_TYPE flags pre, add32 start A.SegDs_offs, 2⟩] else []) ++
          (if TESTALL A.CONTEXT_INTEGER cf = true ∧ sysnum ≠ sysnum_CreateThread then
             [⟨SYSARG_CHECK_TYPE flags pre, add32 start A.Edi_offs, 24⟩] else []) ++
          (if TESTALL A.CONTEXT_CONTROL cf = true then
             (if sysnum ≠ sysnum_CreateThread then
                [⟨SYSARG_CHECK_TYPE flags pre, add32 start A.Ebp_offs, 4⟩] else []) ++
             [⟨SYSARG_CHECK_TYPE flags pre, add32 start A.Eip_offs, 4⟩,
              ⟨SYSARG_CHECK_TYPE flags pre, add32 start A.Esp_offs, 4⟩,
              ⟨SYSARG_CHECK_TYPE flags pre, add32 start A.EFlags_offs, 4⟩,
              ⟨SYSARG_CHECK_TYPE flags pre, add32 start A.SegCs_offs, 2⟩,
              ⟨SYSARG_CHECK_TYPE flags pre, add32 start A.SegSs_offs, 2⟩] else []) ++
          (if TESTALL A.CONTEXT_EXTENDED_REGISTERS cf = true then
             [⟨SYSARG_CHECK_TYPE flags pre, add32 start A.ExtendedRegisters_offs,
               A.ExtendedRegisters_size⟩] else []))) := by
  constructor
  · intro h
    simp only [handle_context_access, h]
  · intro cf h ht
    simp only [handle_context_access, h, ht, if_true]
    by_cases hn : sysnum = sysnum_CreateThread
    · subst hn
      cases TESTALL A.CONTEXT_DEBUG_REGISTERS cf <;> cases TESTALL A.CONTEXT_FLOATING_POINT cf <;>
      cases TESTALL A.CONTEXT_SEGMENTS cf <;> cases TESTALL A.CONTEXT_INTEGER cf <;>
      cases TESTALL A.CONTEXT_CONTROL cf <;> cases TESTALL A.CONTEXT_EXTENDED_REGISTERS cf <;>
      simp
    · have hb : (sysnum != sysnum_CreateThread) = true := by simpa using hn
      cases TESTALL A.CONTEXT_DEBUG_REGISTERS cf <;> cases TESTALL A.CONTEXT_FLOATING_POINT cf <;>
      cases TESTALL A.CONTEXT_SEGMENTS cf <;> cases TESTALL A.CONTEXT_INTEGER cf <;>
      cases TESTALL A.CONTEXT_CONTROL cf <;> cases TESTALL A.CONTEXT_EXTENDED_REGISTERS cf <;>
      simp [hb, hn]

theorem C28_context_checks_witness :
    mem_context_full.dword 0x1000 = some 0x10007 ∧
    TEST win32_abi.CONTEXT_i486 0x10007 = true ∧
    handle_context_access win32_abi mem_context_full 53 true 53 SYSARG_WRITE 0x1000 =
      .ok (true,
        [⟨.check_addressable, 0x1000, 4⟩,
         ⟨.check_addressable, 0x108c, 2⟩, ⟨.check_addressable, 0x1090, 2⟩,
         ⟨.check_addressable, 0x1094, 2⟩, ⟨.check_addressable, 0x1098, 2⟩,
         ⟨.check_addressable, 0x10b8, 4⟩, ⟨.check_addressable, 0x10c4, 4⟩,
         ⟨.check_addressable, 0x10c0, 4⟩, ⟨.check_addressable, 0x10bc, 2⟩,
         ⟨.check_addressable, 0x10c8, 2⟩]) :=
  ⟨rfl, by decide,
   (C28_context_checks win32_abi mem_context_full 53 true 53 SYSARG_WRITE 0x1000).2
     0x10007 rfl (by decide)⟩

/-- C29, counterexample: a readable `PORT_MESSAGE` whose `DataLength` is 0x144
and whose `TotalLength` is 0x15c is checked over 0x15c = 348 bytes, which is
more than `sizeof(PORT_MESSAGE) + PORT_MAXIMUM_MESSAGE_LENGTH` = 280. -/
theorem C29_counterexample :
    handle_port_message_access win32_abi mem_port_message true SYSARG_READ 0x1000 24
      = .ok (true, [⟨.check_definedness, 0x1000, 348⟩]) ∧
    ¬ (348 ≤ win32_abi.sizeof_PORT_MESSAGE + win32_abi.PORT_MAXIMUM_MESSAGE_LENGTH) := by
  decide

/-- C29, amended: when `handle_port_message_access` returns, it returns true
and has checked one region, which starts at the message pointer; its length is
`sizeof(PORT_MESSAGE) + PORT_MAXIMUM_MESSAGE_LENGTH` for a parameter that is
written, before the call; otherwise, when the header is readable, the length
read from it (`TotalLength` when `DataLength > 0`, else the 32-bit `Length`,
which is 0 for a message of zeros), which is at most twice
`sizeof(PORT_MESSAGE) + PORT_MAXIMUM_MESSAGE_LENGTH`; otherwise the declared
size, which is `sizeof(PORT_MESSAGE)`. -/
theorem C29_port_message_region (A : win_abi) (mem : app_memory) (pre : Bool)
    (flags start size : Nat) (r : Bool) (cs : List sysmem_check)
    (h : handle_port_message_access A mem pre flags start size = .ok (r, cs)) :
    r = true ∧ ∃ sz, cs = [⟨SYSARG_CHECK_TYPE flags pre, start, sz⟩] ∧
      ((TEST SYSARG_WRITE flags = true ∧ pre = true ∧
          sz = add32 A.sizeof_PORT_MESSAGE A.PORT_MAXIMUM_MESSAGE_LENGTH) ∨
       (¬ (TEST SYSARG_WRITE flags = true ∧ pre = true) ∧
          ∃ pm, mem.port_message start = some pm ∧
            sz = (if 0 < pm.DataLength % 2 ^ 16 ∧ pm.DataLength % 2 ^ 16 < 2 ^ 15 then
                    cshort_to_uint pm.TotalLength
                  else pm.DataLength % 2 ^ 16 + 2 ^ 16 * (pm.TotalLength % 2 ^ 16)) ∧
            sz ≤ mul32 2 (add32 A.sizeof_PORT_MESSAGE A.PORT_MAXIMUM_MESSAGE_LENGTH) ∧
            (sz = 0 ∨ A.sizeof_PORT_MESSAGE ≤ sz)) ∨
       (¬ (TEST SYSARG_WRITE flags = true ∧ pre = true) ∧ mem.port_message start = none ∧
          sz = size ∧ size = A.sizeof_PORT_MESSAGE)) := by
  unfold handle_port_message_access at h
  simp only [] at h
  by_cases hw : TEST SYSARG_WRITE flags = true ∧ pre = true
  · obtain ⟨hw1, hw2⟩ := hw
    subst hw2
    simp only [hw1, Bool.and_self, if_true] at h
    cases h
    exact ⟨rfl, _, rfl, Or.inl ⟨hw1, rfl, rfl⟩⟩
  · have hwb : (TEST SYSARG_WRITE flags && pre) = false := by
      cases hA : TEST SYSARG_WRITE flags <;> cases hB : pre <;> simp_all
    simp only [hwb, Bool.false_eq_true, if_false] at h
    cases hpm : mem.port_message start with
    | some pm =>
      rw [hpm] at h
      simp only [] at h
      generalize hS : (if 0 < pm.DataLength % 2 ^ 16 ∧ pm.DataLength % 2 ^ 16 < 2 ^ 15 then
          cshort_to_uint pm.TotalLength
        else pm.DataLength % 2 ^ 16 + 2 ^ 16 * (pm.TotalLength % 2 ^ 16)) = S at h
      by_cases h2 : S ≤ mul32 2 (add32 A.sizeof_PORT_MESSAGE A.PORT_MAXIMUM_MESSAGE_LENGTH)
      · simp only [h2, if_true] at h
        by_cases h3 : S = 0 ∨ A.sizeof_PORT_MESSAGE ≤ S
        · simp only [h3, if_true] at h
          cases h
          exact ⟨rfl, S, rfl, Or.inr (Or.inl ⟨hw, pm, rfl, hS.symm, h2, h3⟩)⟩
        · simp only [h3, if_false] at h
          cases h
      · simp only [h2, if_false] at h
        cases h
    | none =>
      rw [hpm] at h
      simp only [] at h
      by_cases h2 : size = A.sizeof_PORT_MESSAGE
      · rw [if_pos h2] at h
        cases h
        exact ⟨rfl, _, rfl, Or.inr (Or.inr ⟨hw, rfl, rfl, h2⟩)⟩
      · rw [if_neg h2] at h
        cases h

theorem C29_port_message_region_witness :
    true = true ∧ ∃ sz, [(⟨.check_definedness, 0x1000, 348⟩ : sysmem_check)] =
        [⟨SYSARG_CHECK_TYPE SYSARG_READ true, 0x1000, sz⟩] ∧
      ((TEST SYSARG_WRITE SYSARG_READ = true ∧ true = true ∧
          sz = add32 win32_abi.sizeof_PORT_MESSAGE win32_abi.PORT_MAXIMUM_MESSAGE_LENGTH) ∨
       (¬ (TEST SYSARG_WRITE SYSARG_READ = true ∧ true = true) ∧
          ∃ pm, mem_port_message.port_message 0x1000 = some pm ∧
            sz = (if 0 < pm.DataLength % 2 ^ 16 ∧ pm.DataLength % 2 ^ 16 < 2 ^ 15 then
                    cshort_to_uint pm.TotalLength
                  else pm.DataLength % 2 ^ 16 + 2 ^ 16 * (pm.TotalLength % 2 ^ 16)) ∧
            sz ≤ mul32 2 (add32 win32_abi.sizeof_PORT_MESSAGE
              win32_abi.PORT_MAXIMUM_MESSAGE_LENGTH) ∧
            (sz = 0 ∨ win32_abi.sizeof_PORT_MESSAGE ≤ sz)) ∨
       (¬ (TEST SYSARG_WRITE SYSARG_READ = true ∧ true = true) ∧
          mem_port_message.port_message 0x1000 = none ∧
          sz = 24 ∧ 24 = win32_abi.sizeof_PORT_MESSAGE)) :=
  C29_port_message_region win32_abi mem_port_message true SYSARG_READ 0x1000 24 true
    [⟨.check_definedness, 0x1000, 348⟩] (by decide)

/-- C30: for a `sockaddr` of the family `AF_INET` at 0x2000 with `len = 2`,
`check_sockaddr` checks the 2 bytes of the family and then the port at
[0x2002, 0x2004) and the address at [0x2004, 0x2008), which are outside
[ptr, ptr + len). -/
theorem C30_checks_beyond_len :
    check_sockaddr win32_abi mem_recv_datagram 0x2000 2 .check_definedness =
      [⟨.check_definedness, 0x2000, 2⟩, ⟨.check_definedness, 0x2002, 2⟩,
       ⟨.check_definedness, 0x2004, 4⟩] ∧
    ¬ (0x2004 + 4 ≤ 0x2000 + 2) := by
  decide

/-- C31: for a datagram receive (`0x1201b`) whose `AddressLength` is 2 and
whose address family is `AF_INET`, with the same arguments and the same memory
before and after the call, the post-call handler marks the bytes
[0x2002, 0x2004) and [0x2004, 0x2008) as written, while the pre-call handler
has checked [0x1000, 0x1018), [0x2000, 0x2002) and an empty region: the byte at
0x2004 is marked as written, is covered by no pre-call check and is not in the
output buffer [0x4000, 0x4010). -/
theorem C31_mark_without_check :
    handle_pre_DeviceIoControlFile afd32_abi win32_abi mem_recv_datagram ⟨0, 0, 0⟩
        0x1201b 0x1000 24 =
      (true, [⟨.check_addressable, 0x1000, 24⟩, ⟨.check_definedness, 0x1000, 24⟩,
              ⟨.check_addressable, 0x2000, 2⟩, ⟨.check_definedness, 0x1800, 0⟩]) ∧
    handle_post_DeviceIoControlFile afd32_abi win32_abi mem_recv_datagram 0 0
        0x1201b 0x1000 24 0x4000 16 =
      [⟨.write, 0x2002, 2⟩, ⟨.write, 0x2004, 4⟩] ∧
    (handle_post_DeviceIoControlFile afd32_abi win32_abi mem_recv_datagram 0 0
        0x1201b 0x1000 24 0x4000 16).any (fun c => covers c 0x2004) = true ∧
    (handle_pre_DeviceIoControlFile afd32_abi win32_abi mem_recv_datagram ⟨0, 0, 0⟩
        0x1201b 0x1000 24).2.any (fun c => covers c 0x2004) = false ∧
    ¬ (0x4000 ≤ 0x2004 ∧ 0x2004 < 0x4000 + 16) := by
  decide

/-- C32: for `AFD_SET_CONTEXT` (`0x12047`) with an input buffer whose
`SOCKET_CONTEXT` cannot be read, the checks depend on what the local `sc`
happens to hold: with the same arguments and the same memory, the last check
is over 0 bytes at 0x1070 when the local holds zeros and over 8 bytes at
0x1090 when it holds the sizes 16, 16 and 8. -/
theorem C32_checks_from_unread_context :
    handle_pre_DeviceIoControlFile afd32_abi win32_abi mem_unreadable ⟨0, 0, 0⟩
        0x12047 0x1000 200 =
      (true, [⟨.check_addressable, 0x1000, 200⟩, ⟨.check_definedness, 0x1000, 104⟩,
              ⟨.check_definedness, 0x1070, 0⟩]) ∧
    handle_pre_DeviceIoControlFile afd32_abi win32_abi mem_unreadable ⟨16, 16, 8⟩
        0x12047 0x1000 200 =
      (true, [⟨.check_addressable, 0x1000, 200⟩, ⟨.check_definedness, 0x1000, 104⟩,
              ⟨.check_definedness, 0x1090, 8⟩]) := by
  decide

/-- C36, counterexample: the operation number of the control code `0x120bf` is
47, not 35. -/
theorem C36_counterexample : ioctl_operation 0x120bf = 47 ∧ ioctl_operation 0x120bf ≠ 35 := by
  decide

/-- C36, amended: the operation number extracted from a control code `c` (a
`uint`) is `(c mod 4096) div 4`, by the same statement in the two handlers, and
it maps `0x12003` to 0, `0x12007` to 1, `0x1200b` to 2, `0x12010` to 4,
`0x12017` to 5, `0x1201b` to 6, `0x1201f` to 7, `0x12023` to 8, `0x12024` to 9,
`0x1202b` to 10, `0x12037` to 13, `0x1203b` to 14, `0x12047` to 17, `0x1207b`
to 30, `0x12087` to 33, `0x1208b` to 34, and `0x120bf` to 47; the code whose
operation number is 35 with the same method bits is `0x1208f`. -/
theorem C36_operation_number (c : Nat) :
    ioctl_operation c = c % 2 ^ 32 % 4096 / 4 ∧
    [0x12003, 0x12007, 0x1200b, 0x12010, 0x12017, 0x1201b, 0x1201f, 0x12023, 0x12024,
      0x1202b, 0x12037, 0x1203b, 0x12047, 0x1207b, 0x12087, 0x1208b, 0x120bf, 0x1208f].map
        ioctl_operation
      = [0, 1, 2, 4, 5, 6, 7, 8, 9, 10, 13, 14, 17, 30, 33, 34, 47, 35] := by
  constructor
  · unfold ioctl_operation
    have h1 : (0xfff : Nat) = 2 ^ 12 - 1 := by decide
    rw [h1, Nat.and_pow_two_sub_one_eq_mod, Nat.shiftRight_eq_div_pow]
  · decide

/-! ## Claims on the string instructions -/

/-- C34: in `repstr_test` as it is written, with the blocks `a1` at 0x1000 and
`a2` at 0x2000, `rep movsb` copies the 15 bytes of `a2`, none of which has been
written, over `a1`: afterwards every byte of `a1` is `Undefined`, byte 0 as
well as byte 7, and not byte 7 alone; `rep stosb` then runs over `a2`, the
source of the copy, and makes it `Defined`, so the compare of `a2[7]` reports
nothing; and the first iteration of `repne cmpsb` already reads the undefined
byte `a1[0]`. -/
theorem C34_movs_copies_the_other_way :
    (List.range 15).map (fun i => (repstr_test (fun _ => .Unaddressable) 0x1000 0x2000).after_movs
        (0x1000 + i)) = List.replicate 15 .Undefined ∧
    (List.range 15).map (fun i => (repstr_test (fun _ => .Unaddressable) 0x1000 0x2000).after_stos
        (0x2000 + i)) = List.replicate 15 .Defined ∧
    (List.range 15).map (fun i => (repstr_test (fun _ => .Unaddressable) 0x1000 0x2000).after_stos
        (0x1000 + i)) = List.replicate 15 .Undefined ∧
    (repstr_test (fun _ => .Unaddressable) 0x1000 0x2000).cmp_errors = [] ∧
    (repstr_test (fun _ => .Unaddressable) 0x1000 0x2000).cmps_errors = [0x1000] := by
  decide

end DrMemory
